import Mathlib

/-!
# QLever `ParsedQuery`: graph-pattern numbering, merge, language filters and
# solution modifiers

A shallow embedding of `src/parser/ParsedQuery.cpp` and `src/util/Algorithm.h`.

Conventions of the embedding

* `std::vector<T>` is `List T`; `emplace_back`/`push_back` append at the end.
* `std::string` is `String`; one `Char` stands for one C++ `char`.
* A function that mutates `*this` takes the old value and returns the new one.
* A function that can throw returns `Except`; the error of `addSolutionModifiers`
  also carries the query as it stands at the `throw`, because the mutation is in place.
* `size_t` counters (`_id`, `_numGraphPatterns`, `numInternalVariables_`) are `Nat`:
  they count nodes of a tree held in memory (resp. calls on one query), so they stay
  far below `2 ^ 64`, where `size_t` would wrap. Where the source really wraps, the
  embedding is explicit: `languageInQuotes.size() - 2` with `% 2 ^ 64`, and the `int`
  accumulator of `ad_utility::flatten` with `% 2 ^ 32`.
* The expression subsystem (`sparqlExpression::SparqlExpressionPimpl`) is not part of
  these sources: expressions are a type parameter `E` and the member functions that the
  code calls are passed as a record `SparqlExpressionCapability E`.
-/

namespace Qlever

/-! ## `util/Algorithm.h` -/

namespace ad_utility

/-- `ad_utility::contains`: `std::find(begin, end, element) != end`. -/
def contains {α : Type} [DecidableEq α] (container : List α) (element : α) : Bool :=
  (container.find? (fun x => decide (x = element))).isSome

/-- `ad_utility::contains_if`: `std::find_if(begin, end, predicate) != end`. -/
def contains_if {α : Type} (container : List α) (predicate : α → Bool) : Bool :=
  (container.find? predicate).isSome

/-- `ad_utility::appendVector`: appends `source` to `destination`. -/
def appendVector {α : Type} (destination source : List α) : List α :=
  destination ++ source

/-- `ad_utility::transform`: applies `unaryOp` to every element. -/
def transform {α β : Type} (input : List α) (unaryOp : α → β) : List β :=
  input.map unaryOp

/-- The argument of `out.reserve(...)` in `ad_utility::flatten`. `std::accumulate` is called
with the initial value `0`, so the sum is kept in an `int`: every step adds the inner size
in `size_t` and stores the result back into the `int`, which keeps the low 32 bits. The
value is the bit pattern of that `int`, a number below `2 ^ 32`; from `2 ^ 31` on the `int`
is negative. -/
def flattenReserveArgument {α : Type} (input : List (List α)) : Nat :=
  input.foldl (fun i elem => (i + elem.length) % 2 ^ 32) 0

/-- `ad_utility::flatten`: reserves the accumulated size, then appends the inner vectors
one after the other. A negative `int` converts to a `size_t` above `max_size()`, on which
`reserve` throws `std::length_error`; this is `none`. -/
def flatten {α : Type} (input : List (List α)) : Option (List α) :=
  if 2 ^ 31 ≤ flattenReserveArgument input then none
  else some (input.foldl appendVector [])

end ad_utility

/-! ## Data model -/

/-- Modelled from the spec: `Variable` (its declaration is not among the sources) is
"an identifier (name string) with value equality". -/
structure Variable where
  _name : String
  deriving DecidableEq, Repr

/-- `Variable::name()`. -/
def Variable.name (v : Variable) : String := v._name

/-- `Variable::toSparql()`: a variable is written as its name. -/
def Variable.toSparql (v : Variable) : String := v._name

/-- Modelled from the spec: subject and object of a triple "may be variables or fixed
terms"; a fixed term is kept in its string form. -/
inductive TripleComponent where
  | ofVariable (v : Variable)
  | ofTerm (s : String)
  deriving DecidableEq, Repr

/-- `TripleComponent == Variable`: holds a variable, and it is that one. -/
def TripleComponent.eqVariable (c : TripleComponent) (v : Variable) : Bool :=
  match c with
  | .ofVariable w => decide (w = v)
  | .ofTerm _ => false

/-- Modelled from the spec: the predicate is "a property-path expression, itself a tagged
union with at minimum an IRI leaf case"; `IRI` is the only tag the code names. -/
inductive PropertyPathOperation where
  | SEQUENCE
  | ALTERNATIVE
  | TRANSITIVE
  | INVERSE
  | IRI
  deriving DecidableEq, Repr

/-- Modelled from the spec: `PropertyPath` with the two members the code reads and writes,
`_operation` and `_iri`. Sub-paths of a complex path are never inspected here. -/
structure PropertyPath where
  _operation : PropertyPathOperation
  _iri : String
  deriving DecidableEq, Repr

/-- `PropertyPath::fromIri`. -/
def PropertyPath.fromIri (iri : String) : PropertyPath :=
  { _operation := .IRI, _iri := iri }

/-- Modelled from the spec: `isVariable(const std::string&)` (not among the sources): a
SPARQL variable starts with a question mark. -/
def isVariableString (elem : String) : Bool :=
  match elem.data with
  | c :: _ => decide (c = '?')
  | [] => false

/-- Modelled from the spec: `isVariable(const PropertyPath&)` (not among the sources): an
`IRI` leaf whose text "is a variable". -/
def isVariable (elem : PropertyPath) : Bool :=
  decide (elem._operation = .IRI) && isVariableString elem._iri

/-- `SparqlTriple`: `_s`, `_p`, `_o` (see `SparqlTriple::asString`). -/
structure SparqlTriple where
  _s : TripleComponent
  _p : PropertyPath
  _o : TripleComponent
  deriving DecidableEq, Repr

/-- Modelled from the spec: a filter / HAVING entry is a boolean condition, an expression. -/
structure SparqlFilter (E : Type) where
  expression_ : E

/-- `Alias`: an expression plus a target variable. -/
structure Alias (E : Type) where
  _expression : E
  _target : Variable

/-- Modelled from the spec: the member functions of the expression subsystem that the
resolver calls (§6, "Expression capability"). -/
structure SparqlExpressionCapability (E : Type) where
  containedVariables : E → List Variable
  containsAggregate : E → Bool
  isAggregate : E → List String → Bool
  getUnaggregatedVariables : E → List String → List Variable
  getDescriptor : E → String

/-- The member `varsAndAliasesOrAsterisk_` of `SelectClause` (named in `asString`):
either `SELECT *`, or the selected variables together with the aliases. -/
inductive VarsAndAliasesOrAsterisk (E : Type) where
  | Asterisk
  | VarsAndAliases (vars_ : List Variable) (aliases_ : List (Alias E))

/-- `SelectClause`. -/
structure SelectClause (E : Type) where
  varsAndAliasesOrAsterisk_ : VarsAndAliasesOrAsterisk E
  distinct_ : Bool
  reduced_ : Bool
  visibleVariables_ : List Variable

/-- Modelled from the spec: a term of a CONSTRUCT template, a variable or a fixed term. -/
inductive GraphTerm where
  | ofVariable (v : Variable)
  | ofTerm (s : String)
  deriving DecidableEq, Repr

/-- `ConstructClause`: the template `triples_` and the visible variables. -/
structure ConstructClause where
  triples_ : List (GraphTerm × GraphTerm × GraphTerm)
  visibleVariables_ : List Variable

/-- The member `_clause`, a `std::variant<SelectClause, ConstructClause>`. -/
inductive Clause (E : Type) where
  | select (c : SelectClause E)
  | construct (c : ConstructClause)

/-- `VariableOrderKey`. -/
structure VariableOrderKey where
  variable_ : Variable
  isDescending_ : Bool
  deriving DecidableEq, Repr

/-- `ExpressionOrderKey`. -/
structure ExpressionOrderKey (E : Type) where
  isDescending_ : Bool
  expression_ : E

/-- One entry of `OrderClause::orderKeys`. -/
inductive OrderKey (E : Type) where
  | ofVariable (k : VariableOrderKey)
  | ofExpression (k : ExpressionOrderKey E)

/-- `OrderClause`. -/
structure OrderClause (E : Type) where
  isInternalSort : Bool
  orderKeys : List (OrderKey E)

/-- One entry of `SolutionModifiers::groupByVariables_`. -/
inductive GroupKey (E : Type) where
  | ofVariable (v : Variable)
  | ofExpression (e : E)
  | ofAlias (a : Alias E)

/-- `LimitOffsetClause`. -/
structure LimitOffsetClause where
  _limit : Nat
  _textLimit : Nat
  _offset : Nat
  deriving DecidableEq, Repr

/-- `SolutionModifiers`. -/
structure SolutionModifiers (E : Type) where
  groupByVariables_ : List (GroupKey E)
  havingClauses_ : List (SparqlFilter E)
  orderBy_ : OrderClause E
  limitOffset_ : LimitOffsetClause

/-- The data members of `ParsedQuery`; `P` is the type of the root graph pattern (the
pattern type itself contains subqueries, see `GraphPatternOperation.Subquery`). -/
structure ParsedQueryOver (E P : Type) where
  _rootGraphPattern : P
  _havingClauses : List (SparqlFilter E)
  _numGraphPatterns : Nat
  numInternalVariables_ : Nat
  _orderBy : List VariableOrderKey
  _isInternalSort : Bool
  _limitOffset : LimitOffsetClause
  _groupByVariables : List Variable
  _clause : Clause E

mutual
/-- `ParsedQuery::GraphPattern`: `_optional`, `_id`, `_filters`, `_graphPatterns`. -/
inductive GraphPattern (E : Type) where
  | mk (_optional : Bool) (_id : Nat) (_filters : List (SparqlFilter E))
      (_graphPatterns : List (GraphPatternOperation E))
/-- `parsedQuery::GraphPatternOperation`, a variant over the pattern kinds. -/
inductive GraphPatternOperation (E : Type) where
  | Optional (_child : GraphPattern E)
  | Union (_child1 _child2 : GraphPattern E)
  | Subquery (_subquery : ParsedQueryOver E (GraphPattern E))
  | TransPath (_left _right : TripleComponent) (_childGraphPattern : GraphPattern E)
  | Bind (_expression : E) (_target : Variable)
  | BasicGraphPattern (_triples : List SparqlTriple)
  | Values (_variables : List String) (_values : List (List String)) (_id : Nat)
  | Service (serviceIri_ : String) (graphPatternAsString_ : String)
  | Minus (_child : GraphPattern E)
  | GroupGraphPattern (_child : GraphPattern E)
end

/-- `ParsedQuery`. -/
abbrev ParsedQuery (E : Type) : Type := ParsedQueryOver E (GraphPattern E)

namespace GraphPattern

variable {E : Type}

/-- Member `_optional`. -/
def _optional : GraphPattern E → Bool
  | .mk o _ _ _ => o

/-- Member `_id`. -/
def _id : GraphPattern E → Nat
  | .mk _ i _ _ => i

/-- Member `_filters`. -/
def _filters : GraphPattern E → List (SparqlFilter E)
  | .mk _ _ f _ => f

/-- Member `_graphPatterns`, the ordered child sequence. -/
def _graphPatterns : GraphPattern E → List (GraphPatternOperation E)
  | .mk _ _ _ ops => ops

end GraphPattern

/-! ## Identity numbering: `GraphPattern::recomputeIds` -/

section Numbering

variable {E : Type}

mutual
/-- `GraphPattern::recomputeIds(size_t* id_count)` for a non-null `id_count` whose
pointee holds the second argument; returns the renumbered pattern and the new value of
the pointee. `_id = *id_count; (*id_count)++;` and then the loop over `_graphPatterns`. -/
def GraphPattern.recomputeIds : GraphPattern E → Nat → GraphPattern E × Nat
  | .mk o _ f ops, id_count =>
    let r := recomputeIdsChildren ops (id_count + 1)
    (.mk o id_count f r.1, r.2)
/-- The loop `for (auto& op : _graphPatterns) op.visit(...)` of `recomputeIds`. -/
def recomputeIdsChildren : List (GraphPatternOperation E) → Nat →
    List (GraphPatternOperation E) × Nat
  | [], id_count => ([], id_count)
  | op :: rest, id_count =>
    let r := GraphPatternOperation.recomputeIdsVisit op id_count
    let r2 := recomputeIdsChildren rest r.2
    (r.1 :: r2.1, r2.2)
/-- The visitor of `recomputeIds`, one branch of the `if constexpr` chain per kind. -/
def GraphPatternOperation.recomputeIdsVisit : GraphPatternOperation E → Nat →
    GraphPatternOperation E × Nat
  | .Union c1 c2, id_count =>
    let r1 := GraphPattern.recomputeIds c1 id_count
    let r2 := GraphPattern.recomputeIds c2 r1.2
    (.Union r1.1 r2.1, r2.2)
  | .Optional c, id_count =>
    let r := GraphPattern.recomputeIds c id_count
    (.Optional r.1, r.2)
  | .GroupGraphPattern c, id_count =>
    let r := GraphPattern.recomputeIds c id_count
    (.GroupGraphPattern r.1, r.2)
  | .Minus c, id_count =>
    let r := GraphPattern.recomputeIds c id_count
    (.Minus r.1, r.2)
  | .TransPath l r c, id_count => (.TransPath l r c, id_count)
  | .Values vars vals _, id_count => (.Values vars vals id_count, id_count + 1)
  | .Subquery q, id_count => (.Subquery q, id_count)
  | .Service iri pat, id_count => (.Service iri pat, id_count)
  | .BasicGraphPattern ts, id_count => (.BasicGraphPattern ts, id_count)
  | .Bind e t, id_count => (.Bind e t, id_count)
end

/-- `recomputeIds(nullptr)`: the function allocates its own counter, starting at 0, and
frees it at the end. -/
def GraphPattern.recomputeIdsNullptr (g : GraphPattern E) : GraphPattern E :=
  (g.recomputeIds 0).1

mutual
/-- The identities that one numbering pass writes, in the order of the walk: the one
of the pattern itself, then those below it. -/
def GraphPattern.numberedIds : GraphPattern E → List Nat
  | .mk _ i _ ops => i :: numberedIdsChildren ops
/-- The identities below a child sequence. -/
def numberedIdsChildren : List (GraphPatternOperation E) → List Nat
  | [] => []
  | op :: rest => GraphPatternOperation.numberedIds op ++ numberedIdsChildren rest
/-- The identities inside one child node: both branches of a Union, the child of an
Optional, GroupGraphPattern or Minus, the own identity of a Values node. -/
def GraphPatternOperation.numberedIds : GraphPatternOperation E → List Nat
  | .Union c1 c2 => GraphPattern.numberedIds c1 ++ GraphPattern.numberedIds c2
  | .Optional c => GraphPattern.numberedIds c
  | .GroupGraphPattern c => GraphPattern.numberedIds c
  | .Minus c => GraphPattern.numberedIds c
  | .Values _ _ i => [i]
  | .TransPath _ _ _ => []
  | .Subquery _ => []
  | .Service _ _ => []
  | .BasicGraphPattern _ => []
  | .Bind _ _ => []
end

/-- The identities of the numbered nodes strictly below a pattern. -/
def GraphPattern.idsBelow (g : GraphPattern E) : List Nat :=
  numberedIdsChildren g._graphPatterns

mutual
/-- The GraphPatterns that one numbering pass numbers: the pattern itself and every
pattern reached through Union branches and Optional / GroupGraphPattern / Minus children. -/
def GraphPattern.numberedPatterns : GraphPattern E → List (GraphPattern E)
  | .mk o i f ops => .mk o i f ops :: numberedPatternsChildren ops
/-- The numbered GraphPatterns below a child sequence. -/
def numberedPatternsChildren : List (GraphPatternOperation E) → List (GraphPattern E)
  | [] => []
  | op :: rest => GraphPatternOperation.numberedPatterns op ++ numberedPatternsChildren rest
/-- The numbered GraphPatterns inside one child node. -/
def GraphPatternOperation.numberedPatterns : GraphPatternOperation E →
    List (GraphPattern E)
  | .Union c1 c2 => GraphPattern.numberedPatterns c1 ++ GraphPattern.numberedPatterns c2
  | .Optional c => GraphPattern.numberedPatterns c
  | .GroupGraphPattern c => GraphPattern.numberedPatterns c
  | .Minus c => GraphPattern.numberedPatterns c
  | .Values _ _ _ => []
  | .TransPath _ _ _ => []
  | .Subquery _ => []
  | .Service _ _ => []
  | .BasicGraphPattern _ => []
  | .Bind _ _ => []
end

mutual
/-- The pattern with every identity that a numbering pass writes set to 0: two patterns
with the same image differ at most in those identities. -/
def GraphPattern.eraseIds : GraphPattern E → GraphPattern E
  | .mk o _ f ops => .mk o 0 f (eraseIdsChildren ops)
/-- `eraseIds` on a child sequence. -/
def eraseIdsChildren : List (GraphPatternOperation E) → List (GraphPatternOperation E)
  | [] => []
  | op :: rest => GraphPatternOperation.eraseIds op :: eraseIdsChildren rest
/-- `eraseIds` on one child node. -/
def GraphPatternOperation.eraseIds : GraphPatternOperation E → GraphPatternOperation E
  | .Union c1 c2 => .Union (GraphPattern.eraseIds c1) (GraphPattern.eraseIds c2)
  | .Optional c => .Optional (GraphPattern.eraseIds c)
  | .GroupGraphPattern c => .GroupGraphPattern (GraphPattern.eraseIds c)
  | .Minus c => .Minus (GraphPattern.eraseIds c)
  | .Values vars vals _ => .Values vars vals 0
  | .TransPath l r c => .TransPath l r c
  | .Subquery q => .Subquery q
  | .Service iri pat => .Service iri pat
  | .BasicGraphPattern ts => .BasicGraphPattern ts
  | .Bind e t => .Bind e t
end

/-- `ParsedQuery::merge(const ParsedQuery& p)`: insert the children of the root of `p` at
the end of the children of the own root, then `_numGraphPatterns = 0` and
`_rootGraphPattern.recomputeIds(&_numGraphPatterns)`. -/
def ParsedQueryOver.merge (q p : ParsedQuery E) : ParsedQuery E :=
  let children := q._rootGraphPattern._graphPatterns ++ p._rootGraphPattern._graphPatterns
  let root : GraphPattern E :=
    .mk q._rootGraphPattern._optional q._rootGraphPattern._id q._rootGraphPattern._filters
      children
  let r := root.recomputeIds 0
  { q with _rootGraphPattern := r.1, _numGraphPatterns := r.2 }

end Numbering

/-! ## `GraphPattern::addLanguageFilter` -/

section LanguageFilter

variable {E : Type}

/-- `std::string::substr(pos, count)`: throws `std::out_of_range` (here `none`) when
`pos > size()`, otherwise the characters from `pos` on, at most `count` of them. -/
def substr (s : String) (pos count : Nat) : Option String :=
  if pos > s.length then none else some ⟨(s.data.drop pos).take count⟩

/-- The condition under which `addLanguageFilter` collects a triple: `triple._o == variable
&& (triple._p._operation == PropertyPath::Operation::IRI && !isVariable(triple._p))`. -/
def isMatchingTriple (var : Variable) (triple : SparqlTriple) : Bool :=
  triple._o.eqVariable var &&
    (decide (triple._p._operation = .IRI) && !isVariable triple._p)

/-- The vector `matchingTriples` after the first loop of `addLanguageFilter`: the
matching triples of the `BasicGraphPattern`s among the children, in order. -/
def matchingTriples (var : Variable) :
    List (GraphPatternOperation E) → List SparqlTriple
  | [] => []
  | .BasicGraphPattern ts :: rest =>
    ts.filter (isMatchingTriple var) ++ matchingTriples var rest
  | _ :: rest => matchingTriples var rest

/-- The assignment `triplePtr->_p._iri = '@' + langTag + '@' + triplePtr->_p._iri`. -/
def replaceTriple (langTag : String) (triple : SparqlTriple) : SparqlTriple :=
  { triple with _p := { triple._p with _iri := "@" ++ langTag ++ "@" ++ triple._p._iri } }

/-- The effect of the loop "Replace all the matching triples" on one child: the pointers
collected before are exactly the matching triples of the `BasicGraphPattern` children. -/
def replaceMatchingTriples (langTag : String) (var : Variable) :
    GraphPatternOperation E → GraphPatternOperation E
  | .BasicGraphPattern ts =>
    .BasicGraphPattern
      (ts.map (fun t => if isMatchingTriple var t then replaceTriple langTag t else t))
  | op => op

/-- `std::holds_alternative<parsedQuery::BasicGraphPattern>`. -/
def GraphPatternOperation.holdsBasicGraphPattern : GraphPatternOperation E → Bool
  | .BasicGraphPattern _ => true
  | _ => false

/-- The condition `_graphPatterns.empty() || !std::holds_alternative<BasicGraphPattern>(
_graphPatterns.back())`. -/
def needsNewBasicGraphPattern (ops : List (GraphPatternOperation E)) : Bool :=
  match ops.getLast? with
  | none => true
  | some op => !op.holdsBasicGraphPattern

/-- `std::get<BasicGraphPattern>(_graphPatterns.back())._triples.push_back(triple)`;
`none` when `std::get` throws (the last child is no `BasicGraphPattern`) or the vector
is empty. -/
def pushTripleToBack (ops : List (GraphPatternOperation E)) (triple : SparqlTriple) :
    Option (List (GraphPatternOperation E)) :=
  match ops.getLast? with
  | some (.BasicGraphPattern ts) => some (ops.dropLast ++ [.BasicGraphPattern (ts ++ [triple])])
  | _ => none

/-- `GraphPattern::addLanguageFilter(variable, languageInQuotes)`. The constant
`LANGUAGE_PREDICATE` and the function `ad_utility::convertLangtagToEntityUri` are not
among the sources and are parameters. `none` stands for an exception
(`std::out_of_range` of `substr`). -/
def GraphPattern.addLanguageFilter (LANGUAGE_PREDICATE : String)
    (convertLangtagToEntityUri : String → String) (g : GraphPattern E)
    (var : Variable) (languageInQuotes : String) : Option (GraphPattern E) :=
  match substr languageInQuotes 1 ((languageInQuotes.length + 2 ^ 64 - 2) % 2 ^ 64) with
  | none => none
  | some langTag =>
    let matching := matchingTriples var g._graphPatterns
    let replaced := g._graphPatterns.map (replaceMatchingTriples langTag var)
    if matching.isEmpty then
      let withBasic :=
        if needsNewBasicGraphPattern replaced then replaced ++ [.BasicGraphPattern []]
        else replaced
      let langEntity := convertLangtagToEntityUri langTag
      let triple : SparqlTriple :=
        { _s := .ofVariable var, _p := PropertyPath.fromIri LANGUAGE_PREDICATE,
          _o := .ofTerm langEntity }
      match pushTripleToBack withBasic triple with
      | none => none
      | some ops => some (.mk g._optional g._id g._filters ops)
    else
      some (.mk g._optional g._id g._filters replaced)

end LanguageFilter

/-! ## Clauses and visibility -/

section Clauses

variable {E : Type}

/-- The two exceptions of the resolver, each with its message (without the prefix that
the exception class adds; `errorMessageWithoutPrefix` returns it). No throw site of this
file attaches metadata. -/
inductive QueryError where
  | InvalidQueryException (message : String)
  | NotSupportedException (message : String)
  deriving DecidableEq, Repr

/-- `errorMessageWithoutPrefix()`. -/
def QueryError.errorMessageWithoutPrefix : QueryError → String
  | .InvalidQueryException m => m
  | .NotSupportedException m => m

/-- Whether the exception is an `InvalidQueryException`. -/
def QueryError.isInvalidQuery : QueryError → Bool
  | .InvalidQueryException _ => true
  | .NotSupportedException _ => false

/-- Whether the exception is a `NotSupportedException`. -/
def QueryError.isNotSupported : QueryError → Bool
  | .InvalidQueryException _ => false
  | .NotSupportedException _ => true

/-- Modelled from the spec: `SelectClause::isAsterisk` (not among the sources), "is this a
selection of all variables". -/
def SelectClause.isAsterisk (c : SelectClause E) : Bool :=
  match c.varsAndAliasesOrAsterisk_ with
  | .Asterisk => true
  | .VarsAndAliases _ _ => false

/-- Modelled from the spec: `SelectClause::getSelectedVariables` (not among the sources):
the explicit variable list, and for `SELECT *` the visible variables (the comment in
`addInternalBind` says a variable registered as visible is selected by `SELECT *`). -/
def SelectClause.getSelectedVariables (c : SelectClause E) : List Variable :=
  match c.varsAndAliasesOrAsterisk_ with
  | .Asterisk => c.visibleVariables_
  | .VarsAndAliases vars _ => vars

/-- Modelled from the spec: `SelectClause::getAliases` (not among the sources): the list of
aliases; `SELECT *` has none. -/
def SelectClause.getAliases (c : SelectClause E) : List (Alias E) :=
  match c.varsAndAliasesOrAsterisk_ with
  | .Asterisk => []
  | .VarsAndAliases _ aliases => aliases

/-- Modelled from the spec: `SelectClause::deleteAliasesButKeepVariables` (not among the
sources): "the alias list is then discarded from the clause while the set of selected
variable names is left unchanged". -/
def SelectClause.deleteAliasesButKeepVariables (c : SelectClause E) : SelectClause E :=
  match c.varsAndAliasesOrAsterisk_ with
  | .Asterisk => c
  | .VarsAndAliases vars _ => { c with varsAndAliasesOrAsterisk_ := .VarsAndAliases vars [] }

/-- Modelled from the spec: `ClauseBase::addVisibleVariable` (not among the sources):
"insertion order preserved", "repeated registration has no additional effect". -/
def addVisibleVariable (visibleVariables_ : List Variable) (var : Variable) :
    List Variable :=
  if ad_utility.contains visibleVariables_ var then visibleVariables_
  else visibleVariables_ ++ [var]

/-- Modelled from the spec: `ConstructClause::containedVariables` (not among the sources):
"every variable referenced anywhere in the CONSTRUCT template", triple by triple. -/
def ConstructClause.containedVariables (c : ConstructClause) : List Variable :=
  c.triples_.foldr
    (fun t acc =>
      [t.1, t.2.1, t.2.2].filterMap
        (fun term => match term with
          | .ofVariable v => some v
          | .ofTerm _ => none) ++ acc)
    []

namespace ParsedQueryOver

variable {P : Type}

/-- `ParsedQuery::hasSelectClause`. -/
def hasSelectClause (q : ParsedQueryOver E P) : Bool :=
  match q._clause with
  | .select _ => true
  | .construct _ => false

/-- `ParsedQuery::hasConstructClause`. -/
def hasConstructClause (q : ParsedQueryOver E P) : Bool :=
  match q._clause with
  | .select _ => false
  | .construct _ => true

/-- `ParsedQuery::getVisibleVariables`: `std::visit(&ClauseBase::getVisibleVariables,
_clause)`. -/
def getVisibleVariables (q : ParsedQueryOver E P) : List Variable :=
  match q._clause with
  | .select c => c.visibleVariables_
  | .construct c => c.visibleVariables_

/-- `ParsedQuery::registerVariableVisibleInQueryBody`. -/
def registerVariableVisibleInQueryBody (q : ParsedQueryOver E P) (var : Variable) :
    ParsedQueryOver E P :=
  match q._clause with
  | .select c =>
    let c1 : SelectClause E :=
      { c with visibleVariables_ := addVisibleVariable c.visibleVariables_ var }
    { q with _clause := .select c1 }
  | .construct c =>
    let c1 : ConstructClause :=
      { c with visibleVariables_ := addVisibleVariable c.visibleVariables_ var }
    { q with _clause := .construct c1 }

/-- `ParsedQuery::registerVariablesVisibleInQueryBody`. -/
def registerVariablesVisibleInQueryBody (q : ParsedQueryOver E P) :
    List Variable → ParsedQueryOver E P
  | [] => q
  | var :: rest =>
    registerVariablesVisibleInQueryBody (q.registerVariableVisibleInQueryBody var) rest

/-- `ParsedQuery::getAliases`: those of the SELECT clause, none for CONSTRUCT. -/
def getAliases (q : ParsedQueryOver E P) : List (Alias E) :=
  match q._clause with
  | .select c => c.getAliases
  | .construct _ => []

/-- `ParsedQuery::getConstructedOrSelectedVariables`. -/
def getConstructedOrSelectedVariables (q : ParsedQueryOver E P) : List Variable :=
  match q._clause with
  | .select c => c.getSelectedVariables
  | .construct c => c.containedVariables

end ParsedQueryOver

/-- The child sequence of the root pattern of a query. -/
def rootChildren (q : ParsedQuery E) : List (GraphPatternOperation E) :=
  q._rootGraphPattern._graphPatterns

/-- `_rootGraphPattern._graphPatterns.emplace_back(op)`. -/
def emplaceBackRoot (q : ParsedQuery E) (op : GraphPatternOperation E) : ParsedQuery E :=
  let root : GraphPattern E :=
    .mk q._rootGraphPattern._optional q._rootGraphPattern._id q._rootGraphPattern._filters
      (q._rootGraphPattern._graphPatterns ++ [op])
  { q with _rootGraphPattern := root }

/-- `ParsedQuery::addBind(expression, targetVariable, targetIsVisible)`. -/
def addBind (q : ParsedQuery E) (expression : E) (targetVariable : Variable)
    (targetIsVisible : Bool) : ParsedQuery E :=
  let q1 := if targetIsVisible then q.registerVariableVisibleInQueryBody targetVariable else q
  emplaceBackRoot q1 (.Bind expression targetVariable)

/-- `ParsedQuery::addInternalBind(expression)`; returns the new variable and the query.
The constant `INTERNAL_VARIABLE_PREFIX` is not among the sources and is a parameter. -/
def addInternalBind (INTERNAL_VARIABLE_PREFIX : String) (q : ParsedQuery E)
    (expression : E) : Variable × ParsedQuery E :=
  let targetVariable : Variable :=
    ⟨INTERNAL_VARIABLE_PREFIX ++ toString q.numInternalVariables_⟩
  let q1 := { q with numInternalVariables_ := q.numInternalVariables_ + 1 }
  (targetVariable, addBind q1 expression targetVariable false)

end Clauses

/-! ## `ParsedQuery::addSolutionModifiers` -/

section SolutionModifiers

variable {E : Type}

/-- The result of a step of `addSolutionModifiers`: the query after the step, or the
exception thrown together with the query as the step left it. -/
abbrev Outcome (E : Type) : Type := Except (QueryError × ParsedQuery E) (ParsedQuery E)

/-- The lambda `checkVariableIsVisible`. -/
def checkVariableIsVisible (q : ParsedQuery E) (var : Variable)
    (locationDescription : String) (additionalVisibleVariables : List Variable) :
    Except QueryError Unit :=
  if (!ad_utility.contains q.getVisibleVariables var) &&
      (!additionalVisibleVariables.contains var) then
    .error (.InvalidQueryException ("Variable " ++ var.name ++ " was used by " ++
      locationDescription ++ ", but is not defined in the query body."))
  else .ok ()

/-- The loop of the lambda `checkUsedVariablesAreVisible` over the contained variables. -/
def checkVariablesAreVisible (q : ParsedQuery E) (locationDescription : String)
    (additionalVisibleVariables : List Variable) : List Variable → Except QueryError Unit
  | [] => .ok ()
  | var :: rest =>
    match checkVariableIsVisible q var locationDescription additionalVisibleVariables with
    | .error e => .error e
    | .ok _ => checkVariablesAreVisible q locationDescription additionalVisibleVariables rest

/-- The lambda `checkUsedVariablesAreVisible`. -/
def checkUsedVariablesAreVisible (cap : SparqlExpressionCapability E) (q : ParsedQuery E)
    (expression : E) (locationDescription : String)
    (additionalVisibleVariables : List Variable) : Except QueryError Unit :=
  checkVariablesAreVisible q
    (locationDescription ++ " in expression \"" ++ cap.getDescriptor expression ++ "\"")
    additionalVisibleVariables (cap.containedVariables expression)

/-- The lambda `processVariable` of the GROUP BY stage. -/
def processVariable (q : ParsedQuery E) (groupKey : Variable) : Outcome E :=
  match checkVariableIsVisible q groupKey "GROUP BY" [] with
  | .error e => .error (e, q)
  | .ok _ => .ok { q with _groupByVariables := q._groupByVariables ++ [⟨groupKey.name⟩] }

/-- The lambda `processExpression` of the GROUP BY stage. -/
def processExpression (cap : SparqlExpressionCapability E) (INTERNAL_VARIABLE_PREFIX : String)
    (q : ParsedQuery E) (groupKey : E) : Outcome E :=
  match checkUsedVariablesAreVisible cap q groupKey "GROUP BY" [] with
  | .error e => .error (e, q)
  | .ok _ =>
    let r := addInternalBind INTERNAL_VARIABLE_PREFIX q groupKey
    .ok { r.2 with _groupByVariables := r.2._groupByVariables ++ [⟨r.1.name⟩] }

/-- The lambda `processAlias` of the GROUP BY stage. -/
def processAlias (q : ParsedQuery E) (groupKey : Alias E) : Outcome E :=
  let q1 := emplaceBackRoot q (.Bind groupKey._expression groupKey._target)
  let q2 := q1.registerVariableVisibleInQueryBody groupKey._target
  .ok { q2 with _groupByVariables := q2._groupByVariables ++ [groupKey._target] }

/-- The `std::visit` on one GROUP BY entry. -/
def processGroupKey (cap : SparqlExpressionCapability E) (INTERNAL_VARIABLE_PREFIX : String)
    (q : ParsedQuery E) : GroupKey E → Outcome E
  | .ofVariable v => processVariable q v
  | .ofExpression e => processExpression cap INTERNAL_VARIABLE_PREFIX q e
  | .ofAlias a => processAlias q a

/-- The loop `for (auto& orderKey : modifiers.groupByVariables_)`. -/
def processGroupKeys (cap : SparqlExpressionCapability E) (INTERNAL_VARIABLE_PREFIX : String) :
    List (GroupKey E) → ParsedQuery E → Outcome E
  | [], q => .ok q
  | key :: rest, q =>
    match processGroupKey cap INTERNAL_VARIABLE_PREFIX q key with
    | .error e => .error e
    | .ok q1 => processGroupKeys cap INTERNAL_VARIABLE_PREFIX rest q1

/-- Stages 1 and 2: the GROUP BY loop, then `_havingClauses = modifiers.havingClauses_`. -/
def groupByStage (cap : SparqlExpressionCapability E) (INTERNAL_VARIABLE_PREFIX : String)
    (q : ParsedQuery E) (modifiers : SolutionModifiers E) : Outcome E :=
  match processGroupKeys cap INTERNAL_VARIABLE_PREFIX modifiers.groupByVariables_ q with
  | .error e => .error e
  | .ok q1 => .ok { q1 with _havingClauses := modifiers.havingClauses_ }

/-- The local `isExplicitGroupBy`. -/
def isExplicitGroupBy (q : ParsedQuery E) : Bool :=
  !q._groupByVariables.isEmpty

/-- The local `isImplicitGroupBy`. -/
def isImplicitGroupBy (cap : SparqlExpressionCapability E) (q : ParsedQuery E) : Bool :=
  q.getAliases.any (fun a => cap.containsAggregate a._expression) &&
    !isExplicitGroupBy q

/-- The local `isGroupBy`. -/
def isGroupBy (cap : SparqlExpressionCapability E) (q : ParsedQuery E) : Bool :=
  isExplicitGroupBy q || isImplicitGroupBy cap q

/-- The local `noteForImplicitGroupBy`. -/
def noteForImplicitGroupBy (cap : SparqlExpressionCapability E) (q : ParsedQuery E) : String :=
  if isImplicitGroupBy cap q then
    " Note: The GROUP BY in this query is implicit because an aggregate expression was used in the SELECT clause"
  else ""

/-- The local `noteForGroupByError`. -/
def noteForGroupByError (cap : SparqlExpressionCapability E) (q : ParsedQuery E) : String :=
  " All non-aggregated variables must be part of the GROUP BY clause." ++
    noteForImplicitGroupBy cap q

/-- The lambda `processVariableOrderKey`; `grouping` and `note` are the captured
`isGroupBy` and `noteForImplicitGroupBy`. -/
def processVariableOrderKey (grouping : Bool) (note : String) (q : ParsedQuery E)
    (orderKey : VariableOrderKey) : Outcome E :=
  if !grouping then
    match checkVariableIsVisible q orderKey.variable_ "ORDER BY" [] with
    | .error e => .error (e, q)
    | .ok _ => .ok { q with _orderBy := q._orderBy ++ [orderKey] }
  else if (!ad_utility.contains q._groupByVariables orderKey.variable_) &&
      (match q._clause with
        | .construct _ => true
        | .select c =>
          !ad_utility.contains_if c.getAliases
            (fun a => decide (a._target = orderKey.variable_))) then
    .error (.InvalidQueryException ("Variable " ++ orderKey.variable_.name ++
      " was used in an ORDER BY clause, but is neither grouped, nor created as an alias in the SELECT clause." ++
      note), q)
  else .ok { q with _orderBy := q._orderBy ++ [orderKey] }

/-- The lambda `processExpressionOrderKey`. -/
def processExpressionOrderKey (cap : SparqlExpressionCapability E)
    (INTERNAL_VARIABLE_PREFIX : String) (grouping : Bool) (note : String) (q : ParsedQuery E)
    (orderKey : ExpressionOrderKey E) : Outcome E :=
  match checkUsedVariablesAreVisible cap q orderKey.expression_ "ORDER BY" [] with
  | .error e => .error (e, q)
  | .ok _ =>
    if grouping then
      .error (.NotSupportedException
        ("Ordering by an expression while grouping is not supported by QLever. (The expression is \"" ++
          cap.getDescriptor orderKey.expression_ ++
          "\"). Please assign this expression to a new variable in the SELECT clause and then order by this variable." ++
          note), q)
    else
      let r := addInternalBind INTERNAL_VARIABLE_PREFIX q orderKey.expression_
      .ok { r.2 with _orderBy := r.2._orderBy ++ [⟨r.1, orderKey.isDescending_⟩] }

/-- The `std::visit` on one ORDER BY key. -/
def processOrderKey (cap : SparqlExpressionCapability E) (INTERNAL_VARIABLE_PREFIX : String)
    (grouping : Bool) (note : String) (q : ParsedQuery E) : OrderKey E → Outcome E
  | .ofVariable k => processVariableOrderKey grouping note q k
  | .ofExpression k => processExpressionOrderKey cap INTERNAL_VARIABLE_PREFIX grouping note q k

/-- The loop `for (auto& orderKey : modifiers.orderBy_.orderKeys)`. -/
def processOrderKeys (cap : SparqlExpressionCapability E) (INTERNAL_VARIABLE_PREFIX : String)
    (grouping : Bool) (note : String) : List (OrderKey E) → ParsedQuery E → Outcome E
  | [], q => .ok q
  | key :: rest, q =>
    match processOrderKey cap INTERNAL_VARIABLE_PREFIX grouping note q key with
    | .error e => .error e
    | .ok q1 => processOrderKeys cap INTERNAL_VARIABLE_PREFIX grouping note rest q1

/-- Stages 3 and 4: the ORDER BY loop, then `_isInternalSort` and `_limitOffset` are
taken over from the modifiers; `grouping` and `note` are the locals `isGroupBy` and
`noteForImplicitGroupBy`, computed once before the loop. -/
def orderByStage (cap : SparqlExpressionCapability E) (INTERNAL_VARIABLE_PREFIX : String)
    (grouping : Bool) (note : String) (q : ParsedQuery E) (modifiers : SolutionModifiers E) :
    Outcome E :=
  match processOrderKeys cap INTERNAL_VARIABLE_PREFIX grouping note
      modifiers.orderBy_.orderKeys q with
  | .error e => .error e
  | .ok q1 =>
    .ok { q1 with _isInternalSort := modifiers.orderBy_.isInternalSort,
                  _limitOffset := modifiers.limitOffset_ }

/-- The loop over the aliases in the lambda `checkAliasTargetsHaveNoOverlap`;
`variable_counts[v]` is the number of occurrences of `v` among the selected variables. -/
def checkAliasTargetsLoop (c : SelectClause E) : List (Alias E) → Except QueryError Unit
  | [] => .ok ()
  | a :: rest =>
    if ad_utility.contains c.visibleVariables_ a._target then
      .error (.InvalidQueryException ("The target" ++ a._target.name ++
        " of an AS clause was already used in the query body."))
    else if c.getSelectedVariables.count a._target > 1 then
      .error (.InvalidQueryException ("The target" ++ a._target.name ++
        " of an AS clause was already used before in the SELECT clause."))
    else checkAliasTargetsLoop c rest

/-- The lambda `checkAliasTargetsHaveNoOverlap`, on the SELECT clause of the query. -/
def checkAliasTargetsHaveNoOverlap (c : SelectClause E) : Except QueryError Unit :=
  checkAliasTargetsLoop c c.getAliases

/-- The note that the `catch` block appends for an alias that uses an earlier alias
under GROUP BY. -/
def noteForAliasChaining : String :=
  " Note: This variable was defined previously in the SELECT clause, which is supported by the SPARQL standard, but currently not supported by QLever when the query contains a GROUP BY clause."

/-- The body of the loop over the aliases that checks the variables used in one alias;
`variablesBoundInAliases` holds the targets of the aliases before it. -/
def checkAliasVariables (cap : SparqlExpressionCapability E) (grouping : Bool)
    (noteGroupBy : String) (q : ParsedQuery E) (a : Alias E)
    (variablesBoundInAliases : List Variable) : Except QueryError Unit :=
  if !grouping then
    checkUsedVariablesAreVisible cap q a._expression "SELECT" variablesBoundInAliases
  else
    match checkUsedVariablesAreVisible cap q a._expression "SELECT" [] with
    | .ok _ => .ok ()
    | .error (.NotSupportedException m) => .error (.NotSupportedException m)
    | .error (.InvalidQueryException m) =>
      match checkUsedVariablesAreVisible cap q a._expression "SELECT"
          variablesBoundInAliases with
      | .error e => .error e
      | .ok _ =>
        .error (.NotSupportedException (m ++ noteForAliasChaining ++ noteGroupBy))

/-- The loop `for (const auto& alias : selectClause().getAliases())` with the set
`variablesBoundInAliases`, which receives the target of each alias after its check. -/
def checkAliasesLoop (cap : SparqlExpressionCapability E) (grouping : Bool)
    (noteGroupBy : String) (q : ParsedQuery E) :
    List (Alias E) → List Variable → Except QueryError Unit
  | [], _ => .ok ()
  | a :: rest, variablesBoundInAliases =>
    match checkAliasVariables cap grouping noteGroupBy q a variablesBoundInAliases with
    | .error e => .error e
    | .ok _ =>
      checkAliasesLoop cap grouping noteGroupBy q rest (a._target :: variablesBoundInAliases)

/-- The loop over the selected variables under GROUP BY: an alias target must be an
aggregate, any other variable must be grouped. -/
def checkSelectedVariablesLoop (cap : SparqlExpressionCapability E) (noteGroupBy : String)
    (aliases : List (Alias E)) (groupByVariables : List Variable)
    (groupVariables : List String) : List Variable → Except QueryError Unit
  | [] => .ok ()
  | var :: rest =>
    match aliases.find? (fun a => decide (a._target = var)) with
    | some a =>
      if cap.isAggregate a._expression groupVariables then
        checkSelectedVariablesLoop cap noteGroupBy aliases groupByVariables groupVariables rest
      else
        .error (.InvalidQueryException ("The expression \"" ++ cap.getDescriptor a._expression ++
          "\" does not aggregate " ++
          ", ".intercalate
            ((cap.getUnaggregatedVariables a._expression groupVariables).map Variable.name) ++
          "." ++ noteGroupBy))
    | none =>
      if !ad_utility.contains groupByVariables var then
        .error (.InvalidQueryException ("Variable " ++ var.name ++
          " is selected but not aggregated." ++ noteGroupBy))
      else
        checkSelectedVariablesLoop cap noteGroupBy aliases groupByVariables groupVariables rest

/-- The branch `if (isGroupBy)` of the SELECT case: the set `groupVariables`, the check
for `SELECT *`, and the loop over the selected variables. -/
def checkGroupedSelect (cap : SparqlExpressionCapability E) (noteGroupBy : String)
    (q : ParsedQuery E) (c : SelectClause E) : Except QueryError Unit :=
  let groupVariables := q._groupByVariables.map Variable.toSparql
  if c.isAsterisk then
    .error (.InvalidQueryException
      "GROUP BY is not allowed when all variables are selected via SELECT *")
  else
    checkSelectedVariablesLoop cap noteGroupBy c.getAliases q._groupByVariables groupVariables
      c.getSelectedVariables

/-- The loop `addBind(alias._expression, alias._target, true)` over the aliases. -/
def addAliasBinds : List (Alias E) → ParsedQuery E → ParsedQuery E
  | [], q => q
  | a :: rest, q => addAliasBinds rest (addBind q a._expression a._target true)

/-- The call `selectClause.deleteAliasesButKeepVariables()` on the clause of the query. -/
def deleteAliasesButKeepVariables (q : ParsedQuery E) : ParsedQuery E :=
  match q._clause with
  | .select c => { q with _clause := .select c.deleteAliasesButKeepVariables }
  | .construct _ => q

/-- The branch `if (hasSelectClause())` (Stage 5 for SELECT). -/
def selectStage (cap : SparqlExpressionCapability E) (grouping : Bool) (noteGroupBy : String)
    (q : ParsedQuery E) (c : SelectClause E) : Outcome E :=
  match checkAliasTargetsHaveNoOverlap c with
  | .error e => .error (e, q)
  | .ok _ =>
    match checkAliasesLoop cap grouping noteGroupBy q c.getAliases [] with
    | .error e => .error (e, q)
    | .ok _ =>
      if grouping then
        match checkGroupedSelect cap noteGroupBy q c with
        | .error e => .error (e, q)
        | .ok _ => .ok q
      else
        .ok (deleteAliasesButKeepVariables (addAliasBinds c.getAliases q))

/-- The loop over `constructClause().containedVariables()`. -/
def checkConstructVariablesLoop (noteGroupBy : String) (groupByVariables : List Variable) :
    List Variable → Except QueryError Unit
  | [] => .ok ()
  | var :: rest =>
    if !ad_utility.contains groupByVariables var then
      .error (.InvalidQueryException ("Variable " ++ var.name ++
        " is used but not aggregated." ++ noteGroupBy))
    else checkConstructVariablesLoop noteGroupBy groupByVariables rest

/-- The `else` branch (CONSTRUCT): return at once when `_groupByVariables` is empty. -/
def constructStage (noteGroupBy : String) (q : ParsedQuery E) (c : ConstructClause) :
    Outcome E :=
  if q._groupByVariables.isEmpty then .ok q
  else
    match checkConstructVariablesLoop noteGroupBy q._groupByVariables c.containedVariables with
    | .error e => .error (e, q)
    | .ok _ => .ok q

/-- Stage 5: the `if (hasSelectClause()) ... else ...` at the end. -/
def clauseStage (cap : SparqlExpressionCapability E) (grouping : Bool) (noteGroupBy : String)
    (q : ParsedQuery E) : Outcome E :=
  match q._clause with
  | .select c => selectStage cap grouping noteGroupBy q c
  | .construct c => constructStage noteGroupBy q c

/-- `ParsedQuery::addSolutionModifiers(modifiers)`: the GROUP BY loop and HAVING, the
classification of the grouping, the ORDER BY loop and LIMIT/OFFSET, then the clause. -/
def addSolutionModifiers (cap : SparqlExpressionCapability E)
    (INTERNAL_VARIABLE_PREFIX : String) (q : ParsedQuery E) (modifiers : SolutionModifiers E) :
    Outcome E :=
  match groupByStage cap INTERNAL_VARIABLE_PREFIX q modifiers with
  | .error e => .error e
  | .ok q2 =>
    match orderByStage cap INTERNAL_VARIABLE_PREFIX (isGroupBy cap q2)
        (noteForImplicitGroupBy cap q2) q2 modifiers with
    | .error e => .error e
    | .ok q4 => clauseStage cap (isGroupBy cap q2) (noteForGroupByError cap q2) q4

end SolutionModifiers

/-! ## Vocabulary of the statements -/

section Vocabulary

variable {E : Type}

/-- The second clause is the first one with possibly more visible variables: same kind,
same selection, aliases and flags (resp. same template), and every variable visible
before is visible after. -/
def ClauseGrows : Clause E → Clause E → Prop
  | .select c, .select d =>
    d.varsAndAliasesOrAsterisk_ = c.varsAndAliasesOrAsterisk_ ∧ d.distinct_ = c.distinct_ ∧
      d.reduced_ = c.reduced_ ∧ ∀ v ∈ c.visibleVariables_, v ∈ d.visibleVariables_
  | .construct c, .construct d =>
    d.triples_ = c.triples_ ∧ ∀ v ∈ c.visibleVariables_, v ∈ d.visibleVariables_
  | _, _ => False

/-- The Bind node that compiles an alias. -/
def aliasBind (a : Alias E) : GraphPatternOperation E :=
  .Bind a._expression a._target

/-- The triples that `addLanguageFilter` looks for: the object is the variable and the
predicate is a bare IRI (operation `IRI`, and not a variable). -/
def IsLanguageFilterTarget (var : Variable) (t : SparqlTriple) : Prop :=
  t._o = .ofVariable var ∧ t._p._operation = .IRI ∧ isVariable t._p = false

/-- The language tag of a quoted language string: the string without its first and its
last character. -/
def langTagOf (languageInQuotes : String) : String :=
  ⟨languageInQuotes.data.tail.dropLast⟩

/-- The triple after the call, for a triple before the call: a target has the same
subject, object and operation and the IRI `"@" + tag + "@" + old IRI`; any other triple is
the same. -/
def RewrittenTriple (tag : String) (var : Variable) (t t1 : SparqlTriple) : Prop :=
  (IsLanguageFilterTarget var t →
      t1._s = t._s ∧ t1._o = t._o ∧ t1._p._operation = t._p._operation ∧
        t1._p._iri = "@" ++ tag ++ "@" ++ t._p._iri) ∧
    (¬ IsLanguageFilterTarget var t → t1 = t)

/-- The child after the call, for a child before the call: a BasicGraphPattern has the
same number of triples, each rewritten in place; any other child is the same. -/
def RewrittenChild (tag : String) (var : Variable) :
    GraphPatternOperation E → GraphPatternOperation E → Prop
  | .BasicGraphPattern ts, op1 =>
    ∃ ts1, op1 = .BasicGraphPattern ts1 ∧ List.Forall₂ (RewrittenTriple tag var) ts ts1
  | op, op1 => op1 = op

/-- The synthetic triple `variable <language-predicate> <entity-URI-for-langtag>`. -/
def languageTriple (LANGUAGE_PREDICATE : String) (convertLangtagToEntityUri : String → String)
    (var : Variable) (tag : String) : SparqlTriple :=
  { _s := .ofVariable var, _p := { _operation := .IRI, _iri := LANGUAGE_PREDICATE },
    _o := .ofTerm (convertLangtagToEntityUri tag) }

/-- The resolved group-by list of a GROUP BY list, entry by entry as the spec describes
Stage 1: a bare variable gives itself, a bare expression gives the internal variable
generated for it (the prefix followed by the counter, which then advances), an alias
gives its target; `n` is the internal-variable counter before the first entry. -/
def resolvedGroupKeys (pre : String) : Nat → List (GroupKey E) → List Variable
  | _, [] => []
  | n, .ofVariable v :: rest => v :: resolvedGroupKeys pre n rest
  | n, .ofExpression _ :: rest => ⟨pre ++ toString n⟩ :: resolvedGroupKeys pre (n + 1) rest
  | n, .ofAlias a :: rest => a._target :: resolvedGroupKeys pre n rest

/-- The Bind nodes of a GROUP BY list, as the spec describes Stage 1: none for a bare
variable, the expression bound to its internal variable for a bare expression, the
expression bound to the target for an alias; in entry order. -/
def groupKeyBinds (pre : String) : Nat → List (GroupKey E) → List (GraphPatternOperation E)
  | _, [] => []
  | n, .ofVariable _ :: rest => groupKeyBinds pre n rest
  | n, .ofExpression e :: rest => .Bind e ⟨pre ++ toString n⟩ :: groupKeyBinds pre (n + 1) rest
  | n, .ofAlias a :: rest => .Bind a._expression a._target :: groupKeyBinds pre n rest

/-- The targets of the alias entries of a GROUP BY list. -/
def groupKeyAliasTargets : List (GroupKey E) → List Variable
  | [] => []
  | .ofAlias a :: rest => a._target :: groupKeyAliasTargets rest
  | _ :: rest => groupKeyAliasTargets rest

/-- The number of bare-expression entries of a GROUP BY list. -/
def countExpressionKeys : List (GroupKey E) → Nat
  | [] => 0
  | .ofExpression _ :: rest => countExpressionKeys rest + 1
  | _ :: rest => countExpressionKeys rest

/-- A selected variable passes the check under GROUP BY: when it is the target of an
alias (the first alias of the clause with that target, the one `std::ranges::find`
returns), the expression of the alias is an aggregate over the group variables; when it
is not, it is in the group-by list. -/
def SelectedVariableAllowed (cap : SparqlExpressionCapability E) (aliases : List (Alias E))
    (groupByVariables : List Variable) (var : Variable) : Prop :=
  (∀ a, aliases.find? (fun a => decide (a._target = var)) = some a →
      cap.isAggregate a._expression (groupByVariables.map Variable.toSparql) = true) ∧
    ((∀ a ∈ aliases, a._target ≠ var) → var ∈ groupByVariables)

/-- Every alias uses only variables that are visible or targets of aliases strictly
earlier in the list. -/
def AliasesUseEarlierTargets (cap : SparqlExpressionCapability E) (visible : List Variable)
    (aliases : List (Alias E)) : Prop :=
  ∀ (earlier : List (Alias E)) (a : Alias E) (later : List (Alias E)),
    aliases = earlier ++ a :: later →
      ∀ v ∈ cap.containedVariables a._expression,
        v ∈ visible ∨ v ∈ earlier.map (fun b => b._target)

/-- The message of the lambda `checkVariableIsVisible` for a variable used in the
expression of a SELECT alias. -/
def notVisibleInSelectMessage (cap : SparqlExpressionCapability E) (v : Variable)
    (expression : E) : String :=
  "Variable " ++ v.name ++ " was used by " ++
    ("SELECT" ++ " in expression \"" ++ cap.getDescriptor expression ++ "\"") ++
    ", but is not defined in the query body."

/-- A run of consecutive `addInternalBind` calls on one query, one per expression; returns
the variables in the order of the calls and the query after the last call. -/
def addInternalBinds (INTERNAL_VARIABLE_PREFIX : String) :
    ParsedQuery E → List E → List Variable × ParsedQuery E
  | q, [] => ([], q)
  | q, e :: rest =>
    let r := addInternalBind INTERNAL_VARIABLE_PREFIX q e
    let rs := addInternalBinds INTERNAL_VARIABLE_PREFIX r.2 rest
    (r.1 :: rs.1, rs.2)

/-- The number that a list of decimal digits denotes, read after the digits already
accumulated in `acc`. -/
def decimalValue (acc : Nat) (digits : List Char) : Nat :=
  digits.foldl (fun n c => n * 10 + (c.toNat - 48)) acc

/-- The children that are no BasicGraphPattern, in their order. -/
def nonBasicChildren (ops : List (GraphPatternOperation E)) : List (GraphPatternOperation E) :=
  ops.filter (fun op => !op.holdsBasicGraphPattern)

end Vocabulary

/-! ## Worked examples -/

section Examples

/-- A small expression type for the worked examples: a descriptor, the variables the
expression contains, and whether it is an aggregate call such as `COUNT(?y)`. -/
structure SampleExpression where
  descriptor : String
  vars : List Variable
  aggregate : Bool
  deriving DecidableEq, Repr

/-- The capability record of `SampleExpression`. -/
def sampleCapability : SparqlExpressionCapability SampleExpression where
  containedVariables e := e.vars
  containsAggregate e := e.aggregate
  isAggregate e groupVariables :=
    e.aggregate || e.vars.all (fun v => groupVariables.contains v.toSparql)
  getUnaggregatedVariables e groupVariables :=
    if e.aggregate then [] else e.vars.filter (fun v => !groupVariables.contains v.toSparql)
  getDescriptor e := e.descriptor

/-- The prefix of internal variables used in the worked examples. -/
def samplePrefix : String := "?_qlever_internal_variable_"

/-- A query with the given clause and root children and nothing else. -/
def sampleQuery (clause : Clause SampleExpression)
    (children : List (GraphPatternOperation SampleExpression)) : ParsedQuery SampleExpression :=
  { _rootGraphPattern := .mk false 0 [] children,
    _havingClauses := [],
    _numGraphPatterns := 0,
    numInternalVariables_ := 0,
    _orderBy := [],
    _isInternalSort := false,
    _limitOffset := { _limit := 0, _textLimit := 0, _offset := 0 },
    _groupByVariables := [],
    _clause := clause }

/-- A SELECT clause with the given variables, aliases and visible variables. -/
def sampleSelect (vars : List Variable) (aliases : List (Alias SampleExpression))
    (visible : List Variable) : Clause SampleExpression :=
  .select { varsAndAliasesOrAsterisk_ := .VarsAndAliases vars aliases, distinct_ := false,
            reduced_ := false, visibleVariables_ := visible }

/-- Solution modifiers with the given GROUP BY and ORDER BY entries and nothing else. -/
def sampleModifiers (groupBy : List (GroupKey SampleExpression))
    (orderBy : List (OrderKey SampleExpression)) : SolutionModifiers SampleExpression :=
  { groupByVariables_ := groupBy,
    havingClauses_ := [],
    orderBy_ := { isInternalSort := false, orderKeys := orderBy },
    limitOffset_ := { _limit := 0, _textLimit := 0, _offset := 0 } }

/-- The triple `?s rdfs:label ?label`. -/
def labelTriple : SparqlTriple :=
  { _s := .ofVariable ⟨"?s"⟩, _p := PropertyPath.fromIri "rdfs:label", _o := .ofVariable ⟨"?label"⟩ }

/-- Scenario F, first query: a root with two top-level children carrying stale identities. -/
def scenarioF_q : ParsedQuery SampleExpression :=
  sampleQuery (sampleSelect [⟨"?s"⟩] [] [⟨"?s"⟩])
    [.BasicGraphPattern [labelTriple],
     .Optional (.mk true 7 [] [.Values ["?v"] [["1"]] 7])]

/-- Scenario F, second query: again two top-level children. -/
def scenarioF_p : ParsedQuery SampleExpression :=
  sampleQuery (sampleSelect [⟨"?s"⟩] [] [⟨"?s"⟩])
    [.Union (.mk false 1 [] []) (.mk false 1 [] [.BasicGraphPattern [labelTriple]]),
     .Bind ⟨"?s", [Variable.mk "?s"], false⟩ ⟨"?t"⟩]

/-- The variable `?x`. -/
def varX : Variable := ⟨"?x"⟩

/-- The variable `?y`. -/
def varY : Variable := ⟨"?y"⟩

/-- The expression `?a + ?b`. -/
def exprAPlusB : SampleExpression :=
  { descriptor := "?a + ?b", vars := [⟨"?a"⟩, ⟨"?b"⟩], aggregate := false }

/-- The expression `?x + ?y`. -/
def exprXPlusY : SampleExpression :=
  { descriptor := "?x + ?y", vars := [varX, varY], aggregate := false }

/-- `SELECT ?x` over a body in which `?x` and `?y` are visible. -/
def selectX : ParsedQuery SampleExpression :=
  sampleQuery (sampleSelect [varX] [] [varX, varY]) [.BasicGraphPattern [labelTriple]]

/-- `GROUP BY ?x ORDER BY (?a + ?b)`: neither `?a` nor `?b` is visible in `selectX`. -/
def groupXOrderAPlusB : SolutionModifiers SampleExpression :=
  sampleModifiers [.ofVariable varX] [.ofExpression { isDescending_ := false, expression_ := exprAPlusB }]

/-- `GROUP BY ?x ORDER BY (?x + ?y)`: both variables are visible in `selectX`. -/
def groupXOrderXPlusY : SolutionModifiers SampleExpression :=
  sampleModifiers [.ofVariable varX] [.ofExpression { isDescending_ := false, expression_ := exprXPlusY }]

/-- `GROUP BY ?x ?z`; `?z` is not visible in `selectX`. -/
def groupXZ : SolutionModifiers SampleExpression :=
  sampleModifiers [.ofVariable varX, .ofVariable ⟨"?z"⟩] []

/-- `GROUP BY ?x ?y`. -/
def groupXY : SolutionModifiers SampleExpression :=
  sampleModifiers [.ofVariable varX, .ofVariable varY] []

/-- The expression `?x`. -/
def exprX : SampleExpression :=
  { descriptor := "?x", vars := [varX], aggregate := false }

/-- Scenario D: `SELECT (?x AS ?x)` over a body in which `?x` is visible. -/
def selectXAsX : ParsedQuery SampleExpression :=
  sampleQuery (sampleSelect [varX] [{ _expression := exprX, _target := varX }] [varX])
    [.BasicGraphPattern [labelTriple]]

/-- `SELECT ?x (?x AS ?y)` over a body in which only `?x` is visible. -/
def selectXAsY : ParsedQuery SampleExpression :=
  sampleQuery (sampleSelect [varX, varY] [{ _expression := exprX, _target := varY }] [varX])
    [.BasicGraphPattern [labelTriple]]

/-- The query `selectXAsY` after `addSolutionModifiers` without modifiers: the alias has
become a Bind node and `?y` is visible. -/
def selectXAsYResolved : ParsedQuery SampleExpression :=
  sampleQuery
    (.select { varsAndAliasesOrAsterisk_ := .VarsAndAliases [varX, varY] [], distinct_ := false,
               reduced_ := false, visibleVariables_ := [varX, varY] })
    [.BasicGraphPattern [labelTriple], .Bind exprX varY]

/-- No GROUP BY, no ORDER BY. -/
def noModifiers : SolutionModifiers SampleExpression :=
  sampleModifiers [] []

/-- The language predicate used in the worked examples. -/
def sampleLanguagePredicate : String :=
  "<http://qlever.cs.uni-freiburg.de/builtin-functions/langtag>"

/-- The conversion of a language tag to an entity URI used in the worked examples. -/
def sampleConvertLangtagToEntityUri (tag : String) : String :=
  "<http://qlever.cs.uni-freiburg.de/builtin-functions/langtag/" ++ tag ++ ">"

/-- The variable `?label`. -/
def varLabel : Variable := ⟨"?label"⟩

/-- Scenario E: a pattern whose only child is the BasicGraphPattern `?s rdfs:label ?label`. -/
def labelPattern : GraphPattern SampleExpression :=
  .mk false 0 [] [.BasicGraphPattern [labelTriple]]

/-- The triple `?s ?p ?label`, whose predicate is a variable. -/
def variablePredicateTriple : SparqlTriple :=
  { _s := .ofVariable ⟨"?s"⟩, _p := PropertyPath.fromIri "?p", _o := .ofVariable varLabel }

/-- A pattern whose only child is the BasicGraphPattern `?s ?p ?label`. -/
def variablePredicatePattern : GraphPattern SampleExpression :=
  .mk false 0 [] [.BasicGraphPattern [variablePredicateTriple]]

/-- The expression `COUNT(?y)`, an aggregate. -/
def exprCountY : SampleExpression :=
  { descriptor := "COUNT(?y)", vars := [varY], aggregate := true }

/-- The variable `?c`. -/
def varC : Variable := ⟨"?c"⟩

/-- Scenario A: `SELECT ?x (COUNT(?y) AS ?c)` over a body in which `?x` and `?y` are visible. -/
def selectXCountY : ParsedQuery SampleExpression :=
  sampleQuery (sampleSelect [varX, varC] [{ _expression := exprCountY, _target := varC }]
    [varX, varY]) [.BasicGraphPattern [labelTriple]]

/-- The query `selectXCountY` after the GROUP BY stage of `GROUP BY ?x`. -/
def selectXCountYGrouped : ParsedQuery SampleExpression :=
  { selectXCountY with _groupByVariables := [varX] }

/-- `SELECT ?x` over a body in which `?x` and `?y` are visible, after one internal
variable has already been generated. -/
def selectXOneInternal : ParsedQuery SampleExpression :=
  { selectX with numInternalVariables_ := 1 }

/-- The variable `?g`. -/
def varG : Variable := ⟨"?g"⟩

/-- `GROUP BY ?x (?x + ?y) (?x AS ?g)`: a bare variable, a bare expression and an alias. -/
def groupXExprAlias : SolutionModifiers SampleExpression :=
  sampleModifiers
    [.ofVariable varX, .ofExpression exprXPlusY, .ofAlias { _expression := exprX, _target := varG }]
    []

/-- The variable `?s`. -/
def varS : Variable := ⟨"?s"⟩

/-- `CONSTRUCT { ?x <p> ?y }` over a body in which `?x` and `?y` are visible. -/
def constructXY : ParsedQuery SampleExpression :=
  sampleQuery
    (.construct { triples_ := [(.ofVariable varX, .ofTerm "<p>", .ofVariable varY)],
                  visibleVariables_ := [varX, varY] })
    [.BasicGraphPattern [labelTriple]]

/-- `GROUP BY ?x`. -/
def groupX : SolutionModifiers SampleExpression :=
  sampleModifiers [.ofVariable varX] []

/-- `SELECT *` over a body in which `?x` and `?y` are visible. -/
def selectAsterisk : ParsedQuery SampleExpression :=
  sampleQuery
    (.select { varsAndAliasesOrAsterisk_ := .Asterisk, distinct_ := false, reduced_ := false,
               visibleVariables_ := [varX, varY] })
    [.BasicGraphPattern [labelTriple]]

/-- The expression `?y`. -/
def exprY : SampleExpression :=
  { descriptor := "?y", vars := [varY], aggregate := false }

/-- `SELECT ?x (?y AS ?c)` over a body in which `?x` and `?y` are visible. -/
def selectXYAsC : ParsedQuery SampleExpression :=
  sampleQuery (sampleSelect [varX, varC] [{ _expression := exprY, _target := varC }]
    [varX, varY]) [.BasicGraphPattern [labelTriple]]

/-- Scenario B: `SELECT (COUNT(?y) AS ?c)` over a body in which `?x` and `?y` are visible. -/
def selectCountY : ParsedQuery SampleExpression :=
  sampleQuery (sampleSelect [varC] [{ _expression := exprCountY, _target := varC }]
    [varX, varY]) [.BasicGraphPattern [labelTriple]]

/-- The variable `?d`. -/
def varD : Variable := ⟨"?d"⟩

/-- The expression `?c`. -/
def exprC : SampleExpression :=
  { descriptor := "?c", vars := [varC], aggregate := false }

/-- The expression `?z`; `?z` is visible in none of the worked examples. -/
def exprZ : SampleExpression :=
  { descriptor := "?z", vars := [⟨"?z"⟩], aggregate := false }

/-- `SELECT (COUNT(?y) AS ?c) (?c AS ?d)` over a body in which `?x` and `?y` are visible:
implicit grouping, and the second alias uses the target of the first. -/
def selectCountThenChain : ParsedQuery SampleExpression :=
  sampleQuery
    (sampleSelect [varC, varD]
      [{ _expression := exprCountY, _target := varC }, { _expression := exprC, _target := varD }]
      [varX, varY])
    [.BasicGraphPattern [labelTriple]]

/-- `SELECT (COUNT(?y) AS ?c) (?z AS ?d)` over a body in which `?x` and `?y` are visible:
implicit grouping, and `?z` is neither visible nor an alias target. -/
def selectCountThenUnknown : ParsedQuery SampleExpression :=
  sampleQuery
    (sampleSelect [varC, varD]
      [{ _expression := exprCountY, _target := varC }, { _expression := exprZ, _target := varD }]
      [varX, varY])
    [.BasicGraphPattern [labelTriple]]

/-- The variable `?a`. -/
def varA : Variable := ⟨"?a"⟩

/-- The variable `?b`. -/
def varB : Variable := ⟨"?b"⟩

/-- The expression `?a`. -/
def exprA : SampleExpression :=
  { descriptor := "?a", vars := [varA], aggregate := false }

/-- The expression `?b`. -/
def exprB : SampleExpression :=
  { descriptor := "?b", vars := [varB], aggregate := false }

/-- `SELECT (?a AS ?b) (?b AS ?c)` over a body in which `?a` is visible. -/
def selectChain : ParsedQuery SampleExpression :=
  sampleQuery
    (sampleSelect [varB, varC]
      [{ _expression := exprA, _target := varB }, { _expression := exprB, _target := varC }]
      [varA])
    [.BasicGraphPattern [labelTriple]]

/-- `SELECT (?b AS ?c) (?a AS ?b)` over a body in which `?a` is visible: the first alias
uses the target of the second. -/
def selectChainReversed : ParsedQuery SampleExpression :=
  sampleQuery
    (sampleSelect [varC, varB]
      [{ _expression := exprB, _target := varC }, { _expression := exprA, _target := varB }]
      [varA])
    [.BasicGraphPattern [labelTriple]]

/-- `SELECT ?_qlever_internal_variable_0` over a body in which that variable is visible: a
user-written variable with the name of the first internal variable. -/
def selectInternalName : ParsedQuery SampleExpression :=
  sampleQuery
    (sampleSelect [⟨"?_qlever_internal_variable_0"⟩] [] [varX, ⟨"?_qlever_internal_variable_0"⟩])
    [.BasicGraphPattern [labelTriple]]

/-- A pattern without a BasicGraphPattern of its own, whose children are an Optional, a
Union, a Minus, a GroupGraphPattern and a Subquery that each contain the triple
`?s rdfs:label ?label`. -/
def nestedLabelPattern : GraphPattern SampleExpression :=
  .mk false 3 [{ expression_ := exprX }]
    [.Optional labelPattern,
     .Union labelPattern labelPattern,
     .Minus labelPattern,
     .GroupGraphPattern labelPattern,
     .Subquery (sampleQuery (sampleSelect [varLabel] [] [varLabel])
       [.BasicGraphPattern [labelTriple]])]

/-- `GROUP BY (?x + ?y) ORDER BY ?y`: a bare expression over visible variables, then a
variable that is neither grouped nor an alias target. -/
def groupExprOrderY : SolutionModifiers SampleExpression :=
  sampleModifiers [.ofExpression exprXPlusY]
    [.ofVariable { variable_ := varY, isDescending_ := false }]

/-- The query `selectX` after the GROUP BY stage of `GROUP BY (?x + ?y)`: the expression
is bound to the first internal variable, which is the only grouped variable. -/
def selectXGroupedByExpr : ParsedQuery SampleExpression :=
  { _rootGraphPattern := .mk false 0 []
      [.BasicGraphPattern [labelTriple], .Bind exprXPlusY ⟨"?_qlever_internal_variable_0"⟩],
    _havingClauses := [],
    _numGraphPatterns := 0,
    numInternalVariables_ := 1,
    _orderBy := [],
    _isInternalSort := false,
    _limitOffset := { _limit := 0, _textLimit := 0, _offset := 0 },
    _groupByVariables := [⟨"?_qlever_internal_variable_0"⟩],
    _clause := sampleSelect [varX] [] [varX, varY] }

/-- `ORDER BY ?y`, no GROUP BY. -/
def orderY : SolutionModifiers SampleExpression :=
  sampleModifiers [] [.ofVariable { variable_ := varY, isDescending_ := false }]

/-- `ORDER BY ?x`, no GROUP BY. -/
def orderX : SolutionModifiers SampleExpression :=
  sampleModifiers [] [.ofVariable { variable_ := varX, isDescending_ := false }]

/-- `GROUP BY ?x ORDER BY ?y`. -/
def groupXOrderY : SolutionModifiers SampleExpression :=
  sampleModifiers [.ofVariable varX] [.ofVariable { variable_ := varY, isDescending_ := false }]

/-- `GROUP BY ?x ORDER BY DESC(?c)`. -/
def groupXOrderCDesc : SolutionModifiers SampleExpression :=
  sampleModifiers [.ofVariable varX] [.ofVariable { variable_ := varC, isDescending_ := true }]

/-- The query `selectXCountY` after `addSolutionModifiers` with `GROUP BY ?x ORDER BY DESC(?c)`. -/
def selectXCountYOrderedByC : ParsedQuery SampleExpression :=
  { selectXCountY with
    _groupByVariables := [varX]
    _orderBy := [{ variable_ := varC, isDescending_ := true }] }

/-- `ORDER BY DESC(?x + ?y)`, no GROUP BY. -/
def orderXPlusYDesc : SolutionModifiers SampleExpression :=
  sampleModifiers [] [.ofExpression { isDescending_ := true, expression_ := exprXPlusY }]

/-- The query `selectXOneInternal` after `addSolutionModifiers` with
`ORDER BY DESC(?x + ?y)`: the expression is bound to the second internal variable and the
query is ordered by that variable. -/
def selectXOrderedByExpr : ParsedQuery SampleExpression :=
  { _rootGraphPattern := .mk false 0 []
      [.BasicGraphPattern [labelTriple], .Bind exprXPlusY ⟨"?_qlever_internal_variable_1"⟩],
    _havingClauses := [],
    _numGraphPatterns := 0,
    numInternalVariables_ := 2,
    _orderBy := [{ variable_ := ⟨"?_qlever_internal_variable_1"⟩, isDescending_ := true }],
    _isInternalSort := false,
    _limitOffset := { _limit := 0, _textLimit := 0, _offset := 0 },
    _groupByVariables := [],
    _clause := sampleSelect [varX] [] [varX, varY] }

end Examples

/-! ## Lemmas on the numbering pass -/

section NumberingLemmas

variable {E : Type}

mutual
/-- The counter advances by the number of numbered nodes, and the identities written
are the consecutive integers from the start value on, in the order of the walk. -/
theorem GraphPattern.recomputeIds_range : ∀ (g : GraphPattern E) (c : Nat),
    (g.recomputeIds c).2 = c + g.numberedIds.length ∧
      (g.recomputeIds c).1.numberedIds = List.range' c g.numberedIds.length
  | .mk o i f ops, c => by
    have h := recomputeIdsChildren_range ops (c + 1)
    simp only [GraphPattern.recomputeIds, GraphPattern.numberedIds, List.length_cons]
    refine ⟨by rw [h.1]; omega, ?_⟩
    rw [h.2, List.range'_succ]
/-- The same for a child sequence. -/
theorem recomputeIdsChildren_range : ∀ (ops : List (GraphPatternOperation E)) (c : Nat),
    (recomputeIdsChildren ops c).2 = c + (numberedIdsChildren ops).length ∧
      numberedIdsChildren (recomputeIdsChildren ops c).1 =
        List.range' c (numberedIdsChildren ops).length
  | [], c => by simp [recomputeIdsChildren, numberedIdsChildren]
  | op :: rest, c => by
    have h1 := GraphPatternOperation.recomputeIdsVisit_range op c
    have h2 := recomputeIdsChildren_range rest (op.recomputeIdsVisit c).2
    simp only [recomputeIdsChildren, numberedIdsChildren, List.length_append]
    refine ⟨by rw [h2.1, h1.1]; omega, ?_⟩
    rw [h2.2, h1.2, h1.1, List.range'_append_1, Nat.add_comm]
/-- The same for one child node. -/
theorem GraphPatternOperation.recomputeIdsVisit_range :
    ∀ (op : GraphPatternOperation E) (c : Nat),
    (op.recomputeIdsVisit c).2 = c + op.numberedIds.length ∧
      (op.recomputeIdsVisit c).1.numberedIds = List.range' c op.numberedIds.length
  | .Union c1 c2, c => by
    have h1 := GraphPattern.recomputeIds_range c1 c
    have h2 := GraphPattern.recomputeIds_range c2 (c1.recomputeIds c).2
    simp only [GraphPatternOperation.recomputeIdsVisit, GraphPatternOperation.numberedIds,
      List.length_append]
    refine ⟨by rw [h2.1, h1.1]; omega, ?_⟩
    rw [h2.2, h1.2, h1.1, List.range'_append_1, Nat.add_comm]
  | .Optional ch, c => by
    simpa only [GraphPatternOperation.recomputeIdsVisit, GraphPatternOperation.numberedIds]
      using GraphPattern.recomputeIds_range ch c
  | .GroupGraphPattern ch, c => by
    simpa only [GraphPatternOperation.recomputeIdsVisit, GraphPatternOperation.numberedIds]
      using GraphPattern.recomputeIds_range ch c
  | .Minus ch, c => by
    simpa only [GraphPatternOperation.recomputeIdsVisit, GraphPatternOperation.numberedIds]
      using GraphPattern.recomputeIds_range ch c
  | .TransPath _ _ _, c => by
    simp [GraphPatternOperation.recomputeIdsVisit, GraphPatternOperation.numberedIds]
  | .Values _ _ _, c => by
    simp [GraphPatternOperation.recomputeIdsVisit, GraphPatternOperation.numberedIds]
  | .Subquery _, c => by
    simp [GraphPatternOperation.recomputeIdsVisit, GraphPatternOperation.numberedIds]
  | .Service _ _, c => by
    simp [GraphPatternOperation.recomputeIdsVisit, GraphPatternOperation.numberedIds]
  | .BasicGraphPattern _, c => by
    simp [GraphPatternOperation.recomputeIdsVisit, GraphPatternOperation.numberedIds]
  | .Bind _ _, c => by
    simp [GraphPatternOperation.recomputeIdsVisit, GraphPatternOperation.numberedIds]
end

mutual
/-- The result of a numbering pass does not depend on the identities present before. -/
theorem GraphPattern.recomputeIds_recomputeIds : ∀ (g : GraphPattern E) (c d : Nat),
    (g.recomputeIds d).1.recomputeIds c = g.recomputeIds c
  | .mk o i f ops, c, d => by
    simp only [GraphPattern.recomputeIds]
    rw [recomputeIdsChildren_recomputeIdsChildren ops (c + 1) (d + 1)]
/-- The same for a child sequence. -/
theorem recomputeIdsChildren_recomputeIdsChildren :
    ∀ (ops : List (GraphPatternOperation E)) (c d : Nat),
    recomputeIdsChildren (recomputeIdsChildren ops d).1 c = recomputeIdsChildren ops c
  | [], c, d => by simp [recomputeIdsChildren]
  | op :: rest, c, d => by
    simp only [recomputeIdsChildren]
    rw [GraphPatternOperation.recomputeIdsVisit_recomputeIdsVisit op c d,
      recomputeIdsChildren_recomputeIdsChildren rest _ _]
/-- The same for one child node. -/
theorem GraphPatternOperation.recomputeIdsVisit_recomputeIdsVisit :
    ∀ (op : GraphPatternOperation E) (c d : Nat),
    (op.recomputeIdsVisit d).1.recomputeIdsVisit c = op.recomputeIdsVisit c
  | .Union c1 c2, c, d => by
    simp only [GraphPatternOperation.recomputeIdsVisit]
    rw [GraphPattern.recomputeIds_recomputeIds c1 c d,
      GraphPattern.recomputeIds_recomputeIds c2 _ _]
  | .Optional ch, c, d => by
    simp only [GraphPatternOperation.recomputeIdsVisit]
    rw [GraphPattern.recomputeIds_recomputeIds ch c d]
  | .GroupGraphPattern ch, c, d => by
    simp only [GraphPatternOperation.recomputeIdsVisit]
    rw [GraphPattern.recomputeIds_recomputeIds ch c d]
  | .Minus ch, c, d => by
    simp only [GraphPatternOperation.recomputeIdsVisit]
    rw [GraphPattern.recomputeIds_recomputeIds ch c d]
  | .TransPath _ _ _, c, d => by simp [GraphPatternOperation.recomputeIdsVisit]
  | .Values _ _ _, c, d => by simp [GraphPatternOperation.recomputeIdsVisit]
  | .Subquery _, c, d => by simp [GraphPatternOperation.recomputeIdsVisit]
  | .Service _ _, c, d => by simp [GraphPatternOperation.recomputeIdsVisit]
  | .BasicGraphPattern _, c, d => by simp [GraphPatternOperation.recomputeIdsVisit]
  | .Bind _ _, c, d => by simp [GraphPatternOperation.recomputeIdsVisit]
end

mutual
/-- Every pattern that a pass has numbered is itself the result of a pass, started at
the value the counter had when the walk reached it. -/
theorem GraphPattern.numberedPatterns_recomputeIds : ∀ (g : GraphPattern E) (c : Nat),
    ∀ p ∈ (g.recomputeIds c).1.numberedPatterns,
      ∃ (g0 : GraphPattern E) (c0 : Nat), p = (g0.recomputeIds c0).1
  | .mk o i f ops, c => by
    intro p hp
    simp only [GraphPattern.recomputeIds, GraphPattern.numberedPatterns,
      List.mem_cons] at hp
    rcases hp with hp | hp
    · exact ⟨.mk o i f ops, c, by simp only [GraphPattern.recomputeIds, hp]⟩
    · exact numberedPatternsChildren_recomputeIds ops (c + 1) p hp
/-- The same for a child sequence. -/
theorem numberedPatternsChildren_recomputeIds :
    ∀ (ops : List (GraphPatternOperation E)) (c : Nat),
    ∀ p ∈ numberedPatternsChildren (recomputeIdsChildren ops c).1,
      ∃ (g0 : GraphPattern E) (c0 : Nat), p = (g0.recomputeIds c0).1
  | [], c => by simp [recomputeIdsChildren, numberedPatternsChildren]
  | op :: rest, c => by
    intro p hp
    simp only [recomputeIdsChildren, numberedPatternsChildren, List.mem_append] at hp
    rcases hp with hp | hp
    · exact GraphPatternOperation.numberedPatterns_recomputeIdsVisit op c p hp
    · exact numberedPatternsChildren_recomputeIds rest _ p hp
/-- The same for one child node. -/
theorem GraphPatternOperation.numberedPatterns_recomputeIdsVisit :
    ∀ (op : GraphPatternOperation E) (c : Nat),
    ∀ p ∈ (op.recomputeIdsVisit c).1.numberedPatterns,
      ∃ (g0 : GraphPattern E) (c0 : Nat), p = (g0.recomputeIds c0).1
  | .Union c1 c2, c => by
    intro p hp
    simp only [GraphPatternOperation.recomputeIdsVisit,
      GraphPatternOperation.numberedPatterns, List.mem_append] at hp
    rcases hp with hp | hp
    · exact GraphPattern.numberedPatterns_recomputeIds c1 c p hp
    · exact GraphPattern.numberedPatterns_recomputeIds c2 _ p hp
  | .Optional ch, c => by
    intro p hp
    exact GraphPattern.numberedPatterns_recomputeIds ch c p
      (by simpa only [GraphPatternOperation.recomputeIdsVisit,
        GraphPatternOperation.numberedPatterns] using hp)
  | .GroupGraphPattern ch, c => by
    intro p hp
    exact GraphPattern.numberedPatterns_recomputeIds ch c p
      (by simpa only [GraphPatternOperation.recomputeIdsVisit,
        GraphPatternOperation.numberedPatterns] using hp)
  | .Minus ch, c => by
    intro p hp
    exact GraphPattern.numberedPatterns_recomputeIds ch c p
      (by simpa only [GraphPatternOperation.recomputeIdsVisit,
        GraphPatternOperation.numberedPatterns] using hp)
  | .TransPath _ _ _, c => by
    simp [GraphPatternOperation.recomputeIdsVisit, GraphPatternOperation.numberedPatterns]
  | .Values _ _ _, c => by
    simp [GraphPatternOperation.recomputeIdsVisit, GraphPatternOperation.numberedPatterns]
  | .Subquery _, c => by
    simp [GraphPatternOperation.recomputeIdsVisit, GraphPatternOperation.numberedPatterns]
  | .Service _ _, c => by
    simp [GraphPatternOperation.recomputeIdsVisit, GraphPatternOperation.numberedPatterns]
  | .BasicGraphPattern _, c => by
    simp [GraphPatternOperation.recomputeIdsVisit, GraphPatternOperation.numberedPatterns]
  | .Bind _ _, c => by
    simp [GraphPatternOperation.recomputeIdsVisit, GraphPatternOperation.numberedPatterns]
end

mutual
/-- A numbering pass changes nothing but identities. -/
theorem GraphPattern.eraseIds_recomputeIds : ∀ (g : GraphPattern E) (c : Nat),
    (g.recomputeIds c).1.eraseIds = g.eraseIds
  | .mk o i f ops, c => by
    simp only [GraphPattern.recomputeIds, GraphPattern.eraseIds]
    rw [eraseIdsChildren_recomputeIds ops (c + 1)]
/-- The same for a child sequence. -/
theorem eraseIdsChildren_recomputeIds : ∀ (ops : List (GraphPatternOperation E)) (c : Nat),
    eraseIdsChildren (recomputeIdsChildren ops c).1 = eraseIdsChildren ops
  | [], c => by simp [recomputeIdsChildren]
  | op :: rest, c => by
    simp only [recomputeIdsChildren, eraseIdsChildren]
    rw [GraphPatternOperation.eraseIds_recomputeIdsVisit op c,
      eraseIdsChildren_recomputeIds rest _]
/-- The same for one child node. -/
theorem GraphPatternOperation.eraseIds_recomputeIdsVisit :
    ∀ (op : GraphPatternOperation E) (c : Nat),
    (op.recomputeIdsVisit c).1.eraseIds = op.eraseIds
  | .Union c1 c2, c => by
    simp only [GraphPatternOperation.recomputeIdsVisit, GraphPatternOperation.eraseIds]
    rw [GraphPattern.eraseIds_recomputeIds c1 c, GraphPattern.eraseIds_recomputeIds c2 _]
  | .Optional ch, c => by
    simp only [GraphPatternOperation.recomputeIdsVisit, GraphPatternOperation.eraseIds]
    rw [GraphPattern.eraseIds_recomputeIds ch c]
  | .GroupGraphPattern ch, c => by
    simp only [GraphPatternOperation.recomputeIdsVisit, GraphPatternOperation.eraseIds]
    rw [GraphPattern.eraseIds_recomputeIds ch c]
  | .Minus ch, c => by
    simp only [GraphPatternOperation.recomputeIdsVisit, GraphPatternOperation.eraseIds]
    rw [GraphPattern.eraseIds_recomputeIds ch c]
  | .TransPath _ _ _, c => by
    simp [GraphPatternOperation.recomputeIdsVisit, GraphPatternOperation.eraseIds]
  | .Values _ _ _, c => by
    simp [GraphPatternOperation.recomputeIdsVisit, GraphPatternOperation.eraseIds]
  | .Subquery _, c => by
    simp [GraphPatternOperation.recomputeIdsVisit, GraphPatternOperation.eraseIds]
  | .Service _ _, c => by
    simp [GraphPatternOperation.recomputeIdsVisit, GraphPatternOperation.eraseIds]
  | .BasicGraphPattern _, c => by
    simp [GraphPatternOperation.recomputeIdsVisit, GraphPatternOperation.eraseIds]
  | .Bind _ _, c => by
    simp [GraphPatternOperation.recomputeIdsVisit, GraphPatternOperation.eraseIds]
end

/-- On a child sequence `eraseIds` works node by node. -/
theorem eraseIdsChildren_eq_map (ops : List (GraphPatternOperation E)) :
    eraseIdsChildren ops = ops.map GraphPatternOperation.eraseIds := by
  induction ops with
  | nil => rfl
  | cons op rest ih => simp only [eraseIdsChildren, List.map_cons, ih]

/-- The identities of a pattern are its own, followed by those below it. -/
theorem GraphPattern.numberedIds_eq (g : GraphPattern E) :
    g.numberedIds = g._id :: g.idsBelow := by
  cases g
  simp only [GraphPattern.numberedIds, GraphPattern._id, GraphPattern.idsBelow,
    GraphPattern._graphPatterns]

/-- Renumbering keeps the number of children. -/
theorem recomputeIdsChildren_length (ops : List (GraphPatternOperation E)) (c : Nat) :
    (recomputeIdsChildren ops c).1.length = ops.length := by
  have h := congrArg List.length (eraseIdsChildren_recomputeIds ops c)
  simpa only [eraseIdsChildren_eq_map, List.length_map] using h

end NumberingLemmas

/-! ## Claims on numbering and merge -/

section NumberingClaims

variable {E : Type}

/-- C1: after `recomputeIds` on the root with the counter starting at 0, the identities of
all numbered GraphPatterns and Values nodes are pairwise distinct, and the identity of
every numbered GraphPattern is strictly less than each identity numbered below it. -/
theorem recomputeIds_distinct_and_parent_less (g : GraphPattern E) :
    (g.recomputeIds 0).1.numberedIds.Nodup ∧
      ∀ p ∈ (g.recomputeIds 0).1.numberedPatterns, ∀ i ∈ p.idsBelow, p._id < i := by
  constructor
  · rw [(g.recomputeIds_range 0).2]
    exact List.nodup_range' _ _
  · intro p hp i hi
    obtain ⟨g0, c0, rfl⟩ := g.numberedPatterns_recomputeIds 0 p hp
    have h := (g0.recomputeIds_range c0).2
    rw [GraphPattern.numberedIds_eq, GraphPattern.numberedIds_eq g0, List.length_cons,
      List.range'_succ] at h
    injection h with h1 h2
    rw [h2, List.mem_range'_1] at hi
    omega

/-- C2: `recomputeIds` is idempotent: a second run (counter again from 0) on the result of
a first run returns the same tree, identity by identity, and the same final counter. -/
theorem recomputeIds_idempotent (g : GraphPattern E) :
    (g.recomputeIds 0).1.recomputeIds 0 = g.recomputeIds 0 :=
  g.recomputeIds_recomputeIds 0 0

/-- C3: `q.merge(p)` makes the root children of `q` the old ones followed by those of `p`,
in order and up to identities (so the length is the sum), and leaves the clause, the
group-by list, the HAVING list, the ORDER BY list, limit/offset, the internal-variable
counter and the root filter list of `q` as they were. -/
theorem merge_appends_children (q p : ParsedQuery E) :
    (rootChildren (q.merge p)).map GraphPatternOperation.eraseIds =
        (rootChildren q).map GraphPatternOperation.eraseIds ++
          (rootChildren p).map GraphPatternOperation.eraseIds ∧
      (rootChildren (q.merge p)).length = (rootChildren q).length + (rootChildren p).length ∧
      (q.merge p)._clause = q._clause ∧
      (q.merge p)._groupByVariables = q._groupByVariables ∧
      (q.merge p)._havingClauses = q._havingClauses ∧
      (q.merge p)._orderBy = q._orderBy ∧
      (q.merge p)._limitOffset = q._limitOffset ∧
      (q.merge p)._isInternalSort = q._isInternalSort ∧
      (q.merge p).numInternalVariables_ = q.numInternalVariables_ ∧
      (q.merge p)._rootGraphPattern._filters = q._rootGraphPattern._filters ∧
      (q.merge p)._rootGraphPattern._optional = q._rootGraphPattern._optional := by
  have hc : rootChildren (q.merge p) =
      (recomputeIdsChildren (rootChildren q ++ rootChildren p) 1).1 := by
    simp only [rootChildren, ParsedQueryOver.merge, GraphPattern.recomputeIds,
      GraphPattern._graphPatterns]
  refine ⟨?_, ?_, rfl, rfl, rfl, rfl, rfl, rfl, rfl, ?_, ?_⟩
  · rw [hc, ← eraseIdsChildren_eq_map, eraseIdsChildren_recomputeIds, eraseIdsChildren_eq_map,
      List.map_append]
  · rw [hc, recomputeIdsChildren_length, List.length_append]
  · simp only [ParsedQueryOver.merge, GraphPattern.recomputeIds, GraphPattern._filters]
  · simp only [ParsedQueryOver.merge, GraphPattern.recomputeIds, GraphPattern._optional]

/-- C4: after `q.merge(p)` the identities of the numbered GraphPatterns and Values nodes
of the combined tree are exactly `0, 1, ..., n-1`, each once, with `n` the stored
`_numGraphPatterns`, and the root has identity 0, whatever the identities were before. -/
theorem merge_ids_contiguous (q p : ParsedQuery E) :
    (q.merge p)._rootGraphPattern.numberedIds = List.range (q.merge p)._numGraphPatterns ∧
      (q.merge p)._rootGraphPattern.numberedIds.Nodup ∧
      (∀ i, i ∈ (q.merge p)._rootGraphPattern.numberedIds ↔
        i < (q.merge p)._numGraphPatterns) ∧
      (q.merge p)._rootGraphPattern._id = 0 := by
  have h := GraphPattern.recomputeIds_range
    (GraphPattern.mk q._rootGraphPattern._optional q._rootGraphPattern._id
      q._rootGraphPattern._filters
      (q._rootGraphPattern._graphPatterns ++ p._rootGraphPattern._graphPatterns)) 0
  have hr : (q.merge p)._rootGraphPattern.numberedIds =
      List.range (q.merge p)._numGraphPatterns := by
    simp only [ParsedQueryOver.merge]
    rw [h.2, h.1, Nat.zero_add, List.range_eq_range']
  refine ⟨hr, ?_, ?_, ?_⟩
  · rw [hr]; exact List.nodup_range _
  · intro i; rw [hr, List.mem_range]
  · simp only [ParsedQueryOver.merge, GraphPattern.recomputeIds, GraphPattern._id]

/-- C4, scenario F: two roots with two top-level children each give four top-level
children, numbered 0, 1, 2, 3, 4 over the root, the Optional child, its Values node and
the two Union branches. -/
theorem merge_scenarioF :
    (rootChildren (scenarioF_q.merge scenarioF_p)).length = 4 ∧
      (scenarioF_q.merge scenarioF_p)._numGraphPatterns = 5 ∧
      (scenarioF_q.merge scenarioF_p)._rootGraphPattern.numberedIds = [0, 1, 2, 3, 4] :=
  ⟨by rfl, by rfl, (merge_ids_contiguous scenarioF_q scenarioF_p).1.trans (by rfl)⟩

end NumberingClaims

/-! ## Lemmas on the solution modifiers -/

section ModifierLemmas

variable {E : Type}

/-- `ad_utility::contains` decides membership. -/
theorem ad_utility.contains_iff {α : Type} [DecidableEq α] (l : List α) (a : α) :
    ad_utility.contains l a = true ↔ a ∈ l := by
  simp [ad_utility.contains, List.find?_isSome]

/-- `ad_utility::contains` is false exactly on a non-member. -/
theorem ad_utility.contains_eq_false_iff {α : Type} [DecidableEq α] (l : List α) (a : α) :
    ad_utility.contains l a = false ↔ a ∉ l := by
  rw [← ad_utility.contains_iff, Bool.not_eq_true]

/-- The visibility check passes on a variable that is visible or additionally allowed. -/
theorem checkVariableIsVisible_ok (q : ParsedQuery E) (v : Variable) (loc : String)
    (add : List Variable) (h : v ∈ q.getVisibleVariables ∨ v ∈ add) :
    checkVariableIsVisible q v loc add = .ok () := by
  unfold checkVariableIsVisible
  rcases h with h | h
  · simp [(ad_utility.contains_iff _ _).2 h]
  · simp [h]

/-- The visibility check throws `InvalidQueryException` on any other variable. -/
theorem checkVariableIsVisible_error (q : ParsedQuery E) (v : Variable) (loc : String)
    (add : List Variable) (h1 : v ∉ q.getVisibleVariables) (h2 : v ∉ add) :
    checkVariableIsVisible q v loc add =
      .error (.InvalidQueryException ("Variable " ++ v.name ++ " was used by " ++ loc ++
        ", but is not defined in the query body.")) := by
  unfold checkVariableIsVisible
  simp [(ad_utility.contains_eq_false_iff _ _).2 h1, h2]

/-- The loop over the contained variables passes when all of them pass. -/
theorem checkVariablesAreVisible_ok (q : ParsedQuery E) (loc : String) (add : List Variable) :
    ∀ (vars : List Variable), (∀ v ∈ vars, v ∈ q.getVisibleVariables ∨ v ∈ add) →
      checkVariablesAreVisible q loc add vars = .ok ()
  | [], _ => rfl
  | v :: rest, h => by
    simp only [checkVariablesAreVisible,
      checkVariableIsVisible_ok q v loc add (h v (List.mem_cons_self _ _))]
    exact checkVariablesAreVisible_ok q loc add rest
      (fun w hw => h w (List.mem_cons_of_mem _ hw))

/-- The loop over the contained variables throws `InvalidQueryException`, naming the
first offending variable, when one of them is neither visible nor additionally allowed. -/
theorem checkVariablesAreVisible_error (q : ParsedQuery E) (loc : String)
    (add : List Variable) :
    ∀ (vars : List Variable), (∃ v ∈ vars, v ∉ q.getVisibleVariables ∧ v ∉ add) →
      ∃ v ∈ vars, v ∉ q.getVisibleVariables ∧ v ∉ add ∧
        checkVariablesAreVisible q loc add vars =
          .error (.InvalidQueryException ("Variable " ++ v.name ++ " was used by " ++ loc ++
            ", but is not defined in the query body."))
  | [], h => by simp at h
  | v :: rest, h => by
    by_cases hv : v ∈ q.getVisibleVariables ∨ v ∈ add
    · have hrest : ∃ w ∈ rest, w ∉ q.getVisibleVariables ∧ w ∉ add := by
        obtain ⟨w, hw, h1, h2⟩ := h
        rcases List.mem_cons.1 hw with rfl | hw
        · exact absurd hv (by tauto)
        · exact ⟨w, hw, h1, h2⟩
      obtain ⟨w, hw, h1, h2, he⟩ := checkVariablesAreVisible_error q loc add rest hrest
      refine ⟨w, List.mem_cons_of_mem _ hw, h1, h2, ?_⟩
      simp only [checkVariablesAreVisible, checkVariableIsVisible_ok q v loc add hv, he]
    · have h1 : v ∉ q.getVisibleVariables := fun h => hv (Or.inl h)
      have h2 : v ∉ add := fun h => hv (Or.inr h)
      refine ⟨v, List.mem_cons_self _ _, h1, h2, ?_⟩
      simp only [checkVariablesAreVisible, checkVariableIsVisible_error q v loc add h1 h2]

/-- The outcome of the loop over the contained variables: it passes, or it throws an
`InvalidQueryException`. -/
theorem checkVariablesAreVisible_cases (q : ParsedQuery E) (loc : String)
    (add : List Variable) (vars : List Variable) :
    (checkVariablesAreVisible q loc add vars = .ok () ∧
        ∀ v ∈ vars, v ∈ q.getVisibleVariables ∨ v ∈ add) ∨
      ∃ msg, checkVariablesAreVisible q loc add vars = .error (.InvalidQueryException msg) ∧
        ∃ v ∈ vars, v ∉ q.getVisibleVariables ∧ v ∉ add := by
  by_cases h : ∀ v ∈ vars, v ∈ q.getVisibleVariables ∨ v ∈ add
  · exact Or.inl ⟨checkVariablesAreVisible_ok q loc add vars h, h⟩
  · right
    have h2 : ∃ v ∈ vars, v ∉ q.getVisibleVariables ∧ v ∉ add := by
      push_neg at h
      exact h
    obtain ⟨v, hv, h1, h3, he⟩ := checkVariablesAreVisible_error q loc add vars h2
    exact ⟨_, he, v, hv, h1, h3⟩

/-- A clause grows to itself. -/
theorem ClauseGrows.refl (a : Clause E) : ClauseGrows a a := by
  cases a <;> simp [ClauseGrows]

/-- Growing is transitive. -/
theorem ClauseGrows.trans {a b c : Clause E} (h1 : ClauseGrows a b) (h2 : ClauseGrows b c) :
    ClauseGrows a c := by
  cases a <;> cases b <;> cases c <;> simp only [ClauseGrows] at h1 h2 ⊢
  · exact ⟨h2.1.trans h1.1, h2.2.1.trans h1.2.1, h2.2.2.1.trans h1.2.2.1,
      fun v hv => h2.2.2.2 v (h1.2.2.2 v hv)⟩
  · exact ⟨h2.1.trans h1.1, fun v hv => h2.2 v (h1.2 v hv)⟩

/-- Growing keeps a SELECT clause a SELECT clause with the same selection and aliases. -/
theorem ClauseGrows.select {c : SelectClause E} {b : Clause E}
    (h : ClauseGrows (.select c) b) :
    ∃ d, b = .select d ∧ d.varsAndAliasesOrAsterisk_ = c.varsAndAliasesOrAsterisk_ ∧
      ∀ v ∈ c.visibleVariables_, v ∈ d.visibleVariables_ := by
  cases b with
  | select d => exact ⟨d, rfl, h.1, h.2.2.2⟩
  | construct d => simp [ClauseGrows] at h

/-- Registering a variable keeps the visible ones, in place. -/
theorem mem_addVisibleVariable (vis : List Variable) (var v : Variable) :
    v ∈ addVisibleVariable vis var ↔ v ∈ vis ∨ v = var := by
  unfold addVisibleVariable
  by_cases h : ad_utility.contains vis var = true
  · rw [if_pos h]
    rw [ad_utility.contains_iff] at h
    constructor
    · exact Or.inl
    · rintro (h1 | rfl)
      · exact h1
      · exact h
  · rw [if_neg h]
    simp

/-- Registering a variable as visible grows the clause and touches nothing else. -/
theorem registerVariableVisibleInQueryBody_frame (q : ParsedQuery E) (var : Variable) :
    ClauseGrows q._clause (q.registerVariableVisibleInQueryBody var)._clause ∧
      var ∈ (q.registerVariableVisibleInQueryBody var).getVisibleVariables ∧
      (q.registerVariableVisibleInQueryBody var)._rootGraphPattern = q._rootGraphPattern ∧
      (q.registerVariableVisibleInQueryBody var)._groupByVariables = q._groupByVariables ∧
      (q.registerVariableVisibleInQueryBody var)._orderBy = q._orderBy ∧
      (q.registerVariableVisibleInQueryBody var).numInternalVariables_ =
        q.numInternalVariables_ := by
  obtain ⟨root, hav, n, ni, ob, iis, lo, gb, cl⟩ := q
  cases cl with
  | select c =>
    simp only [ParsedQueryOver.registerVariableVisibleInQueryBody, ClauseGrows,
      ParsedQueryOver.getVisibleVariables, mem_addVisibleVariable]
    simp only [or_true, and_self, true_and, and_true]
    exact fun v hv => Or.inl hv
  | construct c =>
    simp only [ParsedQueryOver.registerVariableVisibleInQueryBody, ClauseGrows,
      ParsedQueryOver.getVisibleVariables, mem_addVisibleVariable]
    simp only [or_true, and_self, true_and, and_true]
    exact fun v hv => Or.inl hv

/-- `emplaceBackRoot` appends one child to the root and touches nothing else. -/
theorem rootChildren_emplaceBackRoot (q : ParsedQuery E) (op : GraphPatternOperation E) :
    rootChildren (emplaceBackRoot q op) = rootChildren q ++ [op] := rfl

/-- `addBind` appends exactly the Bind node to the root children. -/
theorem rootChildren_addBind (q : ParsedQuery E) (e : E) (t : Variable) (b : Bool) :
    rootChildren (addBind q e t b) = rootChildren q ++ [.Bind e t] := by
  cases b
  · rfl
  · have h := (registerVariableVisibleInQueryBody_frame q t).2.2.1
    simp only [addBind, if_true]
    rw [rootChildren_emplaceBackRoot]
    simp only [rootChildren, h]

/-- `addBind` grows the clause. -/
theorem clause_addBind (q : ParsedQuery E) (e : E) (t : Variable) (b : Bool) :
    ClauseGrows q._clause (addBind q e t b)._clause := by
  cases b
  · exact ClauseGrows.refl _
  · exact (registerVariableVisibleInQueryBody_frame q t).1

/-- One GROUP BY entry grows the clause. -/
theorem processGroupKey_clause (cap : SparqlExpressionCapability E) (pre : String)
    (q q1 : ParsedQuery E) (k : GroupKey E) (h : processGroupKey cap pre q k = .ok q1) :
    ClauseGrows q._clause q1._clause := by
  cases k with
  | ofVariable v =>
    simp only [processGroupKey, processVariable] at h
    split at h
    · cases h
    · cases h
      exact ClauseGrows.refl _
  | ofExpression e =>
    simp only [processGroupKey, processExpression] at h
    split at h
    · cases h
    · cases h
      exact ClauseGrows.refl _
  | ofAlias a =>
    simp only [processGroupKey, processAlias] at h
    cases h
    exact (registerVariableVisibleInQueryBody_frame
      (emplaceBackRoot q (.Bind a._expression a._target)) a._target).1

/-- The GROUP BY loop grows the clause. -/
theorem processGroupKeys_clause (cap : SparqlExpressionCapability E) (pre : String) :
    ∀ (keys : List (GroupKey E)) (q q1 : ParsedQuery E),
      processGroupKeys cap pre keys q = .ok q1 → ClauseGrows q._clause q1._clause
  | [], q, q1, h => by
    simp only [processGroupKeys] at h
    cases h
    exact ClauseGrows.refl _
  | k :: rest, q, q1, h => by
    simp only [processGroupKeys] at h
    split at h
    · cases h
    · next qm hk =>
      exact (processGroupKey_clause cap pre q qm k hk).trans
        (processGroupKeys_clause cap pre rest qm q1 h)

/-- Stages 1 and 2 grow the clause. -/
theorem groupByStage_clause (cap : SparqlExpressionCapability E) (pre : String)
    (q q2 : ParsedQuery E) (modifiers : SolutionModifiers E)
    (h : groupByStage cap pre q modifiers = .ok q2) : ClauseGrows q._clause q2._clause := by
  simp only [groupByStage] at h
  split at h
  · cases h
  · next qm hk =>
    cases h
    exact processGroupKeys_clause cap pre _ q qm hk

/-- One ORDER BY key leaves the clause and the group-by list as they are. -/
theorem processOrderKey_frame (cap : SparqlExpressionCapability E) (pre : String)
    (grouping : Bool) (note : String) (q q1 : ParsedQuery E) (k : OrderKey E)
    (h : processOrderKey cap pre grouping note q k = .ok q1) :
    q1._clause = q._clause ∧ q1._groupByVariables = q._groupByVariables := by
  cases k with
  | ofVariable k =>
    simp only [processOrderKey, processVariableOrderKey] at h
    split at h
    · split at h
      · cases h
      · cases h
        exact ⟨rfl, rfl⟩
    · split at h
      · cases h
      · cases h
        exact ⟨rfl, rfl⟩
  | ofExpression k =>
    simp only [processOrderKey, processExpressionOrderKey] at h
    split at h
    · cases h
    · split at h
      · cases h
      · cases h
        exact ⟨rfl, rfl⟩

/-- The ORDER BY loop leaves the clause and the group-by list as they are. -/
theorem processOrderKeys_frame (cap : SparqlExpressionCapability E) (pre : String)
    (grouping : Bool) (note : String) :
    ∀ (keys : List (OrderKey E)) (q q1 : ParsedQuery E),
      processOrderKeys cap pre grouping note keys q = .ok q1 →
        q1._clause = q._clause ∧ q1._groupByVariables = q._groupByVariables
  | [], q, q1, h => by
    simp only [processOrderKeys] at h
    cases h
    exact ⟨rfl, rfl⟩
  | k :: rest, q, q1, h => by
    simp only [processOrderKeys] at h
    split at h
    · cases h
    · next qm hk =>
      have h1 := processOrderKey_frame cap pre grouping note q qm k hk
      have h2 := processOrderKeys_frame cap pre grouping note rest qm q1 h
      exact ⟨h2.1.trans h1.1, h2.2.trans h1.2⟩

/-- Stages 3 and 4 leave the clause and the group-by list as they are. -/
theorem orderByStage_frame (cap : SparqlExpressionCapability E) (pre : String)
    (grouping : Bool) (note : String) (q q4 : ParsedQuery E) (modifiers : SolutionModifiers E)
    (h : orderByStage cap pre grouping note q modifiers = .ok q4) :
    q4._clause = q._clause ∧ q4._groupByVariables = q._groupByVariables := by
  simp only [orderByStage] at h
  split at h
  · cases h
  · next qm hk =>
    cases h
    exact processOrderKeys_frame cap pre grouping note _ q qm hk

/-- The alias-target check throws as soon as one alias has a target that is visible or
that occurs more than once among the selected variables; the message names the target of
the first such alias. -/
theorem checkAliasTargetsLoop_error (c : SelectClause E) :
    ∀ (aliases : List (Alias E)),
      (∃ a ∈ aliases, a._target ∈ c.visibleVariables_ ∨
        1 < c.getSelectedVariables.count a._target) →
      ∃ a ∈ aliases,
        (a._target ∈ c.visibleVariables_ ∧
          checkAliasTargetsLoop c aliases =
            .error (.InvalidQueryException ("The target" ++ a._target.name ++
              " of an AS clause was already used in the query body."))) ∨
        (1 < c.getSelectedVariables.count a._target ∧
          checkAliasTargetsLoop c aliases =
            .error (.InvalidQueryException ("The target" ++ a._target.name ++
              " of an AS clause was already used before in the SELECT clause.")))
  | [], h => by simp at h
  | a :: rest, h => by
    by_cases hv : a._target ∈ c.visibleVariables_
    · refine ⟨a, List.mem_cons_self _ _, Or.inl ⟨hv, ?_⟩⟩
      simp only [checkAliasTargetsLoop, (ad_utility.contains_iff _ _).2 hv, if_true]
    · have hcf := (ad_utility.contains_eq_false_iff _ _).2 hv
      by_cases hcount : 1 < c.getSelectedVariables.count a._target
      · refine ⟨a, List.mem_cons_self _ _, Or.inr ⟨hcount, ?_⟩⟩
        simp only [checkAliasTargetsLoop, hcf, Bool.false_eq_true, if_false, gt_iff_lt, hcount,
          if_true]
      · have hrest : ∃ b ∈ rest, b._target ∈ c.visibleVariables_ ∨
            1 < c.getSelectedVariables.count b._target := by
          obtain ⟨b, hb, hbad⟩ := h
          rcases List.mem_cons.1 hb with rfl | hb
          · rcases hbad with h1 | h1
            · exact absurd h1 hv
            · exact absurd h1 hcount
          · exact ⟨b, hb, hbad⟩
        obtain ⟨b, hb, hres⟩ := checkAliasTargetsLoop_error c rest hrest
        refine ⟨b, List.mem_cons_of_mem _ hb, ?_⟩
        simpa only [checkAliasTargetsLoop, hcf, Bool.false_eq_true, if_false, gt_iff_lt, hcount]
          using hres

/-- A string occurs inside every message built around it. -/
theorem isInfix_message (before name after : String) :
    name.data <:+: (before ++ name ++ after).data :=
  ⟨before.data, after.data, by simp only [String.data_append]⟩

/-- Compiling the aliases appends one Bind node per alias, in order. -/
theorem rootChildren_addAliasBinds :
    ∀ (aliases : List (Alias E)) (q : ParsedQuery E),
      rootChildren (addAliasBinds aliases q) = rootChildren q ++ aliases.map aliasBind
  | [], q => by simp [addAliasBinds]
  | a :: rest, q => by
    simp only [addAliasBinds, List.map_cons]
    rw [rootChildren_addAliasBinds rest, rootChildren_addBind, List.append_assoc]
    rfl

/-- Compiling the aliases grows the clause. -/
theorem clause_addAliasBinds :
    ∀ (aliases : List (Alias E)) (q : ParsedQuery E),
      ClauseGrows q._clause (addAliasBinds aliases q)._clause
  | [], _ => ClauseGrows.refl _
  | a :: rest, q =>
    (clause_addBind q a._expression a._target true).trans (clause_addAliasBinds rest _)

/-- Deleting the aliases does not touch the root pattern. -/
theorem rootChildren_deleteAliasesButKeepVariables (q : ParsedQuery E) :
    rootChildren (deleteAliasesButKeepVariables q) = rootChildren q := by
  obtain ⟨root, hav, n, ni, ob, iis, lo, gb, cl⟩ := q
  cases cl <;> rfl

/-- Stage 1 on bare variables that are all visible appends them to the group-by list
and changes nothing else. -/
theorem processGroupKeys_variables_ok (cap : SparqlExpressionCapability E) (pre : String) :
    ∀ (vars : List Variable) (q : ParsedQuery E), (∀ v ∈ vars, v ∈ q.getVisibleVariables) →
      processGroupKeys cap pre (vars.map GroupKey.ofVariable) q =
        .ok { q with _groupByVariables := q._groupByVariables ++ vars }
  | [], q, _ => by simp [processGroupKeys]
  | v :: rest, q, h => by
    have hv := checkVariableIsVisible_ok q v "GROUP BY" []
      (Or.inl (h v (List.mem_cons_self _ _)))
    have ih := processGroupKeys_variables_ok cap pre rest
      { q with _groupByVariables := q._groupByVariables ++ [⟨v.name⟩] }
      (fun w hw => h w (List.mem_cons_of_mem _ hw))
    simp only [List.map_cons, processGroupKeys, processGroupKey, processVariable, hv]
    rw [ih]
    simp [Variable.name]

/-- Stage 1 on bare variables throws `InvalidQueryException` when one is not visible. -/
theorem processGroupKeys_variables_error (cap : SparqlExpressionCapability E) (pre : String) :
    ∀ (vars : List Variable) (q : ParsedQuery E), (∃ v ∈ vars, v ∉ q.getVisibleVariables) →
      ∃ msg st, processGroupKeys cap pre (vars.map GroupKey.ofVariable) q =
        .error (.InvalidQueryException msg, st)
  | [], q, h => by simp at h
  | v :: rest, q, h => by
    by_cases hv : v ∈ q.getVisibleVariables
    · have hc := checkVariableIsVisible_ok q v "GROUP BY" [] (Or.inl hv)
      have hrest : ∃ w ∈ rest, w ∉ q.getVisibleVariables := by
        obtain ⟨w, hw, h1⟩ := h
        rcases List.mem_cons.1 hw with rfl | hw
        · exact absurd hv h1
        · exact ⟨w, hw, h1⟩
      obtain ⟨msg, st, he⟩ := processGroupKeys_variables_error cap pre rest
        { q with _groupByVariables := q._groupByVariables ++ [⟨v.name⟩] } hrest
      exact ⟨msg, st, by
        simp only [List.map_cons, processGroupKeys, processGroupKey, processVariable, hc, he]⟩
    · have hc := checkVariableIsVisible_error q v "GROUP BY" [] hv (List.not_mem_nil _)
      refine ⟨"Variable " ++ v.name ++ " was used by " ++ "GROUP BY" ++
        ", but is not defined in the query body.", q, ?_⟩
      simp only [List.map_cons, processGroupKeys, processGroupKey, processVariable, hc]

end ModifierLemmas

/-! ## Claims on the solution modifiers -/

section ModifierClaims

variable {E : Type}

/-- C5: for a GROUP BY list of bare variables, `addSolutionModifiers` throws
`InvalidQueryException` as soon as one of them is not visible at the call, whatever the
clause and the other modifiers; and when Stage 1 does not fail, the resolved group-by
list is the list it had before followed by the input list in the same order, hence the
input list itself when it was empty before the call. -/
theorem groupBy_bare_variables (cap : SparqlExpressionCapability E) (pre : String)
    (q : ParsedQuery E) (modifiers : SolutionModifiers E) (vars : List Variable)
    (hm : modifiers.groupByVariables_ = vars.map GroupKey.ofVariable) :
    ((∃ v ∈ vars, v ∉ q.getVisibleVariables) →
        ∃ msg st, addSolutionModifiers cap pre q modifiers =
          .error (.InvalidQueryException msg, st)) ∧
      (∀ q1, groupByStage cap pre q modifiers = .ok q1 →
        q1._groupByVariables = q._groupByVariables ++ vars ∧
          (q._groupByVariables = [] → q1._groupByVariables = vars)) := by
  constructor
  · intro h
    obtain ⟨msg, st, he⟩ := processGroupKeys_variables_error cap pre vars q h
    exact ⟨msg, st, by simp only [addSolutionModifiers, groupByStage, hm, he]⟩
  · intro q1 h1
    by_cases h : ∀ v ∈ vars, v ∈ q.getVisibleVariables
    · have hk := processGroupKeys_variables_ok cap pre vars q h
      simp only [groupByStage, hm, hk, Except.ok.injEq] at h1
      subst h1
      exact ⟨rfl, fun h0 => by simp [h0]⟩
    · have h2 : ∃ v ∈ vars, v ∉ q.getVisibleVariables := by
        push_neg at h
        exact h
      obtain ⟨msg, st, he⟩ := processGroupKeys_variables_error cap pre vars q h2
      simp [groupByStage, hm, he] at h1

/-- C5, on `SELECT ?x` with `?x`, `?y` visible: `GROUP BY ?x ?z` is rejected with an
`InvalidQueryException`, and `GROUP BY ?x ?y` resolves to the list `[?x, ?y]`. -/
theorem groupBy_bare_variables_witness :
    (∃ msg st, addSolutionModifiers sampleCapability samplePrefix selectX groupXZ =
        .error (.InvalidQueryException msg, st)) ∧
      (∃ q1, groupByStage sampleCapability samplePrefix selectX groupXY = .ok q1 ∧
        q1._groupByVariables = [varX, varY]) :=
  ⟨(groupBy_bare_variables sampleCapability samplePrefix selectX groupXZ
      [varX, ⟨"?z"⟩] rfl).1 ⟨⟨"?z"⟩, by decide, by decide⟩,
    _, rfl,
    ((groupBy_bare_variables sampleCapability samplePrefix selectX groupXY
      [varX, varY] rfl).2 _ rfl).2 rfl⟩

/-- C6 as stated fails: on `SELECT ?x ... GROUP BY ?x ORDER BY (?a + ?b)` the GROUP BY stage
succeeds and grouping is active, but the exception is an `InvalidQueryException` (for
`?a`, which is not visible), so no `NotSupportedException` is thrown. -/
theorem orderBy_expression_invisible_counterexample :
    (∃ q2, groupByStage sampleCapability samplePrefix selectX groupXOrderAPlusB = .ok q2 ∧
        isGroupBy sampleCapability q2 = true) ∧
      (∃ st, addSolutionModifiers sampleCapability samplePrefix selectX groupXOrderAPlusB =
        .error (.InvalidQueryException
          "Variable ?a was used by ORDER BY in expression \"?a + ?b\", but is not defined in the query body.",
          st)) ∧
      ¬ ∃ msg st, addSolutionModifiers sampleCapability samplePrefix selectX groupXOrderAPlusB =
        .error (.NotSupportedException msg, st) := by
  have h : ∃ st, addSolutionModifiers sampleCapability samplePrefix selectX groupXOrderAPlusB =
      .error (.InvalidQueryException
        "Variable ?a was used by ORDER BY in expression \"?a + ?b\", but is not defined in the query body.",
        st) := ⟨_, rfl⟩
  refine ⟨⟨_, rfl, rfl⟩, h, ?_⟩
  rintro ⟨msg, st, hns⟩
  obtain ⟨st2, h2⟩ := h
  rw [h2] at hns
  cases hns

/-- C6, amended: with grouping active after a successful GROUP BY stage and an ORDER BY
that starts with an expression key (so also one that consists of it),
`addSolutionModifiers` throws a `NotSupportedException` when every variable contained in
the expression is visible, and an `InvalidQueryException` when one of them is not; in both
cases the query is as the GROUP BY stage left it. -/
theorem orderBy_expression_under_grouping (cap : SparqlExpressionCapability E) (pre : String)
    (q q2 : ParsedQuery E) (modifiers : SolutionModifiers E) (k : ExpressionOrderKey E)
    (rest : List (OrderKey E))
    (h2 : groupByStage cap pre q modifiers = .ok q2)
    (hg : isGroupBy cap q2 = true)
    (hk : modifiers.orderBy_.orderKeys = .ofExpression k :: rest) :
    ((∀ v ∈ cap.containedVariables k.expression_, v ∈ q2.getVisibleVariables) →
        ∃ msg, addSolutionModifiers cap pre q modifiers =
          .error (.NotSupportedException msg, q2)) ∧
      ((∃ v ∈ cap.containedVariables k.expression_, v ∉ q2.getVisibleVariables) →
        ∃ msg, addSolutionModifiers cap pre q modifiers =
          .error (.InvalidQueryException msg, q2)) := by
  constructor
  · intro hv
    have hc := checkVariablesAreVisible_ok q2
      ("ORDER BY" ++ " in expression \"" ++ cap.getDescriptor k.expression_ ++ "\"") []
      (cap.containedVariables k.expression_) (fun v h => Or.inl (hv v h))
    refine ⟨"Ordering by an expression while grouping is not supported by QLever. (The expression is \"" ++
      cap.getDescriptor k.expression_ ++
      "\"). Please assign this expression to a new variable in the SELECT clause and then order by this variable." ++
      noteForImplicitGroupBy cap q2, ?_⟩
    simp only [addSolutionModifiers, h2, orderByStage, hk, processOrderKeys, processOrderKey,
      processExpressionOrderKey, checkUsedVariablesAreVisible, hc, hg, if_true]
  · intro hv
    obtain ⟨v, hvm, h1, -, he⟩ := checkVariablesAreVisible_error q2
      ("ORDER BY" ++ " in expression \"" ++ cap.getDescriptor k.expression_ ++ "\"") []
      (cap.containedVariables k.expression_)
      (by obtain ⟨v, hvm, h1⟩ := hv; exact ⟨v, hvm, h1, List.not_mem_nil _⟩)
    refine ⟨"Variable " ++ v.name ++ " was used by " ++
      ("ORDER BY" ++ " in expression \"" ++ cap.getDescriptor k.expression_ ++ "\"") ++
      ", but is not defined in the query body.", ?_⟩
    simp only [addSolutionModifiers, h2, orderByStage, hk, processOrderKeys, processOrderKey,
      processExpressionOrderKey, checkUsedVariablesAreVisible, he]

/-- C6, amended, on `SELECT ?x ... GROUP BY ?x`: `ORDER BY (?x + ?y)` with both variables
visible throws `NotSupportedException`. -/
theorem orderBy_expression_under_grouping_witness :
    ∃ msg st, addSolutionModifiers sampleCapability samplePrefix selectX groupXOrderXPlusY =
      .error (.NotSupportedException msg, st) :=
  Exists.elim
    ((orderBy_expression_under_grouping sampleCapability samplePrefix selectX _
      groupXOrderXPlusY _ _ rfl rfl rfl).1 (by decide))
    (fun msg h => ⟨msg, _, h⟩)

/-- C7: for a SELECT query whose GROUP BY and ORDER BY stages succeed, if the target of
some alias is visible (at the call, or when the check runs) or occurs more than once
among the selected variables, `addSolutionModifiers` throws an `InvalidQueryException`
whose message contains the name of the target of such an alias; the query is still as the
ORDER BY stage left it and the message is one of the two of the alias-target check, which
runs before the checks of the variables and aggregates of the aliases. -/
theorem alias_target_overlap_rejected (cap : SparqlExpressionCapability E) (pre : String)
    (q q2 q4 : ParsedQuery E) (modifiers : SolutionModifiers E) (c0 : SelectClause E)
    (hsel : q._clause = .select c0)
    (h2 : groupByStage cap pre q modifiers = .ok q2)
    (h4 : orderByStage cap pre (isGroupBy cap q2) (noteForImplicitGroupBy cap q2) q2
      modifiers = .ok q4)
    (hbad : ∃ a ∈ c0.getAliases, a._target ∈ q.getVisibleVariables ∨
      a._target ∈ q4.getVisibleVariables ∨ 1 < c0.getSelectedVariables.count a._target) :
    ∃ a ∈ c0.getAliases,
      (a._target ∈ q4.getVisibleVariables ∨ 1 < c0.getSelectedVariables.count a._target) ∧
      ∃ msg, addSolutionModifiers cap pre q modifiers =
          .error (.InvalidQueryException msg, q4) ∧
        a._target.name.data <:+: msg.data ∧
        (msg = "The target" ++ a._target.name ++
            " of an AS clause was already used in the query body." ∨
          msg = "The target" ++ a._target.name ++
            " of an AS clause was already used before in the SELECT clause.") := by
  have hg := groupByStage_clause cap pre q q2 modifiers h2
  rw [hsel] at hg
  obtain ⟨c2, hc2, hvaa, hvis⟩ := hg.select
  have hc4 : q4._clause = .select c2 := (orderByStage_frame cap pre _ _ q2 q4 modifiers h4).1.trans hc2
  have hvis4 : q4.getVisibleVariables = c2.visibleVariables_ := by
    simp only [ParsedQueryOver.getVisibleVariables, hc4]
  have hvis0 : q.getVisibleVariables = c0.visibleVariables_ := by
    simp only [ParsedQueryOver.getVisibleVariables, hsel]
  have hal : c2.getAliases = c0.getAliases := by
    simp only [SelectClause.getAliases, hvaa]
  have hsv : ∀ a ∈ c0.getAliases, c2.getSelectedVariables = c0.getSelectedVariables := by
    intro a ha
    cases hv : c0.varsAndAliasesOrAsterisk_ with
    | Asterisk => simp [SelectClause.getAliases, hv] at ha
    | VarsAndAliases vars aliases => simp only [SelectClause.getSelectedVariables, hvaa, hv]
  have hbad2 : ∃ a ∈ c2.getAliases, a._target ∈ c2.visibleVariables_ ∨
      1 < c2.getSelectedVariables.count a._target := by
    obtain ⟨a, ha, h⟩ := hbad
    refine ⟨a, hal ▸ ha, ?_⟩
    rw [hsv a ha]
    rcases h with h | h | h
    · exact Or.inl (hvis _ (hvis0 ▸ h))
    · exact Or.inl (hvis4 ▸ h)
    · exact Or.inr h
  obtain ⟨a, ha, hres⟩ := checkAliasTargetsLoop_error c2 c2.getAliases hbad2
  have ha0 : a ∈ c0.getAliases := hal ▸ ha
  refine ⟨a, ha0, ?_, ?_⟩
  · rw [hvis4, ← hsv a ha0]
    rcases hres with h | h
    · exact Or.inl h.1
    · exact Or.inr h.1
  · rcases hres with h | h
    · refine ⟨_, ?_, isInfix_message _ _ _, Or.inl rfl⟩
      simp only [addSolutionModifiers, h2, h4, clauseStage, hc4, selectStage,
        checkAliasTargetsHaveNoOverlap, h.2]
    · refine ⟨_, ?_, isInfix_message _ _ _, Or.inr rfl⟩
      simp only [addSolutionModifiers, h2, h4, clauseStage, hc4, selectStage,
        checkAliasTargetsHaveNoOverlap, h.2]

/-- C7, scenario D: `SELECT (?x AS ?x)` with `?x` visible is rejected with an
`InvalidQueryException` whose message contains `?x`. -/
theorem alias_target_overlap_rejected_witness :
    ∃ msg st, addSolutionModifiers sampleCapability samplePrefix selectXAsX noModifiers =
        .error (.InvalidQueryException msg, st) ∧ "?x".data <:+: msg.data :=
  Exists.elim
    (alias_target_overlap_rejected sampleCapability samplePrefix selectXAsX _ _ noModifiers _
      rfl rfl rfl ⟨{ _expression := exprX, _target := varX }, by simp [SelectClause.getAliases],
        Or.inl (by decide)⟩)
    (fun a h => Exists.elim h.2.2 (fun msg hm => ⟨msg, _, hm.1, by
      have ha : a = { _expression := exprX, _target := varX } := by
        simpa [SelectClause.getAliases] using h.1
      rw [ha] at hm
      exact hm.2.1⟩))

/-- C8: on a SELECT query without grouping (no GROUP BY entry, an empty group-by list
and no alias expression with an aggregate) on which `addSolutionModifiers` succeeds, the
selected variables are the same before and after, no alias is left in the clause, and
the root children are those left by the ORDER BY stage followed by exactly one Bind node
per original alias, in the order of the aliases, with the expression and target of the
alias; so as many Bind nodes are appended as aliases are removed. -/
theorem select_without_grouping_compiles_aliases (cap : SparqlExpressionCapability E)
    (pre : String) (q qf : ParsedQuery E) (modifiers : SolutionModifiers E)
    (c0 : SelectClause E)
    (hsel : q._clause = .select c0)
    (hgb : modifiers.groupByVariables_ = [])
    (h0 : q._groupByVariables = [])
    (hagg : ∀ a ∈ c0.getAliases, cap.containsAggregate a._expression = false)
    (hok : addSolutionModifiers cap pre q modifiers = .ok qf) :
    ∃ cf q4, qf._clause = .select cf ∧
      cf.getSelectedVariables = c0.getSelectedVariables ∧
      cf.getAliases = [] ∧
      qf.getAliases = [] ∧
      orderByStage cap pre false "" { q with _havingClauses := modifiers.havingClauses_ }
        modifiers = .ok q4 ∧
      q4.getAliases = c0.getAliases ∧
      rootChildren qf = rootChildren q4 ++ c0.getAliases.map aliasBind ∧
      (rootChildren qf).length = (rootChildren q4).length + c0.getAliases.length := by
  have hq2 : groupByStage cap pre q modifiers =
      .ok { q with _havingClauses := modifiers.havingClauses_ } := by
    simp only [groupByStage, hgb, processGroupKeys]
  have himp : isImplicitGroupBy cap { q with _havingClauses := modifiers.havingClauses_ } =
      false := by
    simp only [isImplicitGroupBy, ParsedQueryOver.getAliases, hsel, Bool.and_eq_false_iff]
    exact Or.inl (List.any_eq_false.2 (fun a ha => by simp [hagg a ha]))
  have hgr : isGroupBy cap { q with _havingClauses := modifiers.havingClauses_ } = false := by
    unfold isGroupBy
    rw [himp]
    simp only [isExplicitGroupBy, h0, List.isEmpty_nil, Bool.not_true, Bool.or_self]
  have hnote : noteForImplicitGroupBy cap
      { q with _havingClauses := modifiers.havingClauses_ } = "" := by
    simp only [noteForImplicitGroupBy, himp, Bool.false_eq_true, if_false]
  simp only [addSolutionModifiers, hq2, hgr, hnote] at hok
  cases h4 : orderByStage cap pre false ""
      { q with _havingClauses := modifiers.havingClauses_ } modifiers with
  | error e => simp [h4] at hok
  | ok q4 =>
    have hc4 : q4._clause = .select c0 :=
      (orderByStage_frame cap pre _ _ _ q4 modifiers h4).1.trans hsel
    simp only [h4, clauseStage, hc4, selectStage] at hok
    split at hok
    · cases hok
    · split at hok
      · cases hok
      · simp only [Bool.false_eq_true, if_false, Except.ok.injEq] at hok
        have hroot : rootChildren qf = rootChildren q4 ++ c0.getAliases.map aliasBind := by
          rw [← hok, rootChildren_deleteAliasesButKeepVariables, rootChildren_addAliasBinds]
        have hgrow := clause_addAliasBinds c0.getAliases q4
        rw [hc4] at hgrow
        obtain ⟨d, hd, hvaa, -⟩ := hgrow.select
        have hq4al : q4.getAliases = c0.getAliases := by
          simp only [ParsedQueryOver.getAliases, hc4]
        have hcf : qf._clause = .select d.deleteAliasesButKeepVariables := by
          rw [← hok]
          simp only [deleteAliasesButKeepVariables, hd]
        refine ⟨d.deleteAliasesButKeepVariables, q4, hcf, ?_, ?_, ?_, rfl, hq4al, hroot, ?_⟩
        · cases hv : c0.varsAndAliasesOrAsterisk_ with
          | Asterisk =>
            have hnil : c0.getAliases = [] := by simp only [SelectClause.getAliases, hv]
            rw [hnil] at hd
            simp only [addAliasBinds, hc4, Clause.select.injEq] at hd
            subst hd
            simp only [SelectClause.deleteAliasesButKeepVariables, hv]
          | VarsAndAliases vars aliases =>
            rw [hv] at hvaa
            simp only [SelectClause.deleteAliasesButKeepVariables, hvaa,
              SelectClause.getSelectedVariables, hv]
        · cases hv : d.varsAndAliasesOrAsterisk_ <;>
            simp only [SelectClause.deleteAliasesButKeepVariables, hv, SelectClause.getAliases]
        · simp only [ParsedQueryOver.getAliases, hcf]
          cases hv : d.varsAndAliasesOrAsterisk_ <;>
            simp only [SelectClause.deleteAliasesButKeepVariables, hv, SelectClause.getAliases]
        · rw [hroot, List.length_append, List.length_map]

/-- C8 on `SELECT ?x (?x AS ?y)` with `?x` visible and no modifiers: the call succeeds,
the selected variables stay `[?x, ?y]`, no alias is left, and the Bind node of the alias
is the new last child of the root. -/
theorem select_without_grouping_compiles_aliases_witness :
    addSolutionModifiers sampleCapability samplePrefix selectXAsY noModifiers =
        .ok selectXAsYResolved ∧
      selectXAsYResolved.getConstructedOrSelectedVariables =
        selectXAsY.getConstructedOrSelectedVariables ∧
      selectXAsYResolved.getAliases = [] ∧
      rootChildren selectXAsYResolved = rootChildren selectXAsY ++ [.Bind exprX varY] :=
  ⟨rfl, rfl,
    Exists.elim
      (select_without_grouping_compiles_aliases sampleCapability samplePrefix selectXAsY
        selectXAsYResolved noModifiers _ rfl rfl rfl (by decide) rfl)
      (fun _ h => Exists.elim h (fun _ h4 => h4.2.2.2.1)),
    rfl⟩

end ModifierClaims

/-! ## Lemmas on the language filter -/

section LanguageFilterLemmas

variable {E : Type}

/-- For a quoted string of at least two characters `substr(1, size() - 2)` does not throw
and returns the string without its first and last character. -/
theorem substr_langTag (q : String) (hlen : 2 ≤ q.length) (hmax : q.length < 2 ^ 64) :
    substr q 1 ((q.length + 2 ^ 64 - 2) % 2 ^ 64) = some (langTagOf q) := by
  have hmod : (q.length + 2 ^ 64 - 2) % 2 ^ 64 = q.length - 2 := by
    have h1 : q.length + 2 ^ 64 - 2 = (q.length - 2) + 2 ^ 64 := by omega
    rw [h1, Nat.add_mod_right, Nat.mod_eq_of_lt (by omega)]
  have hnot : ¬ 1 > q.length := by omega
  have hl : q.data.length = q.length := rfl
  unfold substr
  rw [if_neg hnot, hmod]
  simp only [langTagOf, List.drop_one, List.dropLast_eq_take, List.length_tail, hl,
    Nat.sub_sub]

/-- The Boolean test of the code decides `IsLanguageFilterTarget`. -/
theorem isMatchingTriple_iff (var : Variable) (t : SparqlTriple) :
    isMatchingTriple var t = true ↔ IsLanguageFilterTarget var t := by
  cases ho : t._o <;>
    simp [isMatchingTriple, IsLanguageFilterTarget, TripleComponent.eqVariable, ho]

/-- A collected triple is a target that sits in a directly owned BasicGraphPattern. -/
theorem mem_matchingTriples (var : Variable) (t : SparqlTriple) :
    ∀ (ops : List (GraphPatternOperation E)),
      t ∈ matchingTriples var ops ↔
        ∃ ts, GraphPatternOperation.BasicGraphPattern ts ∈ ops ∧ t ∈ ts ∧
          IsLanguageFilterTarget var t
  | [] => by simp [matchingTriples]
  | op :: rest => by
    have ih := mem_matchingTriples var t rest
    cases op with
    | BasicGraphPattern ts0 =>
      simp only [matchingTriples, List.mem_append, List.mem_filter, isMatchingTriple_iff, ih,
        List.mem_cons]
      constructor
      · rintro (h | ⟨ts, h1, h2⟩)
        · exact ⟨ts0, Or.inl rfl, h⟩
        · exact ⟨ts, Or.inr h1, h2⟩
      · rintro ⟨ts, h1 | h1, h2⟩
        · cases h1
          exact Or.inl h2
        · exact Or.inr ⟨ts, h1, h2⟩
    | _ =>
      simp only [matchingTriples, ih, List.mem_cons]
      constructor
      · rintro ⟨ts, h1, h2⟩
        exact ⟨ts, Or.inr h1, h2⟩
      · rintro ⟨ts, h1 | h1, h2⟩
        · cases h1
        · exact ⟨ts, h1, h2⟩

/-- The replacement of one triple is as `RewrittenTriple` says. -/
theorem rewrittenTriple_replace (tag : String) (var : Variable) (t : SparqlTriple) :
    RewrittenTriple tag var t
      (if isMatchingTriple var t then replaceTriple tag t else t) := by
  by_cases h : IsLanguageFilterTarget var t
  · rw [if_pos ((isMatchingTriple_iff var t).2 h)]
    exact ⟨fun _ => ⟨rfl, rfl, rfl, rfl⟩, fun hn => absurd h hn⟩
  · have hf : ¬ isMatchingTriple var t = true := fun hm => h ((isMatchingTriple_iff var t).1 hm)
    rw [if_neg hf]
    exact ⟨fun ht => absurd ht h, fun _ => rfl⟩

/-- The replacement loop, seen on one child, is as `RewrittenChild` says. -/
theorem rewrittenChild_replace (tag : String) (var : Variable)
    (op : GraphPatternOperation E) :
    RewrittenChild tag var op (replaceMatchingTriples tag var op) := by
  cases op with
  | BasicGraphPattern ts =>
    refine ⟨_, rfl, ?_⟩
    rw [List.forall₂_map_right_iff, List.forall₂_same]
    exact fun t _ => rewrittenTriple_replace tag var t
  | _ => rfl

/-- The replacement loop, seen on the child sequence. -/
theorem rewrittenChildren_replace (tag : String) (var : Variable) :
    ∀ (ops : List (GraphPatternOperation E)),
      List.Forall₂ (RewrittenChild tag var) ops (ops.map (replaceMatchingTriples tag var))
  | [] => List.Forall₂.nil
  | op :: rest =>
    List.Forall₂.cons (rewrittenChild_replace tag var op) (rewrittenChildren_replace tag var rest)

/-- Without a target the replacement loop changes nothing. -/
theorem map_replaceMatchingTriples_of_no_target (tag : String) (var : Variable) :
    ∀ (ops : List (GraphPatternOperation E)),
      (∀ ts, GraphPatternOperation.BasicGraphPattern ts ∈ ops →
        ∀ t ∈ ts, ¬ IsLanguageFilterTarget var t) →
      ops.map (replaceMatchingTriples tag var) = ops
  | [], _ => rfl
  | op :: rest, h => by
    have ih := map_replaceMatchingTriples_of_no_target tag var rest
      (fun ts hts => h ts (List.mem_cons_of_mem _ hts))
    rw [List.map_cons, ih]
    cases op with
    | BasicGraphPattern ts =>
      have hts : ts.map (fun t => if isMatchingTriple var t then replaceTriple tag t else t) =
          ts := by
        conv_rhs => rw [← List.map_id ts]
        refine List.map_congr_left (fun t ht => ?_)
        have hf : ¬ isMatchingTriple var t = true :=
          fun hm => h ts (List.mem_cons_self _ _) t ht ((isMatchingTriple_iff var t).1 hm)
        rw [if_neg hf]
        rfl
      simp only [replaceMatchingTriples, hts]
    | _ => rfl

end LanguageFilterLemmas

/-! ## Claims on the language filter -/

section LanguageFilterClaims

variable {E : Type}

/-- C9: for a quoted language string of at least two characters with tag `t`, if some
triple of a directly owned BasicGraphPattern has the variable as object and a bare IRI as
predicate, then `addLanguageFilter` returns a pattern in which every such triple has the
predicate IRI `"@" + t + "@" + old IRI`, every other triple and every other child is
unchanged and in place, and no triple and no child is added. -/
theorem addLanguageFilter_rewrites_targets (LANGUAGE_PREDICATE : String)
    (convertLangtagToEntityUri : String → String) (g : GraphPattern E) (var : Variable)
    (languageInQuotes : String)
    (hlen : 2 ≤ languageInQuotes.length) (hmax : languageInQuotes.length < 2 ^ 64)
    (htarget : ∃ ts, GraphPatternOperation.BasicGraphPattern ts ∈ g._graphPatterns ∧
      ∃ t ∈ ts, IsLanguageFilterTarget var t) :
    ∃ g1, g.addLanguageFilter LANGUAGE_PREDICATE convertLangtagToEntityUri var
          languageInQuotes = some g1 ∧
      List.Forall₂ (RewrittenChild (langTagOf languageInQuotes) var)
        g._graphPatterns g1._graphPatterns ∧
      g1._graphPatterns.length = g._graphPatterns.length ∧
      g1._filters = g._filters ∧ g1._id = g._id ∧ g1._optional = g._optional := by
  obtain ⟨ts, hts, t, ht, htt⟩ := htarget
  have hmem : t ∈ matchingTriples var g._graphPatterns :=
    (mem_matchingTriples var t _).2 ⟨ts, hts, ht, htt⟩
  have hne : (matchingTriples var g._graphPatterns).isEmpty = false := by
    cases hm : matchingTriples var g._graphPatterns with
    | nil => simp [hm] at hmem
    | cons _ _ => rfl
  refine ⟨.mk g._optional g._id g._filters
    (g._graphPatterns.map (replaceMatchingTriples (langTagOf languageInQuotes) var)),
    ?_, rewrittenChildren_replace _ var _, ?_, rfl, rfl, rfl⟩
  · simp only [GraphPattern.addLanguageFilter, substr_langTag languageInQuotes hlen hmax, hne,
      Bool.false_eq_true, if_false]
  · simp only [GraphPattern._graphPatterns, List.length_map]

/-- C9, scenario E: on `?s rdfs:label ?label` the filter for `?label` with the quoted
string `"en"` rewrites the predicate to `@en@rdfs:label` and adds nothing. -/
theorem addLanguageFilter_rewrites_targets_witness :
    labelPattern.addLanguageFilter sampleLanguagePredicate sampleConvertLangtagToEntityUri
        varLabel "\"en\"" =
      some (.mk false 0 []
        [.BasicGraphPattern
          [{ labelTriple with _p := { _operation := .IRI, _iri := "@en@rdfs:label" } }]]) ∧
      ∃ g1, labelPattern.addLanguageFilter sampleLanguagePredicate
          sampleConvertLangtagToEntityUri varLabel "\"en\"" = some g1 ∧
        g1._graphPatterns.length = 1 :=
  ⟨rfl,
    Exists.imp (fun _ h => ⟨h.1, h.2.2.1⟩)
      (addLanguageFilter_rewrites_targets sampleLanguagePredicate
        sampleConvertLangtagToEntityUri labelPattern varLabel "\"en\"" (by decide) (by decide)
        ⟨[labelTriple], List.Mem.head _, labelTriple, List.Mem.head _, rfl, rfl, rfl⟩)⟩

/-- C10: for a quoted language string of at least two characters with tag `t`, if no
triple of a directly owned BasicGraphPattern has the variable as object and a bare IRI as
predicate, then `addLanguageFilter` returns a pattern with the same filters and identity
whose children are: the old ones with the synthetic triple appended to the triples of
the last child, when that is a BasicGraphPattern (same number of children); and otherwise
(no child, or the last one is no BasicGraphPattern) the old ones followed by a new
BasicGraphPattern that holds just the synthetic triple (one child more). -/
theorem addLanguageFilter_appends_triple (LANGUAGE_PREDICATE : String)
    (convertLangtagToEntityUri : String → String) (g : GraphPattern E) (var : Variable)
    (languageInQuotes : String)
    (hlen : 2 ≤ languageInQuotes.length) (hmax : languageInQuotes.length < 2 ^ 64)
    (hnone : ∀ ts, GraphPatternOperation.BasicGraphPattern ts ∈ g._graphPatterns →
      ∀ t ∈ ts, ¬ IsLanguageFilterTarget var t) :
    ∃ g1, g.addLanguageFilter LANGUAGE_PREDICATE convertLangtagToEntityUri var
          languageInQuotes = some g1 ∧
      g1._filters = g._filters ∧ g1._id = g._id ∧ g1._optional = g._optional ∧
      ((∃ init ts, g._graphPatterns = init ++ [.BasicGraphPattern ts] ∧
          g1._graphPatterns = init ++ [.BasicGraphPattern (ts ++
            [languageTriple LANGUAGE_PREDICATE convertLangtagToEntityUri var
              (langTagOf languageInQuotes)])] ∧
          g1._graphPatterns.length = g._graphPatterns.length) ∨
        ((g._graphPatterns = [] ∨
            ∃ init op, g._graphPatterns = init ++ [op] ∧ op.holdsBasicGraphPattern = false) ∧
          g1._graphPatterns = g._graphPatterns ++ [.BasicGraphPattern
            [languageTriple LANGUAGE_PREDICATE convertLangtagToEntityUri var
              (langTagOf languageInQuotes)]] ∧
          g1._graphPatterns.length = g._graphPatterns.length + 1)) := by
  cases g with
  | mk o i f ops =>
    simp only [GraphPattern._graphPatterns] at hnone
    have hemp : matchingTriples var ops = [] := by
      rw [List.eq_nil_iff_forall_not_mem]
      intro t ht
      obtain ⟨ts, hts, htm, htt⟩ := (mem_matchingTriples var t ops).1 ht
      exact hnone ts hts t htm htt
    have hrep := map_replaceMatchingTriples_of_no_target (langTagOf languageInQuotes) var ops
      hnone
    simp only [GraphPattern.addLanguageFilter, substr_langTag languageInQuotes hlen hmax,
      GraphPattern._graphPatterns, hemp, List.isEmpty_nil, if_true, hrep,
      GraphPattern._filters, GraphPattern._id, GraphPattern._optional]
    rcases List.eq_nil_or_concat ops with hnil | ⟨init, last, hcat⟩
    · subst hnil
      refine ⟨_, rfl, rfl, rfl, rfl, Or.inr ⟨Or.inl rfl, rfl, rfl⟩⟩
    · rw [List.concat_eq_append] at hcat
      subst hcat
      by_cases hb : last.holdsBasicGraphPattern = true
      · cases last with
        | BasicGraphPattern ts =>
          refine ⟨.mk o i f (init ++ [.BasicGraphPattern (ts ++
            [languageTriple LANGUAGE_PREDICATE convertLangtagToEntityUri var
              (langTagOf languageInQuotes)])]), ?_, rfl, rfl, rfl,
            Or.inl ⟨init, ts, rfl, rfl, by simp⟩⟩
          simp only [needsNewBasicGraphPattern, List.getLast?_concat,
            GraphPatternOperation.holdsBasicGraphPattern, Bool.not_true, Bool.false_eq_true,
            if_false, pushTripleToBack, List.dropLast_concat, languageTriple,
            PropertyPath.fromIri]
        | _ => simp [GraphPatternOperation.holdsBasicGraphPattern] at hb
      · have hb2 : last.holdsBasicGraphPattern = false := by
          simpa using hb
        refine ⟨.mk o i f ((init ++ [last]) ++ [.BasicGraphPattern
            [languageTriple LANGUAGE_PREDICATE convertLangtagToEntityUri var
              (langTagOf languageInQuotes)]]), ?_, rfl, rfl, rfl,
            Or.inr ⟨Or.inr ⟨init, last, rfl, hb2⟩, rfl, by simp⟩⟩
        simp only [needsNewBasicGraphPattern, List.getLast?_concat, hb2, Bool.not_false,
          if_true, pushTripleToBack, List.dropLast_concat, languageTriple,
          PropertyPath.fromIri, List.nil_append]

/-- C10 on `?s ?p ?label` (the predicate is a variable, so no triple is a target): the
filter for `?label` with `"en"` appends the synthetic triple to the BasicGraphPattern. -/
theorem addLanguageFilter_appends_triple_witness :
    variablePredicatePattern.addLanguageFilter sampleLanguagePredicate
        sampleConvertLangtagToEntityUri varLabel "\"en\"" =
      some (.mk false 0 []
        [.BasicGraphPattern [variablePredicateTriple,
          { _s := .ofVariable varLabel,
            _p := { _operation := .IRI, _iri := sampleLanguagePredicate },
            _o := .ofTerm "<http://qlever.cs.uni-freiburg.de/builtin-functions/langtag/en>" }]]) ∧
      ∃ g1, variablePredicatePattern.addLanguageFilter sampleLanguagePredicate
          sampleConvertLangtagToEntityUri varLabel "\"en\"" = some g1 ∧
        g1._filters = variablePredicatePattern._filters :=
  ⟨rfl,
    Exists.imp (fun _ h => ⟨h.1, h.2.1⟩)
      (addLanguageFilter_appends_triple sampleLanguagePredicate
        sampleConvertLangtagToEntityUri variablePredicatePattern varLabel "\"en\""
        (by decide) (by decide)
        (by
          intro ts hts t ht
          simp only [variablePredicatePattern, GraphPattern._graphPatterns,
            List.mem_singleton, GraphPatternOperation.BasicGraphPattern.injEq] at hts
          subst hts
          simp only [List.mem_singleton] at ht
          subst ht
          intro h
          exact absurd h.2.2 (by decide)))⟩

end LanguageFilterClaims

/-! ## Lemmas on the solution modifiers, continued -/

section ModifierLemmas2

variable {E : Type}

/-- `ad_utility::contains_if` decides whether some element satisfies the predicate. -/
theorem ad_utility.contains_if_iff {α : Type} (l : List α) (p : α → Bool) :
    ad_utility.contains_if l p = true ↔ ∃ x ∈ l, p x = true := by
  simp [ad_utility.contains_if, List.find?_isSome]

/-- The rejection condition of `processVariableOrderKey` under grouping, in words. -/
theorem orderKey_rejection_iff (q : ParsedQuery E) (v : Variable) :
    ((!ad_utility.contains q._groupByVariables v) &&
        (match q._clause with
          | .construct _ => true
          | .select c => !ad_utility.contains_if c.getAliases
              (fun a => decide (a._target = v)))) = true ↔
      (v ∉ q._groupByVariables ∧
        (q.hasConstructClause = true ∨ ∀ a ∈ q.getAliases, a._target ≠ v)) := by
  obtain ⟨root, hav, n, ni, ob, iis, lo, gb, cl⟩ := q
  cases cl with
  | select c =>
    simp only [Bool.and_eq_true, Bool.not_eq_true', ad_utility.contains_eq_false_iff,
      ParsedQueryOver.hasConstructClause, ParsedQueryOver.getAliases, Bool.false_eq_true,
      false_or]
    constructor
    · rintro ⟨h1, h2⟩
      refine ⟨h1, fun a ha hv => ?_⟩
      have : ad_utility.contains_if c.getAliases (fun a => decide (a._target = v)) = true :=
        (ad_utility.contains_if_iff _ _).2 ⟨a, ha, by simp [hv]⟩
      rw [h2] at this
      cases this
    · rintro ⟨h1, h2⟩
      refine ⟨h1, ?_⟩
      rw [← Bool.not_eq_true]
      intro hc
      obtain ⟨a, ha, hp⟩ := (ad_utility.contains_if_iff _ _).1 hc
      exact h2 a ha (by simpa using hp)
  | construct c =>
    simp [ParsedQueryOver.hasConstructClause, ad_utility.contains_eq_false_iff]

/-- After registering a variable the visible variables are the old ones and that one. -/
theorem mem_getVisibleVariables_register (q : ParsedQuery E) (var v : Variable) :
    v ∈ (q.registerVariableVisibleInQueryBody var).getVisibleVariables ↔
      v ∈ q.getVisibleVariables ∨ v = var := by
  obtain ⟨root, hav, n, ni, ob, iis, lo, gb, cl⟩ := q
  cases cl <;>
    simp only [ParsedQueryOver.registerVariableVisibleInQueryBody,
      ParsedQueryOver.getVisibleVariables, mem_addVisibleVariable]

/-- The resolved list has one entry per GROUP BY entry. -/
theorem length_resolvedGroupKeys (pre : String) :
    ∀ (keys : List (GroupKey E)) (n : Nat), (resolvedGroupKeys pre n keys).length = keys.length
  | [], _ => rfl
  | .ofVariable _ :: rest, n => by
    simp only [resolvedGroupKeys, List.length_cons, length_resolvedGroupKeys pre rest n]
  | .ofExpression _ :: rest, n => by
    simp only [resolvedGroupKeys, List.length_cons, length_resolvedGroupKeys pre rest (n + 1)]
  | .ofAlias _ :: rest, n => by
    simp only [resolvedGroupKeys, List.length_cons, length_resolvedGroupKeys pre rest n]

/-- A bare variable that passes appends itself to the group-by list. -/
theorem processVariable_ok (q qm : ParsedQuery E) (v : Variable)
    (h : processVariable q v = .ok qm) :
    qm = { q with _groupByVariables := q._groupByVariables ++ [v] } := by
  simp only [processVariable] at h
  split at h
  · cases h
  · cases h
    rfl

/-- A bare expression that passes is bound to a new internal variable, which is
appended to the group-by list. -/
theorem processExpression_ok (cap : SparqlExpressionCapability E) (pre : String)
    (q qm : ParsedQuery E) (e : E) (h : processExpression cap pre q e = .ok qm) :
    qm = { (addInternalBind pre q e).2 with
      _groupByVariables := q._groupByVariables ++ [⟨pre ++ toString q.numInternalVariables_⟩] } := by
  simp only [processExpression] at h
  split at h
  · cases h
  · cases h
    rfl

/-- An alias entry never throws: it appends its Bind node to the root, registers its
target as visible and appends the target to the group-by list. -/
theorem processAlias_ok (q : ParsedQuery E) (a : Alias E) :
    ∃ qm, processAlias q a = .ok qm ∧
      qm._groupByVariables = q._groupByVariables ++ [a._target] ∧
      rootChildren qm = rootChildren q ++ [.Bind a._expression a._target] ∧
      qm.numInternalVariables_ = q.numInternalVariables_ ∧
      ∀ v, v ∈ qm.getVisibleVariables ↔ v ∈ q.getVisibleVariables ∨ v = a._target := by
  have hf := registerVariableVisibleInQueryBody_frame
    (emplaceBackRoot q (.Bind a._expression a._target)) a._target
  have hm := mem_getVisibleVariables_register
    (emplaceBackRoot q (.Bind a._expression a._target)) a._target
  refine ⟨_, rfl, ?_, ?_, ?_, ?_⟩
  · show ((emplaceBackRoot q (.Bind a._expression
        a._target)).registerVariableVisibleInQueryBody a._target)._groupByVariables ++
      [a._target] = _
    rw [hf.2.2.2.1]
    rfl
  · show (((emplaceBackRoot q (.Bind a._expression
        a._target)).registerVariableVisibleInQueryBody
          a._target)._rootGraphPattern)._graphPatterns = _
    rw [hf.2.2.1]
    rfl
  · show ((emplaceBackRoot q (.Bind a._expression
        a._target)).registerVariableVisibleInQueryBody a._target).numInternalVariables_ = _
    rw [hf.2.2.2.2.2]
    rfl
  · intro v
    exact hm v

/-- What the GROUP BY loop does when it does not throw: the group-by list, the root
children, the internal-variable counter and the visible variables afterwards. -/
theorem processGroupKeys_resolution (cap : SparqlExpressionCapability E) (pre : String) :
    ∀ (keys : List (GroupKey E)) (q q1 : ParsedQuery E),
      processGroupKeys cap pre keys q = .ok q1 →
        q1._groupByVariables =
            q._groupByVariables ++ resolvedGroupKeys pre q.numInternalVariables_ keys ∧
          rootChildren q1 = rootChildren q ++ groupKeyBinds pre q.numInternalVariables_ keys ∧
          q1.numInternalVariables_ = q.numInternalVariables_ + countExpressionKeys keys ∧
          ∀ v, v ∈ q1.getVisibleVariables ↔
            v ∈ q.getVisibleVariables ∨ v ∈ groupKeyAliasTargets keys
  | [], q, q1, h => by
    simp only [processGroupKeys, Except.ok.injEq] at h
    subst h
    simp [resolvedGroupKeys, groupKeyBinds, countExpressionKeys, groupKeyAliasTargets]
  | .ofVariable v :: rest, q, q1, h => by
    simp only [processGroupKeys] at h
    split at h
    · cases h
    · next qm hk =>
      have hq := processVariable_ok q qm v hk
      obtain ⟨h1, h2, h3, h4⟩ := processGroupKeys_resolution cap pre rest qm q1 h
      subst hq
      refine ⟨?_, h2, h3, h4⟩
      rw [h1]
      simp only [resolvedGroupKeys, List.append_assoc, List.singleton_append]
  | .ofExpression e :: rest, q, q1, h => by
    simp only [processGroupKeys] at h
    split at h
    · cases h
    · next qm hk =>
      have hq := processExpression_ok cap pre q qm e hk
      obtain ⟨h1, h2, h3, h4⟩ := processGroupKeys_resolution cap pre rest qm q1 h
      subst hq
      refine ⟨?_, ?_, ?_, h4⟩
      · rw [h1]
        simp only [resolvedGroupKeys, List.append_assoc, List.singleton_append]
        rfl
      · rw [h2]
        simp only [groupKeyBinds]
        have hr : rootChildren { (addInternalBind pre q e).2 with
            _groupByVariables :=
              q._groupByVariables ++ [⟨pre ++ toString q.numInternalVariables_⟩] } =
            rootChildren q ++ [.Bind e ⟨pre ++ toString q.numInternalVariables_⟩] := rfl
        rw [hr, List.append_assoc, List.singleton_append]
        rfl
      · rw [h3]
        simp only [countExpressionKeys]
        have hn : ({ (addInternalBind pre q e).2 with
            _groupByVariables :=
              q._groupByVariables ++ [⟨pre ++ toString q.numInternalVariables_⟩] } :
            ParsedQuery E).numInternalVariables_ = q.numInternalVariables_ + 1 := rfl
        rw [hn]
        omega
  | .ofAlias a :: rest, q, q1, h => by
    obtain ⟨qm, hk, g1, g2, g3, g4⟩ := processAlias_ok q a
    simp only [processGroupKeys, processGroupKey, hk] at h
    obtain ⟨h1, h2, h3, h4⟩ := processGroupKeys_resolution cap pre rest qm q1 h
    refine ⟨?_, ?_, ?_, ?_⟩
    · rw [h1, g1, g3]
      simp only [resolvedGroupKeys, List.append_assoc, List.singleton_append]
    · rw [h2, g2, g3]
      simp only [groupKeyBinds, List.append_assoc, List.singleton_append]
    · rw [h3, g3]
      simp only [countExpressionKeys]
    · intro v
      rw [h4 v, g4 v]
      simp only [groupKeyAliasTargets, List.mem_cons]
      tauto

/-- Growing keeps a CONSTRUCT clause a CONSTRUCT clause with the same template. -/
theorem ClauseGrows.construct {c : ConstructClause} {b : Clause E}
    (h : ClauseGrows (.construct c) b) :
    ∃ d, b = .construct d ∧ d.triples_ = c.triples_ ∧
      ∀ v ∈ c.visibleVariables_, v ∈ d.visibleVariables_ := by
  cases b with
  | select d => simp [ClauseGrows] at h
  | construct d => exact ⟨d, rfl, h.1, h.2⟩

/-- The loop over the template variables passes exactly when all of them are grouped,
and throws an `InvalidQueryException` otherwise. -/
theorem checkConstructVariablesLoop_cases (note : String) (groupBy : List Variable) :
    ∀ (vars : List Variable),
      (checkConstructVariablesLoop note groupBy vars = .ok () ∧ ∀ v ∈ vars, v ∈ groupBy) ∨
        ((∃ msg, checkConstructVariablesLoop note groupBy vars =
            .error (.InvalidQueryException msg)) ∧ ∃ v ∈ vars, v ∉ groupBy)
  | [] => Or.inl ⟨rfl, fun _ h => absurd h (List.not_mem_nil _)⟩
  | v :: rest => by
    by_cases hv : v ∈ groupBy
    · have hc := (ad_utility.contains_iff groupBy v).2 hv
      rcases checkConstructVariablesLoop_cases note groupBy rest with ⟨h1, h2⟩ | ⟨⟨msg, h1⟩, h2⟩
      · refine Or.inl ⟨?_, ?_⟩
        · simp only [checkConstructVariablesLoop, hc, Bool.not_true, Bool.false_eq_true,
            if_false, h1]
        · intro w hw
          rcases List.mem_cons.1 hw with rfl | hw
          · exact hv
          · exact h2 w hw
      · refine Or.inr ⟨⟨msg, ?_⟩, ?_⟩
        · simp only [checkConstructVariablesLoop, hc, Bool.not_true, Bool.false_eq_true,
            if_false, h1]
        · obtain ⟨w, hw, hn⟩ := h2
          exact ⟨w, List.mem_cons_of_mem _ hw, hn⟩
    · have hc := (ad_utility.contains_eq_false_iff groupBy v).2 hv
      refine Or.inr ⟨⟨"Variable " ++ v.name ++ " is used but not aggregated." ++ note, ?_⟩,
        v, List.mem_cons_self _ _, hv⟩
      simp only [checkConstructVariablesLoop, hc, Bool.not_false, if_true]

/-- `find?` on the targets finds nothing exactly when no alias has that target. -/
theorem find_alias_eq_none (aliases : List (Alias E)) (var : Variable) :
    aliases.find? (fun a => decide (a._target = var)) = none ↔
      ∀ a ∈ aliases, a._target ≠ var := by
  simp [List.find?_eq_none]

/-- An alias found by its target is in the list and has that target. -/
theorem find_alias_eq_some (aliases : List (Alias E)) (var : Variable) (a : Alias E)
    (h : aliases.find? (fun a => decide (a._target = var)) = some a) :
    a ∈ aliases ∧ a._target = var := by
  refine ⟨List.mem_of_find?_eq_some h, ?_⟩
  have := List.find?_some h
  simpa using this

/-- With pairwise distinct targets, the alias found by a target is the alias with that
target. -/
theorem find_alias_of_nodup :
    ∀ (aliases : List (Alias E)) (a : Alias E), a ∈ aliases →
      (aliases.map (fun b => b._target)).Nodup →
      aliases.find? (fun b => decide (b._target = a._target)) = some a
  | [], a, h, _ => absurd h (List.not_mem_nil _)
  | b :: rest, a, h, hnd => by
    rw [List.map_cons, List.nodup_cons] at hnd
    rcases List.mem_cons.1 h with rfl | h
    · simp [List.find?_cons]
    · have hne : b._target ≠ a._target := by
        intro he
        exact hnd.1 (he ▸ List.mem_map_of_mem _ h)
      simp only [List.find?_cons, hne, decide_False]
      exact find_alias_of_nodup rest a h hnd.2

/-- The alias-target check passes when no target is visible and no target occurs more
than once among the selected variables. -/
theorem checkAliasTargetsLoop_ok (c : SelectClause E) :
    ∀ (aliases : List (Alias E)),
      (∀ a ∈ aliases, a._target ∉ c.visibleVariables_ ∧
        c.getSelectedVariables.count a._target ≤ 1) →
      checkAliasTargetsLoop c aliases = .ok ()
  | [], _ => rfl
  | a :: rest, h => by
    have ha := h a (List.mem_cons_self _ _)
    have hcf := (ad_utility.contains_eq_false_iff _ _).2 ha.1
    have hcount : ¬ 1 < c.getSelectedVariables.count a._target := by omega
    simp only [checkAliasTargetsLoop, hcf, Bool.false_eq_true, if_false, gt_iff_lt, hcount]
    exact checkAliasTargetsLoop_ok c rest (fun b hb => h b (List.mem_cons_of_mem _ hb))

/-- The loop over the selected variables under GROUP BY passes when every selected
variable is allowed, and throws an `InvalidQueryException` when one is not. -/
theorem checkSelectedVariablesLoop_cases (cap : SparqlExpressionCapability E) (note : String)
    (aliases : List (Alias E)) (groupBy : List Variable) :
    ∀ (vars : List Variable),
      (checkSelectedVariablesLoop cap note aliases groupBy (groupBy.map Variable.toSparql)
            vars = .ok () ∧
          ∀ v ∈ vars, SelectedVariableAllowed cap aliases groupBy v) ∨
        ((∃ msg, checkSelectedVariablesLoop cap note aliases groupBy
            (groupBy.map Variable.toSparql) vars = .error (.InvalidQueryException msg)) ∧
          ∃ v ∈ vars, ¬ SelectedVariableAllowed cap aliases groupBy v)
  | [] => Or.inl ⟨rfl, fun _ h => absurd h (List.not_mem_nil _)⟩
  | var :: rest => by
    have ih := checkSelectedVariablesLoop_cases cap note aliases groupBy rest
    cases hf : aliases.find? (fun a => decide (a._target = var)) with
    | some a =>
      have hmem := find_alias_eq_some aliases var a hf
      by_cases hagg : cap.isAggregate a._expression (groupBy.map Variable.toSparql) = true
      · have hallowed : SelectedVariableAllowed cap aliases groupBy var :=
          ⟨fun b hb => (by rw [hf] at hb; cases hb; exact hagg),
            fun hno => absurd hmem.2 (hno a hmem.1)⟩
        rcases ih with ⟨h1, h2⟩ | ⟨⟨msg, h1⟩, h2⟩
        · refine Or.inl ⟨?_, ?_⟩
          · simp only [checkSelectedVariablesLoop, hf, hagg, if_true, h1]
          · intro w hw
            rcases List.mem_cons.1 hw with rfl | hw
            · exact hallowed
            · exact h2 w hw
        · refine Or.inr ⟨⟨msg, ?_⟩, ?_⟩
          · simp only [checkSelectedVariablesLoop, hf, hagg, if_true, h1]
          · obtain ⟨w, hw, hn⟩ := h2
            exact ⟨w, List.mem_cons_of_mem _ hw, hn⟩
      · refine Or.inr ⟨?_, var, List.mem_cons_self _ _, fun hal => hagg (hal.1 a hf)⟩
        simp only [checkSelectedVariablesLoop, hf, hagg, Bool.false_eq_true, if_false]
        exact ⟨_, rfl⟩
    | none =>
      have hno := (find_alias_eq_none aliases var).1 hf
      by_cases hin : var ∈ groupBy
      · have hc := (ad_utility.contains_iff groupBy var).2 hin
        have hallowed : SelectedVariableAllowed cap aliases groupBy var :=
          ⟨fun b hb => (by rw [hf] at hb; cases hb), fun _ => hin⟩
        rcases ih with ⟨h1, h2⟩ | ⟨⟨msg, h1⟩, h2⟩
        · refine Or.inl ⟨?_, ?_⟩
          · simp only [checkSelectedVariablesLoop, hf, hc, Bool.not_true, Bool.false_eq_true,
              if_false, h1]
          · intro w hw
            rcases List.mem_cons.1 hw with rfl | hw
            · exact hallowed
            · exact h2 w hw
        · refine Or.inr ⟨⟨msg, ?_⟩, ?_⟩
          · simp only [checkSelectedVariablesLoop, hf, hc, Bool.not_true, Bool.false_eq_true,
              if_false, h1]
          · obtain ⟨w, hw, hn⟩ := h2
            exact ⟨w, List.mem_cons_of_mem _ hw, hn⟩
      · have hc := (ad_utility.contains_eq_false_iff groupBy var).2 hin
        refine Or.inr ⟨?_, var, List.mem_cons_self _ _, fun hal => hin (hal.2 hno)⟩
        simp only [checkSelectedVariablesLoop, hf, hc, Bool.not_false, if_true]
        exact ⟨_, rfl⟩

/-- Under GROUP BY the loop over the aliases passes when every alias uses visible
variables only. -/
theorem checkAliasesLoop_grouping_ok (cap : SparqlExpressionCapability E) (note : String)
    (q : ParsedQuery E) :
    ∀ (aliases : List (Alias E)) (bound : List Variable),
      (∀ a ∈ aliases, ∀ v ∈ cap.containedVariables a._expression,
        v ∈ q.getVisibleVariables) →
      checkAliasesLoop cap true note q aliases bound = .ok ()
  | [], _, _ => rfl
  | a :: rest, bound, h => by
    have hc := checkVariablesAreVisible_ok q
      ("SELECT" ++ " in expression \"" ++ cap.getDescriptor a._expression ++ "\"") []
      (cap.containedVariables a._expression)
      (fun v hv => Or.inl (h a (List.mem_cons_self _ _) v hv))
    simp only [checkAliasesLoop, checkAliasVariables, Bool.not_true, Bool.false_eq_true,
      if_false, checkUsedVariablesAreVisible, hc]
    exact checkAliasesLoop_grouping_ok cap note q rest _
      (fun b hb => h b (List.mem_cons_of_mem _ hb))

/-- The SELECT branch under GROUP BY returns the query unchanged when the alias targets
are new, the aliases use visible variables only, the clause is not `SELECT *` and every
selected variable is allowed. -/
theorem selectStage_grouping_ok (cap : SparqlExpressionCapability E) (note : String)
    (q : ParsedQuery E) (c : SelectClause E)
    (ht : ∀ a ∈ c.getAliases, a._target ∉ c.visibleVariables_ ∧
      c.getSelectedVariables.count a._target ≤ 1)
    (hcv : ∀ a ∈ c.getAliases, ∀ v ∈ cap.containedVariables a._expression,
      v ∈ q.getVisibleVariables)
    (hna : c.isAsterisk = false)
    (hal : ∀ v ∈ c.getSelectedVariables,
      SelectedVariableAllowed cap c.getAliases q._groupByVariables v) :
    selectStage cap true note q c = .ok q := by
  have h1 := checkAliasTargetsLoop_ok c c.getAliases ht
  have h2 := checkAliasesLoop_grouping_ok cap note q c.getAliases [] hcv
  have h3 : checkSelectedVariablesLoop cap note c.getAliases q._groupByVariables
      (q._groupByVariables.map Variable.toSparql) c.getSelectedVariables = .ok () := by
    rcases checkSelectedVariablesLoop_cases cap note c.getAliases q._groupByVariables
      c.getSelectedVariables with ⟨h, -⟩ | ⟨-, v, hv, hn⟩
    · exact h
    · exact absurd (hal v hv) hn
  simp only [selectStage, checkAliasTargetsHaveNoOverlap, h1, h2, if_true, checkGroupedSelect,
    hna, Bool.false_eq_true, if_false, h3]

/-- When the first four stages succeed on a SELECT query, `addSolutionModifiers` is the
SELECT branch on the query that the ORDER BY stage left. -/
theorem addSolutionModifiers_eq_selectStage (cap : SparqlExpressionCapability E)
    (pre : String) (q q2 q4 : ParsedQuery E) (modifiers : SolutionModifiers E)
    (c4 : SelectClause E)
    (h2 : groupByStage cap pre q modifiers = .ok q2)
    (h4 : orderByStage cap pre (isGroupBy cap q2) (noteForImplicitGroupBy cap q2) q2
      modifiers = .ok q4)
    (hc4 : q4._clause = .select c4) :
    addSolutionModifiers cap pre q modifiers =
      selectStage cap (isGroupBy cap q2) (noteForGroupByError cap q2) q4 c4 := by
  simp only [addSolutionModifiers, h2, h4, clauseStage, hc4]

/-- Without ORDER BY keys the ORDER BY stage only takes over the sort flag and the
limits. -/
theorem orderByStage_nil (cap : SparqlExpressionCapability E) (pre : String)
    (grouping : Bool) (note : String) (q : ParsedQuery E) (modifiers : SolutionModifiers E)
    (hord : modifiers.orderBy_.orderKeys = []) :
    orderByStage cap pre grouping note q modifiers =
      .ok { q with
        _isInternalSort := modifiers.orderBy_.isInternalSort
        _limitOffset := modifiers.limitOffset_ } := by
  simp only [orderByStage, hord, processOrderKeys]

/-- The check of one alias passes, with or without grouping, when the alias uses
visible variables only. -/
theorem checkAliasVariables_ok_of_visible (cap : SparqlExpressionCapability E)
    (grouping : Bool) (note : String) (q : ParsedQuery E) (a : Alias E) (bound : List Variable)
    (h : ∀ v ∈ cap.containedVariables a._expression, v ∈ q.getVisibleVariables) :
    checkAliasVariables cap grouping note q a bound = .ok () := by
  have hc := fun add => checkVariablesAreVisible_ok q
    ("SELECT" ++ " in expression \"" ++ cap.getDescriptor a._expression ++ "\"") add
    (cap.containedVariables a._expression) (fun v hv => Or.inl (h v hv))
  cases grouping
  · simp only [checkAliasVariables, Bool.not_false, if_true, checkUsedVariablesAreVisible, hc]
  · simp only [checkAliasVariables, Bool.not_true, Bool.false_eq_true, if_false,
      checkUsedVariablesAreVisible, hc]

/-- The loop over the aliases runs through a first part that uses visible variables
only, and hands the targets of that part over to the rest. -/
theorem checkAliasesLoop_append_visible (cap : SparqlExpressionCapability E)
    (grouping : Bool) (note : String) (q : ParsedQuery E) (rest : List (Alias E)) :
    ∀ (earlier : List (Alias E)) (bound : List Variable),
      (∀ b ∈ earlier, ∀ v ∈ cap.containedVariables b._expression,
        v ∈ q.getVisibleVariables) →
      checkAliasesLoop cap grouping note q (earlier ++ rest) bound =
        checkAliasesLoop cap grouping note q rest
          ((earlier.map (fun b => b._target)).reverse ++ bound)
  | [], bound, _ => by simp
  | e :: earlier, bound, h => by
    have he := checkAliasVariables_ok_of_visible cap grouping note q e bound
      (h e (List.mem_cons_self _ _))
    have ih := checkAliasesLoop_append_visible cap grouping note q rest earlier
      (e._target :: bound) (fun b hb => h b (List.mem_cons_of_mem _ hb))
    rw [List.cons_append]
    simp only [checkAliasesLoop, he]
    rw [ih]
    simp only [List.map_cons, List.reverse_cons, List.append_assoc, List.singleton_append]

/-- Without grouping the loop over the aliases passes exactly when every alias uses
only variables that are visible, targets of earlier aliases of the list, or in the set
it starts with; otherwise it throws an `InvalidQueryException`. -/
theorem checkAliasesLoop_nongrouping_cases (cap : SparqlExpressionCapability E)
    (note : String) (q : ParsedQuery E) :
    ∀ (aliases : List (Alias E)) (bound : List Variable),
      (checkAliasesLoop cap false note q aliases bound = .ok () ∧
          ∀ earlier a later, aliases = earlier ++ a :: later →
            ∀ v ∈ cap.containedVariables a._expression,
              v ∈ q.getVisibleVariables ∨ v ∈ earlier.map (fun b => b._target) ∨ v ∈ bound) ∨
        ((∃ msg, checkAliasesLoop cap false note q aliases bound =
            .error (.InvalidQueryException msg)) ∧
          ∃ earlier a later, aliases = earlier ++ a :: later ∧
            ∃ v ∈ cap.containedVariables a._expression,
              v ∉ q.getVisibleVariables ∧ v ∉ earlier.map (fun b => b._target) ∧ v ∉ bound)
  | [], bound => Or.inl ⟨rfl, fun earlier a later h => by simp at h⟩
  | a :: rest, bound => by
    have hstep : checkAliasVariables cap false note q a bound =
        checkVariablesAreVisible q
          ("SELECT" ++ " in expression \"" ++ cap.getDescriptor a._expression ++ "\"") bound
          (cap.containedVariables a._expression) := by
      simp only [checkAliasVariables, Bool.not_false, if_true, checkUsedVariablesAreVisible]
    rcases checkVariablesAreVisible_cases q
      ("SELECT" ++ " in expression \"" ++ cap.getDescriptor a._expression ++ "\"") bound
      (cap.containedVariables a._expression) with ⟨hok, hall⟩ | ⟨msg, herr, v, hv, hn1, hn2⟩
    · rcases checkAliasesLoop_nongrouping_cases cap note q rest (a._target :: bound) with
        ⟨h1, h2⟩ | ⟨⟨msg, h1⟩, earlier, b, later, hsplit, v, hv, hn1, hn2, hn3⟩
      · refine Or.inl ⟨?_, ?_⟩
        · simp only [checkAliasesLoop, hstep, hok, h1]
        · intro earlier b later hsplit v hv
          cases earlier with
          | nil =>
            simp only [List.nil_append, List.cons.injEq] at hsplit
            obtain ⟨rfl, -⟩ := hsplit
            rcases hall v hv with h | h
            · exact Or.inl h
            · exact Or.inr (Or.inr h)
          | cons e earlier =>
            simp only [List.cons_append, List.cons.injEq] at hsplit
            obtain ⟨rfl, hrest⟩ := hsplit
            rcases h2 earlier b later hrest v hv with h | h | h
            · exact Or.inl h
            · exact Or.inr (Or.inl (List.mem_cons_of_mem _ h))
            · rcases List.mem_cons.1 h with h | h
              · exact Or.inr (Or.inl (h ▸ List.mem_cons_self _ _))
              · exact Or.inr (Or.inr h)
      · refine Or.inr ⟨⟨msg, ?_⟩, a :: earlier, b, later, ?_, v, hv, hn1, ?_, ?_⟩
        · simp only [checkAliasesLoop, hstep, hok, h1]
        · simp only [hsplit, List.cons_append]
        · intro h
          rcases List.mem_cons.1 h with h | h
          · exact hn3 (h ▸ List.mem_cons_self _ _)
          · exact hn2 h
        · exact fun h => hn3 (List.mem_cons_of_mem _ h)
    · refine Or.inr ⟨⟨msg, ?_⟩, [], a, rest, rfl, v, hv, hn1, List.not_mem_nil _, hn2⟩
      simp only [checkAliasesLoop, hstep, herr]

/-- Under GROUP BY, the check of an alias that uses a variable that is not visible: the
first check throws for the first such variable; the exception becomes a
`NotSupportedException` that starts with the same message when the second check passes,
and the second check throws an `InvalidQueryException` otherwise. -/
theorem checkAliasVariables_grouping_invisible (cap : SparqlExpressionCapability E)
    (note : String) (q : ParsedQuery E) (a : Alias E) (bound : List Variable)
    (hinv : ∃ v ∈ cap.containedVariables a._expression, v ∉ q.getVisibleVariables) :
    ∃ v0 ∈ cap.containedVariables a._expression, v0 ∉ q.getVisibleVariables ∧
      checkUsedVariablesAreVisible cap q a._expression "SELECT" [] =
        .error (.InvalidQueryException (notVisibleInSelectMessage cap v0 a._expression)) ∧
      ((∀ v ∈ cap.containedVariables a._expression,
          v ∈ q.getVisibleVariables ∨ v ∈ bound) →
        checkAliasVariables cap true note q a bound =
          .error (.NotSupportedException
            (notVisibleInSelectMessage cap v0 a._expression ++ noteForAliasChaining ++ note))) ∧
      ((∃ v ∈ cap.containedVariables a._expression,
          v ∉ q.getVisibleVariables ∧ v ∉ bound) →
        ∃ msg, checkAliasVariables cap true note q a bound =
          .error (.InvalidQueryException msg)) := by
  obtain ⟨v0, hv0, hn0, -, he0⟩ := checkVariablesAreVisible_error q
    ("SELECT" ++ " in expression \"" ++ cap.getDescriptor a._expression ++ "\"") []
    (cap.containedVariables a._expression)
    (by obtain ⟨v, hv, hn⟩ := hinv; exact ⟨v, hv, hn, List.not_mem_nil _⟩)
  have hfirst : checkUsedVariablesAreVisible cap q a._expression "SELECT" [] =
      .error (.InvalidQueryException (notVisibleInSelectMessage cap v0 a._expression)) := by
    simp only [checkUsedVariablesAreVisible, he0, notVisibleInSelectMessage]
  refine ⟨v0, hv0, hn0, hfirst, ?_, ?_⟩
  · intro hall
    have hsecond := checkVariablesAreVisible_ok q
      ("SELECT" ++ " in expression \"" ++ cap.getDescriptor a._expression ++ "\"") bound
      (cap.containedVariables a._expression) hall
    simp only [checkAliasVariables, Bool.not_true, Bool.false_eq_true, if_false, hfirst]
    simp only [checkUsedVariablesAreVisible, hsecond]
  · intro hbad
    obtain ⟨v, hv, hn1, hn2, he⟩ := checkVariablesAreVisible_error q
      ("SELECT" ++ " in expression \"" ++ cap.getDescriptor a._expression ++ "\"") bound
      (cap.containedVariables a._expression) hbad
    refine ⟨notVisibleInSelectMessage cap v a._expression, ?_⟩
    simp only [checkAliasVariables, Bool.not_true, Bool.false_eq_true, if_false, hfirst]
    simp only [checkUsedVariablesAreVisible, he, notVisibleInSelectMessage]

end ModifierLemmas2

/-! ## Claims on the solution modifiers, continued -/

section ModifierClaims2

variable {E : Type}

/-- C19: when Stage 1 does not throw, the resolved group-by list is the list it had before
followed by exactly one entry per GROUP BY entry, in order: the variable itself for a
bare variable, the freshly generated internal variable for a bare expression, the target
for an alias (so it is that list when it was empty before); the root children are the old
ones followed by exactly one Bind node per expression or alias entry, in order; and the
visible variables afterwards are the old ones and the alias targets, so alias targets
are registered visible and internal variables are not. -/
theorem groupBy_stage_resolution (cap : SparqlExpressionCapability E) (pre : String)
    (q q2 : ParsedQuery E) (modifiers : SolutionModifiers E)
    (h : groupByStage cap pre q modifiers = .ok q2) :
    q2._groupByVariables = q._groupByVariables ++
        resolvedGroupKeys pre q.numInternalVariables_ modifiers.groupByVariables_ ∧
      (q._groupByVariables = [] → q2._groupByVariables =
        resolvedGroupKeys pre q.numInternalVariables_ modifiers.groupByVariables_) ∧
      (resolvedGroupKeys pre q.numInternalVariables_ modifiers.groupByVariables_).length =
        modifiers.groupByVariables_.length ∧
      rootChildren q2 = rootChildren q ++
        groupKeyBinds pre q.numInternalVariables_ modifiers.groupByVariables_ ∧
      q2.numInternalVariables_ =
        q.numInternalVariables_ + countExpressionKeys modifiers.groupByVariables_ ∧
      (∀ v, v ∈ q2.getVisibleVariables ↔
        v ∈ q.getVisibleVariables ∨ v ∈ groupKeyAliasTargets modifiers.groupByVariables_) := by
  simp only [groupByStage] at h
  split at h
  · cases h
  · next qm hk =>
    cases h
    obtain ⟨h1, h2, h3, h4⟩ := processGroupKeys_resolution cap pre _ q qm hk
    exact ⟨h1, fun h0 => by rw [h1, h0, List.nil_append],
      length_resolvedGroupKeys pre _ _, h2, h3, h4⟩

/-- C19 on `SELECT ?x` with `GROUP BY ?x (?x + ?y) (?x AS ?g)`: the resolved list is `?x`, the
first internal variable, `?g`; two Bind nodes are appended; `?g` is visible afterwards
and the internal variable is not. -/
theorem groupBy_stage_resolution_witness :
    ∃ q2, groupByStage sampleCapability samplePrefix selectX groupXExprAlias = .ok q2 ∧
      q2._groupByVariables = [varX, ⟨"?_qlever_internal_variable_0"⟩, varG] ∧
      rootChildren q2 = [.BasicGraphPattern [labelTriple],
        .Bind exprXPlusY ⟨"?_qlever_internal_variable_0"⟩, .Bind exprX varG] ∧
      varG ∈ q2.getVisibleVariables ∧
      (⟨"?_qlever_internal_variable_0"⟩ : Variable) ∉ q2.getVisibleVariables :=
  ⟨_, rfl,
    ((groupBy_stage_resolution sampleCapability samplePrefix selectX _ groupXExprAlias
      rfl).2.1 rfl).trans (by decide),
    (groupBy_stage_resolution sampleCapability samplePrefix selectX _ groupXExprAlias
      rfl).2.2.2.1.trans (by rfl),
    ((groupBy_stage_resolution sampleCapability samplePrefix selectX _ groupXExprAlias
      rfl).2.2.2.2.2 varG).2 (Or.inr (by decide)),
    fun h => absurd
      (((groupBy_stage_resolution sampleCapability samplePrefix selectX _ groupXExprAlias
        rfl).2.2.2.2.2 ⟨"?_qlever_internal_variable_0"⟩).1 h) (by decide)⟩

/-- C18: for a CONSTRUCT query whose GROUP BY and ORDER BY stages succeed,
`addSolutionModifiers` returns the query as the ORDER BY stage left it when the resolved
group-by list is empty; when the list is not empty it succeeds if and only if every
variable of the CONSTRUCT template is in the list, and throws an `InvalidQueryException`
otherwise. -/
theorem construct_clause_stage (cap : SparqlExpressionCapability E) (pre : String)
    (q q2 q4 : ParsedQuery E) (modifiers : SolutionModifiers E) (c0 : ConstructClause)
    (hcon : q._clause = .construct c0)
    (h2 : groupByStage cap pre q modifiers = .ok q2)
    (h4 : orderByStage cap pre (isGroupBy cap q2) (noteForImplicitGroupBy cap q2) q2
      modifiers = .ok q4) :
    (q4._groupByVariables = [] → addSolutionModifiers cap pre q modifiers = .ok q4) ∧
      (q4._groupByVariables ≠ [] →
        ((∃ qf, addSolutionModifiers cap pre q modifiers = .ok qf) ↔
            ∀ v ∈ c0.containedVariables, v ∈ q4._groupByVariables) ∧
          ((∀ v ∈ c0.containedVariables, v ∈ q4._groupByVariables) →
            addSolutionModifiers cap pre q modifiers = .ok q4) ∧
          ((∃ v ∈ c0.containedVariables, v ∉ q4._groupByVariables) →
            ∃ msg, addSolutionModifiers cap pre q modifiers =
              .error (.InvalidQueryException msg, q4))) := by
  have hg := groupByStage_clause cap pre q q2 modifiers h2
  rw [hcon] at hg
  obtain ⟨c2, hc2, htr, -⟩ := hg.construct
  have hc4 : q4._clause = .construct c2 :=
    (orderByStage_frame cap pre _ _ q2 q4 modifiers h4).1.trans hc2
  have hcv : c2.containedVariables = c0.containedVariables := by
    simp only [ConstructClause.containedVariables, htr]
  have hasm : addSolutionModifiers cap pre q modifiers =
      constructStage (noteForGroupByError cap q2) q4 c2 := by
    simp only [addSolutionModifiers, h2, h4, clauseStage, hc4]
  rw [hasm]
  constructor
  · intro hnil
    simp only [constructStage, hnil, List.isEmpty_nil, if_true]
  · intro hne
    have hemp : q4._groupByVariables.isEmpty = false := by
      cases hl : q4._groupByVariables with
      | nil => exact absurd hl hne
      | cons _ _ => rfl
    rcases checkConstructVariablesLoop_cases (noteForGroupByError cap q2) q4._groupByVariables
      c0.containedVariables with ⟨h1, hall⟩ | ⟨⟨msg, h1⟩, hex⟩
    · have hres : constructStage (noteForGroupByError cap q2) q4 c2 = .ok q4 := by
        simp only [constructStage, hemp, Bool.false_eq_true, if_false, hcv, h1]
      rw [hres]
      exact ⟨⟨fun _ => hall, fun _ => ⟨q4, rfl⟩⟩, fun _ => rfl,
        fun ⟨v, hv, hn⟩ => absurd (hall v hv) hn⟩
    · have hres : constructStage (noteForGroupByError cap q2) q4 c2 =
          .error (.InvalidQueryException msg, q4) := by
        simp only [constructStage, hemp, Bool.false_eq_true, if_false, hcv, h1]
      rw [hres]
      obtain ⟨v, hv, hn⟩ := hex
      exact ⟨⟨fun ⟨_, hq⟩ => (by cases hq), fun hall => absurd (hall v hv) hn⟩,
        fun hall => absurd (hall v hv) hn, fun _ => ⟨msg, rfl⟩⟩

/-- C18 on `CONSTRUCT { ?x <p> ?y }`: without GROUP BY the call succeeds; with `GROUP BY ?x`
it throws an `InvalidQueryException` (`?y` is not grouped); with `GROUP BY ?x ?y` it
succeeds. -/
theorem construct_clause_stage_witness :
    addSolutionModifiers sampleCapability samplePrefix constructXY noModifiers =
        .ok constructXY ∧
      (∃ msg st, addSolutionModifiers sampleCapability samplePrefix constructXY groupX =
        .error (.InvalidQueryException msg, st)) ∧
      (∃ qf, addSolutionModifiers sampleCapability samplePrefix constructXY groupXY = .ok qf) :=
  ⟨(construct_clause_stage sampleCapability samplePrefix constructXY _ _ noModifiers _
      rfl rfl rfl).1 rfl,
    Exists.elim
      (((construct_clause_stage sampleCapability samplePrefix constructXY _ _ groupX _
        rfl rfl rfl).2 (by decide)).2.2 ⟨varY, by decide, by decide⟩)
      (fun msg h => ⟨msg, _, h⟩),
    ⟨_, ((construct_clause_stage sampleCapability samplePrefix constructXY _ _ groupXY _
      rfl rfl rfl).2 (by decide)).2.1 (by decide)⟩⟩

/-- C17: a `SELECT *` query whose resolved group-by list is not empty (or that is
classified as grouping in any way) never passes `addSolutionModifiers`; when the ORDER BY
stage succeeds as well, the exception is the `InvalidQueryException` for `SELECT *` under
GROUP BY, thrown with the query as the ORDER BY stage left it. -/
theorem select_asterisk_under_grouping (cap : SparqlExpressionCapability E) (pre : String)
    (q q2 : ParsedQuery E) (modifiers : SolutionModifiers E) (c0 : SelectClause E)
    (hsel : q._clause = .select c0) (hast : c0.isAsterisk = true)
    (h2 : groupByStage cap pre q modifiers = .ok q2)
    (hg : q2._groupByVariables ≠ [] ∨ isGroupBy cap q2 = true) :
    (∀ qf, addSolutionModifiers cap pre q modifiers ≠ .ok qf) ∧
      (∀ q4, orderByStage cap pre (isGroupBy cap q2) (noteForImplicitGroupBy cap q2) q2
          modifiers = .ok q4 →
        addSolutionModifiers cap pre q modifiers =
          .error (.InvalidQueryException
            "GROUP BY is not allowed when all variables are selected via SELECT *", q4)) := by
  have hgr := groupByStage_clause cap pre q q2 modifiers h2
  rw [hsel] at hgr
  obtain ⟨c2, hc2, hvaa, -⟩ := hgr.select
  have hva0 : c0.varsAndAliasesOrAsterisk_ = .Asterisk := by
    cases hv : c0.varsAndAliasesOrAsterisk_ with
    | Asterisk => rfl
    | VarsAndAliases vars aliases => simp [SelectClause.isAsterisk, hv] at hast
  rw [hva0] at hvaa
  have hgb : isGroupBy cap q2 = true := by
    rcases hg with hg | hg
    · cases hl : q2._groupByVariables with
      | nil => exact absurd hl hg
      | cons _ _ => simp [isGroupBy, isExplicitGroupBy, hl]
    · exact hg
  have hmain : ∀ q4, orderByStage cap pre (isGroupBy cap q2) (noteForImplicitGroupBy cap q2) q2
      modifiers = .ok q4 →
      addSolutionModifiers cap pre q modifiers =
        .error (.InvalidQueryException
          "GROUP BY is not allowed when all variables are selected via SELECT *", q4) := by
    intro q4 h4
    have hc4 : q4._clause = .select c2 :=
      (orderByStage_frame cap pre _ _ q2 q4 modifiers h4).1.trans hc2
    have hasm : addSolutionModifiers cap pre q modifiers =
        selectStage cap (isGroupBy cap q2) (noteForGroupByError cap q2) q4 c2 := by
      simp only [addSolutionModifiers, h2, h4, clauseStage, hc4]
    rw [hasm, hgb]
    simp only [selectStage, checkAliasTargetsHaveNoOverlap, SelectClause.getAliases, hvaa,
      checkAliasTargetsLoop, checkAliasesLoop, if_true, checkGroupedSelect,
      SelectClause.isAsterisk]
  refine ⟨fun qf hok => ?_, hmain⟩
  cases h4 : orderByStage cap pre (isGroupBy cap q2) (noteForImplicitGroupBy cap q2) q2
      modifiers with
  | error e =>
    simp only [addSolutionModifiers, h2, h4] at hok
    cases hok
  | ok q4 =>
    rw [hmain q4 h4] at hok
    cases hok

/-- C17 on `SELECT * ... GROUP BY ?x`: the call throws the `InvalidQueryException` for
`SELECT *` under GROUP BY. -/
theorem select_asterisk_under_grouping_witness :
    ∃ st, addSolutionModifiers sampleCapability samplePrefix selectAsterisk groupX =
      .error (.InvalidQueryException
        "GROUP BY is not allowed when all variables are selected via SELECT *", st) :=
  ⟨_, (select_asterisk_under_grouping sampleCapability samplePrefix selectAsterisk _ groupX _
    rfl rfl rfl (Or.inl (by decide))).2 _ rfl⟩

/-- C11: for a SELECT query with grouping active that is not `SELECT *` and passes the
GROUP BY and ORDER BY stages, the alias-target check and the check of the variables used
in the aliases: if some selected variable is the target of an alias whose expression is
not an aggregate over the resolved group-by variables, or is no alias target and not in
the resolved group-by list, `addSolutionModifiers` throws an `InvalidQueryException`. -/
theorem grouped_select_rejects_unaggregated (cap : SparqlExpressionCapability E)
    (pre : String) (q q2 q4 : ParsedQuery E) (modifiers : SolutionModifiers E)
    (c4 : SelectClause E)
    (h2 : groupByStage cap pre q modifiers = .ok q2)
    (hg : isGroupBy cap q2 = true)
    (h4 : orderByStage cap pre (isGroupBy cap q2) (noteForImplicitGroupBy cap q2) q2
      modifiers = .ok q4)
    (hc4 : q4._clause = .select c4)
    (hna : c4.isAsterisk = false)
    (ht : checkAliasTargetsHaveNoOverlap c4 = .ok ())
    (hf : checkAliasesLoop cap true (noteForGroupByError cap q2) q4 c4.getAliases [] = .ok ())
    (hbad : ∃ var ∈ c4.getSelectedVariables,
      (∃ a, c4.getAliases.find? (fun a => decide (a._target = var)) = some a ∧
        cap.isAggregate a._expression (q4._groupByVariables.map Variable.toSparql) = false) ∨
      (∃ a ∈ c4.getAliases, a._target = var ∧
        (c4.getAliases.map (fun b => b._target)).Nodup ∧
        cap.isAggregate a._expression (q4._groupByVariables.map Variable.toSparql) = false) ∨
      ((∀ a ∈ c4.getAliases, a._target ≠ var) ∧ var ∉ q4._groupByVariables)) :
    ∃ msg, addSolutionModifiers cap pre q modifiers =
      .error (.InvalidQueryException msg, q4) := by
  have hasm : addSolutionModifiers cap pre q modifiers =
      selectStage cap (isGroupBy cap q2) (noteForGroupByError cap q2) q4 c4 := by
    simp only [addSolutionModifiers, h2, h4, clauseStage, hc4]
  rw [hasm, hg]
  obtain ⟨var, hvar, hb⟩ := hbad
  have hnot : ¬ SelectedVariableAllowed cap c4.getAliases q4._groupByVariables var := by
    intro hal
    rcases hb with ⟨a, hfa, hagg⟩ | ⟨a, ha, hta, hnd, hagg⟩ | ⟨hno, hng⟩
    · rw [hal.1 a hfa] at hagg
      cases hagg
    · have hfa := find_alias_of_nodup c4.getAliases a ha hnd
      rw [hta] at hfa
      rw [hal.1 a hfa] at hagg
      cases hagg
    · exact hng (hal.2 hno)
  rcases checkSelectedVariablesLoop_cases cap (noteForGroupByError cap q2) c4.getAliases
    q4._groupByVariables c4.getSelectedVariables with ⟨-, hall⟩ | ⟨⟨msg, hm⟩, -⟩
  · exact absurd (hall var hvar) hnot
  · refine ⟨msg, ?_⟩
    simp only [selectStage, ht, hf, if_true, checkGroupedSelect, hna, Bool.false_eq_true,
      if_false, hm]

/-- C11 on `SELECT ?x (?y AS ?c) ... GROUP BY ?x`: the expression `?y` of the alias is no
aggregate, and the call throws an `InvalidQueryException`. -/
theorem grouped_select_rejects_unaggregated_witness :
    ∃ msg st, addSolutionModifiers sampleCapability samplePrefix selectXYAsC groupX =
      .error (.InvalidQueryException msg, st) :=
  Exists.elim
    (grouped_select_rejects_unaggregated sampleCapability samplePrefix selectXYAsC _ _ groupX _
      rfl rfl rfl rfl rfl rfl rfl
      ⟨varC, by decide, Or.inl ⟨{ _expression := exprY, _target := varC }, rfl, rfl⟩⟩)
    (fun msg h => ⟨msg, _, h⟩)

/-- C12: for a SELECT query (not `SELECT *`) with a non-empty GROUP BY list of bare visible
variables (and an empty group-by list before the call) and no ORDER BY, in which the
alias targets are not visible and not selected a second time, the aliases use visible
variables only, every alias expression is an aggregate over the group-by variables and
every selected variable that is no alias target is in the GROUP BY list:
`addSolutionModifiers` succeeds, the resolved group-by list is the input list, and the
clause (with its aliases) and the root pattern are unchanged, so no Bind node is added. -/
theorem grouped_select_accepted (cap : SparqlExpressionCapability E) (pre : String)
    (q : ParsedQuery E) (modifiers : SolutionModifiers E) (c0 : SelectClause E)
    (vars : List Variable) (aliases : List (Alias E)) (gvars : List Variable)
    (hsel : q._clause = .select c0)
    (hvaa : c0.varsAndAliasesOrAsterisk_ = .VarsAndAliases vars aliases)
    (hgb : modifiers.groupByVariables_ = gvars.map GroupKey.ofVariable)
    (hne : gvars ≠ [])
    (h0 : q._groupByVariables = [])
    (hvis : ∀ v ∈ gvars, v ∈ c0.visibleVariables_)
    (hord : modifiers.orderBy_.orderKeys = [])
    (htv : ∀ a ∈ aliases, a._target ∉ c0.visibleVariables_)
    (htc : ∀ a ∈ aliases, vars.count a._target ≤ 1)
    (hcv : ∀ a ∈ aliases, ∀ v ∈ cap.containedVariables a._expression,
      v ∈ c0.visibleVariables_)
    (hagg : ∀ a ∈ aliases,
      cap.isAggregate a._expression (gvars.map Variable.toSparql) = true)
    (hsv : ∀ v ∈ vars, (∀ a ∈ aliases, a._target ≠ v) → v ∈ gvars) :
    ∃ qf, addSolutionModifiers cap pre q modifiers = .ok qf ∧
      qf._groupByVariables = gvars ∧
      qf._clause = q._clause ∧
      qf.getAliases = aliases ∧
      qf._rootGraphPattern = q._rootGraphPattern ∧
      rootChildren qf = rootChildren q := by
  have hqv : q.getVisibleVariables = c0.visibleVariables_ := by
    simp only [ParsedQueryOver.getVisibleVariables, hsel]
  have hk := processGroupKeys_variables_ok cap pre gvars q (fun v hv => hqv ▸ hvis v hv)
  rw [h0, List.nil_append] at hk
  have hq2 : groupByStage cap pre q modifiers =
      .ok { q with _groupByVariables := gvars, _havingClauses := modifiers.havingClauses_ } := by
    simp only [groupByStage, hgb, hk]
  have hexp : isExplicitGroupBy
      { q with _groupByVariables := gvars, _havingClauses := modifiers.havingClauses_ } =
        true := by
    cases gvars with
    | nil => exact absurd rfl hne
    | cons _ _ => rfl
  have hgr : isGroupBy cap
      { q with _groupByVariables := gvars, _havingClauses := modifiers.havingClauses_ } =
        true := by
    unfold isGroupBy
    rw [hexp]
    rfl
  have hal0 : c0.getAliases = aliases := by simp only [SelectClause.getAliases, hvaa]
  have hsv0 : c0.getSelectedVariables = vars := by
    simp only [SelectClause.getSelectedVariables, hvaa]
  have hna : c0.isAsterisk = false := by simp only [SelectClause.isAsterisk, hvaa]
  refine ⟨{ q with
    _groupByVariables := gvars
    _havingClauses := modifiers.havingClauses_
    _isInternalSort := modifiers.orderBy_.isInternalSort
    _limitOffset := modifiers.limitOffset_ }, ?_, rfl, rfl, ?_, rfl, rfl⟩
  · rw [addSolutionModifiers_eq_selectStage cap pre q _ _ modifiers c0 hq2
      (orderByStage_nil cap pre _ _ _ modifiers hord) hsel, hgr]
    apply selectStage_grouping_ok
    · intro a ha
      rw [hal0] at ha
      rw [hsv0]
      exact ⟨htv a ha, htc a ha⟩
    · intro a ha v hv
      rw [hal0] at ha
      exact hqv ▸ hcv a ha v hv
    · exact hna
    · intro v hv
      rw [hsv0] at hv
      rw [hal0]
      exact ⟨fun a hfa => hagg a (find_alias_eq_some aliases v a hfa).1, hsv v hv⟩
  · simp only [ParsedQueryOver.getAliases, hsel, hal0]

/-- C12, scenario A: `SELECT ?x (COUNT(?y) AS ?c) ... GROUP BY ?x` resolves with the group-by
list `[?x]`, keeps the alias and adds no Bind node. -/
theorem grouped_select_accepted_witness :
    ∃ qf, addSolutionModifiers sampleCapability samplePrefix selectXCountY groupX = .ok qf ∧
      qf._groupByVariables = [varX] ∧
      qf.getAliases = [{ _expression := exprCountY, _target := varC }] ∧
      rootChildren qf = rootChildren selectXCountY :=
  Exists.imp (fun _ h => ⟨h.1, h.2.1, h.2.2.2.1, h.2.2.2.2.2⟩)
    (grouped_select_accepted sampleCapability samplePrefix selectXCountY groupX _
      [varX, varC] [{ _expression := exprCountY, _target := varC }] [varX]
      rfl rfl rfl (by decide) rfl (by decide) rfl (by decide) (by decide) (by decide)
      (by decide) (by decide))

/-- C13: a SELECT query with no GROUP BY entry (and an empty group-by list before the
call) in which some alias expression contains an aggregate is classified as implicit
grouping; if in addition there is no ORDER BY, every selected variable is an alias
target, the alias targets are not visible and not selected a second time, the aliases
use visible variables only and each alias expression is an aggregate over the empty set
of group variables, `addSolutionModifiers` succeeds with an empty resolved group-by list
and leaves the clause (with its aliases) and the root pattern unchanged. -/
theorem implicit_grouping_accepted (cap : SparqlExpressionCapability E) (pre : String)
    (q : ParsedQuery E) (modifiers : SolutionModifiers E) (c0 : SelectClause E)
    (vars : List Variable) (aliases : List (Alias E))
    (hsel : q._clause = .select c0)
    (hvaa : c0.varsAndAliasesOrAsterisk_ = .VarsAndAliases vars aliases)
    (hgb : modifiers.groupByVariables_ = [])
    (h0 : q._groupByVariables = [])
    (hcon : ∃ a ∈ aliases, cap.containsAggregate a._expression = true) :
    (∃ q2, groupByStage cap pre q modifiers = .ok q2 ∧ q2._groupByVariables = [] ∧
        isExplicitGroupBy q2 = false ∧ isImplicitGroupBy cap q2 = true ∧
        isGroupBy cap q2 = true) ∧
      (modifiers.orderBy_.orderKeys = [] →
        (∀ v ∈ vars, ∃ a ∈ aliases, a._target = v) →
        (∀ a ∈ aliases, a._target ∉ c0.visibleVariables_) →
        (∀ a ∈ aliases, vars.count a._target ≤ 1) →
        (∀ a ∈ aliases, ∀ v ∈ cap.containedVariables a._expression,
          v ∈ c0.visibleVariables_) →
        (∀ a ∈ aliases, cap.isAggregate a._expression [] = true) →
        ∃ qf, addSolutionModifiers cap pre q modifiers = .ok qf ∧
          qf._groupByVariables = [] ∧
          qf._clause = q._clause ∧
          qf.getAliases = aliases ∧
          qf._rootGraphPattern = q._rootGraphPattern ∧
          rootChildren qf = rootChildren q) := by
  have hqv : q.getVisibleVariables = c0.visibleVariables_ := by
    simp only [ParsedQueryOver.getVisibleVariables, hsel]
  have hal0 : c0.getAliases = aliases := by simp only [SelectClause.getAliases, hvaa]
  have hsv0 : c0.getSelectedVariables = vars := by
    simp only [SelectClause.getSelectedVariables, hvaa]
  have hna : c0.isAsterisk = false := by simp only [SelectClause.isAsterisk, hvaa]
  have hq2 : groupByStage cap pre q modifiers =
      .ok { q with _havingClauses := modifiers.havingClauses_ } := by
    simp only [groupByStage, hgb, processGroupKeys]
  have hexp : isExplicitGroupBy { q with _havingClauses := modifiers.havingClauses_ } =
      false := by
    simp only [isExplicitGroupBy, h0, List.isEmpty_nil, Bool.not_true]
  have himp : isImplicitGroupBy cap { q with _havingClauses := modifiers.havingClauses_ } =
      true := by
    unfold isImplicitGroupBy
    rw [hexp]
    simp only [ParsedQueryOver.getAliases, hsel, hal0, Bool.not_false, Bool.and_true,
      List.any_eq_true]
    exact hcon
  have hgr : isGroupBy cap { q with _havingClauses := modifiers.havingClauses_ } = true := by
    unfold isGroupBy
    rw [himp, Bool.or_true]
  refine ⟨⟨_, hq2, h0, hexp, himp, hgr⟩, ?_⟩
  intro hord hall htv htc hcv hagg
  refine ⟨{ q with
    _havingClauses := modifiers.havingClauses_
    _isInternalSort := modifiers.orderBy_.isInternalSort
    _limitOffset := modifiers.limitOffset_ }, ?_, h0, rfl, ?_, rfl, rfl⟩
  · rw [addSolutionModifiers_eq_selectStage cap pre q _ _ modifiers c0 hq2
      (orderByStage_nil cap pre _ _ _ modifiers hord) hsel, hgr]
    apply selectStage_grouping_ok
    · intro a ha
      rw [hal0] at ha
      rw [hsv0]
      exact ⟨htv a ha, htc a ha⟩
    · intro a ha v hv
      rw [hal0] at ha
      exact hqv ▸ hcv a ha v hv
    · exact hna
    · intro v hv
      rw [hsv0] at hv
      rw [hal0]
      refine ⟨fun a hfa => ?_, fun hno => ?_⟩
      · show cap.isAggregate a._expression (q._groupByVariables.map Variable.toSparql) = true
        rw [h0]
        exact hagg a (find_alias_eq_some aliases v a hfa).1
      · obtain ⟨a, ha, hta⟩ := hall v hv
        exact absurd hta (hno a ha)
  · simp only [ParsedQueryOver.getAliases, hsel, hal0]

/-- C13, scenario B: `SELECT (COUNT(?y) AS ?c)` without GROUP BY is classified as implicit
grouping and resolves with an empty group-by list, the alias kept and no Bind node added. -/
theorem implicit_grouping_accepted_witness :
    (∃ q2, groupByStage sampleCapability samplePrefix selectCountY noModifiers = .ok q2 ∧
        isImplicitGroupBy sampleCapability q2 = true ∧ isGroupBy sampleCapability q2 = true) ∧
      ∃ qf, addSolutionModifiers sampleCapability samplePrefix selectCountY noModifiers =
          .ok qf ∧
        qf._groupByVariables = [] ∧
        qf.getAliases = [{ _expression := exprCountY, _target := varC }] ∧
        rootChildren qf = rootChildren selectCountY :=
  ⟨Exists.imp (fun _ h => ⟨h.1, h.2.2.2.1, h.2.2.2.2⟩)
      (implicit_grouping_accepted sampleCapability samplePrefix selectCountY noModifiers _
        [varC] [{ _expression := exprCountY, _target := varC }] rfl rfl rfl rfl
        ⟨_, List.Mem.head _, rfl⟩).1,
    Exists.imp (fun _ h => ⟨h.1, h.2.1, h.2.2.2.1, h.2.2.2.2.2⟩)
      ((implicit_grouping_accepted sampleCapability samplePrefix selectCountY noModifiers _
        [varC] [{ _expression := exprCountY, _target := varC }] rfl rfl rfl rfl
        ⟨_, List.Mem.head _, rfl⟩).2 rfl (by decide) (by decide) (by decide) (by decide)
        (by decide))⟩

/-- C15: for a SELECT query with grouping active that passes the GROUP BY and ORDER BY
stages and the alias-target check, at the first alias (in SELECT order) whose expression
contains a variable that is not visible: when every variable of the expression is
visible or the target of an earlier alias, `addSolutionModifiers` throws a
`NotSupportedException` whose message starts with (so contains) the message of the
variable-not-visible exception of that expression; when some variable of the expression
is neither visible nor the target of an earlier alias, it throws an
`InvalidQueryException`. -/
theorem grouped_alias_chaining (cap : SparqlExpressionCapability E) (pre : String)
    (q q2 q4 : ParsedQuery E) (modifiers : SolutionModifiers E) (c4 : SelectClause E)
    (earlier : List (Alias E)) (a : Alias E) (later : List (Alias E))
    (h2 : groupByStage cap pre q modifiers = .ok q2)
    (hg : isGroupBy cap q2 = true)
    (h4 : orderByStage cap pre (isGroupBy cap q2) (noteForImplicitGroupBy cap q2) q2
      modifiers = .ok q4)
    (hc4 : q4._clause = .select c4)
    (ht : checkAliasTargetsHaveNoOverlap c4 = .ok ())
    (hsplit : c4.getAliases = earlier ++ a :: later)
    (hearlier : ∀ b ∈ earlier, ∀ v ∈ cap.containedVariables b._expression,
      v ∈ q4.getVisibleVariables)
    (hinv : ∃ v ∈ cap.containedVariables a._expression, v ∉ q4.getVisibleVariables) :
    ((∀ v ∈ cap.containedVariables a._expression,
          v ∈ q4.getVisibleVariables ∨ v ∈ earlier.map (fun b => b._target)) →
        ∃ under msg,
          checkUsedVariablesAreVisible cap q4 a._expression "SELECT" [] =
            .error (.InvalidQueryException under) ∧
          addSolutionModifiers cap pre q modifiers =
            .error (.NotSupportedException msg, q4) ∧
          msg = under ++ noteForAliasChaining ++ noteForGroupByError cap q2 ∧
          under.data <:+: msg.data) ∧
      ((∃ v ∈ cap.containedVariables a._expression,
          v ∉ q4.getVisibleVariables ∧ v ∉ earlier.map (fun b => b._target)) →
        ∃ msg, addSolutionModifiers cap pre q modifiers =
          .error (.InvalidQueryException msg, q4)) := by
  have hasm := addSolutionModifiers_eq_selectStage cap pre q q2 q4 modifiers c4 h2 h4 hc4
  rw [hasm, hg]
  have hloop : checkAliasesLoop cap true (noteForGroupByError cap q2) q4 c4.getAliases [] =
      checkAliasesLoop cap true (noteForGroupByError cap q2) q4 (a :: later)
        ((earlier.map (fun b => b._target)).reverse ++ []) := by
    rw [hsplit]
    exact checkAliasesLoop_append_visible cap true _ q4 (a :: later) earlier [] hearlier
  have hmem : ∀ v, v ∈ (earlier.map (fun b => b._target)).reverse ++ [] ↔
      v ∈ earlier.map (fun b => b._target) := by
    intro v
    rw [List.append_nil, List.mem_reverse]
  obtain ⟨v0, -, -, hfirst, hns, hiq⟩ := checkAliasVariables_grouping_invisible cap
    (noteForGroupByError cap q2) q4 a ((earlier.map (fun b => b._target)).reverse ++ []) hinv
  constructor
  · intro hall
    have hstep := hns (fun v hv => by
      rcases hall v hv with h | h
      · exact Or.inl h
      · exact Or.inr ((hmem v).2 h))
    refine ⟨notVisibleInSelectMessage cap v0 a._expression, _, hfirst, ?_, rfl, ?_⟩
    · simp only [selectStage, ht, hloop, checkAliasesLoop, hstep]
    · exact ⟨[], (noteForAliasChaining ++ noteForGroupByError cap q2).data, by
        simp only [String.data_append, List.nil_append, List.append_assoc]⟩
  · intro hbad
    obtain ⟨msg, hstep⟩ := hiq (by
      obtain ⟨v, hv, hn1, hn2⟩ := hbad
      exact ⟨v, hv, hn1, fun h => hn2 ((hmem v).1 h)⟩)
    refine ⟨msg, ?_⟩
    simp only [selectStage, ht, hloop, checkAliasesLoop, hstep]

/-- C15 on two queries with implicit grouping: in `SELECT (COUNT(?y) AS ?c) (?c AS ?d)` the
second alias uses the target of the first, and the call throws a `NotSupportedException`;
in `SELECT (COUNT(?y) AS ?c) (?z AS ?d)` the variable `?z` is unknown, and the call throws
an `InvalidQueryException`. -/
theorem grouped_alias_chaining_witness :
    (∃ msg st, addSolutionModifiers sampleCapability samplePrefix selectCountThenChain
        noModifiers = .error (.NotSupportedException msg, st)) ∧
      (∃ msg st, addSolutionModifiers sampleCapability samplePrefix selectCountThenUnknown
        noModifiers = .error (.InvalidQueryException msg, st)) :=
  ⟨Exists.elim
      ((grouped_alias_chaining sampleCapability samplePrefix selectCountThenChain _ _
        noModifiers _ [{ _expression := exprCountY, _target := varC }]
        { _expression := exprC, _target := varD } [] rfl rfl rfl rfl rfl rfl
        (by decide) ⟨varC, by decide, by decide⟩).1 (by decide))
      (fun _ h => Exists.elim h (fun msg hm => ⟨msg, _, hm.2.1⟩)),
    Exists.elim
      ((grouped_alias_chaining sampleCapability samplePrefix selectCountThenUnknown _ _
        noModifiers _ [{ _expression := exprCountY, _target := varC }]
        { _expression := exprZ, _target := varD } [] rfl rfl rfl rfl rfl rfl
        (by decide) ⟨⟨"?z"⟩, by decide, by decide⟩).2 ⟨⟨"?z"⟩, by decide, by decide, by decide⟩)
      (fun msg hm => ⟨msg, _, hm⟩)⟩

/-- C16: for a SELECT query without grouping that passes the ORDER BY stage and the
alias-target check, the check of the variables used in the aliases passes, and
`addSolutionModifiers` succeeds, if and only if every alias uses only variables that are
visible or targets of aliases strictly earlier in the SELECT list; an alias that uses a
variable that is neither visible nor the target of an earlier alias makes the call throw
an `InvalidQueryException`, and with pairwise distinct alias targets this is the case for
a non-visible reference to the own target or to the target of a later alias. -/
theorem ungrouped_alias_chaining (cap : SparqlExpressionCapability E) (pre : String)
    (q q2 q4 : ParsedQuery E) (modifiers : SolutionModifiers E) (c4 : SelectClause E)
    (h2 : groupByStage cap pre q modifiers = .ok q2)
    (hng : isGroupBy cap q2 = false)
    (h4 : orderByStage cap pre (isGroupBy cap q2) (noteForImplicitGroupBy cap q2) q2
      modifiers = .ok q4)
    (hc4 : q4._clause = .select c4)
    (ht : checkAliasTargetsHaveNoOverlap c4 = .ok ()) :
    (checkAliasesLoop cap false (noteForGroupByError cap q2) q4 c4.getAliases [] = .ok () ↔
        AliasesUseEarlierTargets cap q4.getVisibleVariables c4.getAliases) ∧
      ((∃ qf, addSolutionModifiers cap pre q modifiers = .ok qf) ↔
        AliasesUseEarlierTargets cap q4.getVisibleVariables c4.getAliases) ∧
      (∀ earlier a later v, c4.getAliases = earlier ++ a :: later →
        v ∈ cap.containedVariables a._expression → v ∉ q4.getVisibleVariables →
        v ∉ earlier.map (fun b => b._target) →
        ∃ msg, addSolutionModifiers cap pre q modifiers =
          .error (.InvalidQueryException msg, q4)) ∧
      ((c4.getAliases.map (fun b => b._target)).Nodup →
        ∀ earlier a later v, c4.getAliases = earlier ++ a :: later →
          v ∈ cap.containedVariables a._expression → v ∉ q4.getVisibleVariables →
          (v = a._target ∨ v ∈ later.map (fun b => b._target)) →
          ∃ msg, addSolutionModifiers cap pre q modifiers =
            .error (.InvalidQueryException msg, q4)) := by
  have hasm := addSolutionModifiers_eq_selectStage cap pre q q2 q4 modifiers c4 h2 h4 hc4
  rw [hasm, hng]
  rcases checkAliasesLoop_nongrouping_cases cap (noteForGroupByError cap q2) q4
    c4.getAliases [] with ⟨hok, hall⟩ | ⟨⟨msg, herr⟩, earlier, a, later, hs, v, hv, hn1, hn2, -⟩
  · have hch : AliasesUseEarlierTargets cap q4.getVisibleVariables c4.getAliases := by
      intro earlier a later hs v hv
      rcases hall earlier a later hs v hv with h | h | h
      · exact Or.inl h
      · exact Or.inr h
      · exact absurd h (List.not_mem_nil _)
    have hres : selectStage cap false (noteForGroupByError cap q2) q4 c4 =
        .ok (deleteAliasesButKeepVariables (addAliasBinds c4.getAliases q4)) := by
      simp only [selectStage, ht, hok, Bool.false_eq_true, if_false]
    have hgen : ∀ earlier a later v, c4.getAliases = earlier ++ a :: later →
        v ∈ cap.containedVariables a._expression → v ∉ q4.getVisibleVariables →
        v ∉ earlier.map (fun b => b._target) →
        ∃ msg, selectStage cap false (noteForGroupByError cap q2) q4 c4 =
          .error (.InvalidQueryException msg, q4) := by
      intro earlier a later v hs hv hn1 hn2
      rcases hch earlier a later hs v hv with h | h
      · exact absurd h hn1
      · exact absurd h hn2
    refine ⟨⟨fun _ => hch, fun _ => hok⟩, ⟨fun _ => hch, fun _ => ⟨_, hres⟩⟩, hgen, ?_⟩
    intro hnd earlier a later v hs hv hn1 hown
    refine hgen earlier a later v hs hv hn1 ?_
    rw [hs, List.map_append, List.map_cons, List.nodup_append] at hnd
    intro hmem
    refine hnd.2.2 hmem ?_
    rcases hown with rfl | h
    · exact List.mem_cons_self _ _
    · exact List.mem_cons_of_mem _ h
  · have hnch : ¬ AliasesUseEarlierTargets cap q4.getVisibleVariables c4.getAliases := by
      intro hch
      rcases hch earlier a later hs v hv with h | h
      · exact hn1 h
      · exact hn2 h
    have hres : selectStage cap false (noteForGroupByError cap q2) q4 c4 =
        .error (.InvalidQueryException msg, q4) := by
      simp only [selectStage, ht, herr]
    refine ⟨⟨fun h => ?_, fun h => absurd h hnch⟩, ⟨fun h => ?_, fun h => absurd h hnch⟩,
      fun _ _ _ _ _ _ _ _ => ⟨msg, hres⟩, fun _ _ _ _ _ _ _ _ _ => ⟨msg, hres⟩⟩
    · rw [herr] at h
      cases h
    · obtain ⟨qf, hq⟩ := h
      rw [hres] at hq
      cases hq

/-- C16 on `?a` visible: `SELECT (?a AS ?b) (?b AS ?c)` succeeds, and the reverse order
`SELECT (?b AS ?c) (?a AS ?b)` throws an `InvalidQueryException`. -/
theorem ungrouped_alias_chaining_witness :
    (∃ qf, addSolutionModifiers sampleCapability samplePrefix selectChain noModifiers =
        .ok qf) ∧
      (∃ msg st, addSolutionModifiers sampleCapability samplePrefix selectChainReversed
        noModifiers = .error (.InvalidQueryException msg, st)) :=
  ⟨(ungrouped_alias_chaining sampleCapability samplePrefix selectChain _ _ noModifiers _
      rfl rfl rfl rfl rfl).2.1.2
      ((ungrouped_alias_chaining sampleCapability samplePrefix selectChain _ _ noModifiers _
        rfl rfl rfl rfl rfl).1.1 rfl),
    Exists.elim
      ((ungrouped_alias_chaining sampleCapability samplePrefix selectChainReversed _ _
        noModifiers _ rfl rfl rfl rfl rfl).2.2.1 []
        { _expression := exprB, _target := varC } [{ _expression := exprA, _target := varB }]
        varB rfl (by decide) (by decide) (by decide))
      (fun msg hm => ⟨msg, _, hm⟩)⟩

end ModifierClaims2

/-! ## Lemmas on internal variables -/

section InternalVariableLemmas

variable {E : Type}

/-- A decimal digit character denotes its digit. -/
theorem digitChar_value (d : Nat) (h : d < 10) : (Nat.digitChar d).toNat - 48 = d := by
  interval_cases d <;> rfl

/-- Reading back the digits that `toDigitsCore` puts in front of `ds` gives the number. -/
theorem decimalValue_toDigitsCore :
    ∀ (fuel n : Nat) (ds : List Char), n < fuel →
      decimalValue 0 (Nat.toDigitsCore 10 fuel n ds) = decimalValue n ds
  | 0, n, ds, h => absurd h (Nat.not_lt_zero n)
  | fuel + 1, n, ds, h => by
    have hd := digitChar_value (n % 10) (Nat.mod_lt n (by decide))
    by_cases h0 : n / 10 = 0
    · have hn : n % 10 = n := by omega
      simp only [Nat.toDigitsCore, h0, if_true, decimalValue, List.foldl_cons, hd,
        Nat.zero_mul, Nat.zero_add]
      rw [hn]
    · have hlt : n / 10 < fuel := by omega
      have ih := decimalValue_toDigitsCore fuel (n / 10) (Nat.digitChar (n % 10) :: ds) hlt
      simp only [Nat.toDigitsCore, h0, if_false]
      rw [ih]
      simp only [decimalValue, List.foldl_cons, hd]
      congr 1
      omega

/-- The decimal representation of a natural number denotes that number. -/
theorem decimalValue_toString (n : Nat) : decimalValue 0 (toString n).data = n := by
  show decimalValue 0 (Nat.toDigits 10 n).asString.data = n
  exact decimalValue_toDigitsCore (n + 1) n [] (Nat.lt_succ_self n)

/-- Different counters give different internal variables. -/
theorem internalVariable_injective (pre : String) (m n : Nat)
    (h : (⟨pre ++ toString m⟩ : Variable) = ⟨pre ++ toString n⟩) : m = n := by
  have h1 : pre ++ toString m = pre ++ toString n := by
    injection h
  have h2 := congrArg String.data h1
  rw [String.data_append, String.data_append] at h2
  have h3 := List.append_cancel_left h2
  rw [← decimalValue_toString m, ← decimalValue_toString n, h3]

/-- The counter after a run of calls, and the form of the variables of the run. -/
theorem addInternalBinds_spec (pre : String) :
    ∀ (es : List E) (q : ParsedQuery E),
      (addInternalBinds pre q es).2.numInternalVariables_ =
          q.numInternalVariables_ + es.length ∧
        ∀ v ∈ (addInternalBinds pre q es).1,
          ∃ i, q.numInternalVariables_ ≤ i ∧ v = ⟨pre ++ toString i⟩
  | [], q => ⟨rfl, fun _ h => absurd h (List.not_mem_nil _)⟩
  | e :: rest, q => by
    obtain ⟨h1, h2⟩ := addInternalBinds_spec pre rest (addInternalBind pre q e).2
    have hn : (addInternalBind pre q e).2.numInternalVariables_ =
        q.numInternalVariables_ + 1 := rfl
    refine ⟨?_, ?_⟩
    · simp only [addInternalBinds, h1, hn, List.length_cons]
      omega
    · intro v hv
      simp only [addInternalBinds, List.mem_cons] at hv
      rcases hv with hv | hv
      · exact ⟨q.numInternalVariables_, Nat.le_refl _, hv⟩
      · obtain ⟨i, hi, hvi⟩ := h2 v hv
        exact ⟨i, by omega, hvi⟩

/-- The variables of a run of calls are pairwise distinct. -/
theorem addInternalBinds_nodup (pre : String) :
    ∀ (es : List E) (q : ParsedQuery E), (addInternalBinds pre q es).1.Nodup
  | [], _ => List.nodup_nil
  | e :: rest, q => by
    simp only [addInternalBinds, List.nodup_cons]
    refine ⟨?_, addInternalBinds_nodup pre rest _⟩
    intro hmem
    obtain ⟨i, hi, hvi⟩ := (addInternalBinds_spec pre rest (addInternalBind pre q e).2).2 _ hmem
    have hn : (addInternalBind pre q e).2.numInternalVariables_ =
        q.numInternalVariables_ + 1 := rfl
    have hv : (addInternalBind pre q e).1 = ⟨pre ++ toString q.numInternalVariables_⟩ := rfl
    rw [hv] at hvi
    have := internalVariable_injective pre _ _ hvi
    omega

end InternalVariableLemmas

/-! ## Claims on internal variables -/

section InternalVariableClaims

variable {E : Type}

/-- C21 as stated fails: on `SELECT ?_qlever_internal_variable_0`, with that variable visible
and the counter at 0, `addInternalBind` returns exactly that user-written variable, which
is in the visible-variable sequence and among the selected variables. -/
theorem addInternalBind_collides_counterexample :
    (addInternalBind samplePrefix selectInternalName exprX).1 =
        ⟨"?_qlever_internal_variable_0"⟩ ∧
      (addInternalBind samplePrefix selectInternalName exprX).1 ∈
        selectInternalName.getVisibleVariables ∧
      (addInternalBind samplePrefix selectInternalName exprX).1 ∈
        selectInternalName.getConstructedOrSelectedVariables := by
  decide

/-- C21, amended: the variable returned by `addInternalBind` has the reserved prefix
followed by the decimal counter as its name, and the call increases the counter by one;
it differs from the variable returned by any call at a smaller counter, so the variables
of a run of calls on one query are pairwise distinct; and it differs from every visible
or selected variable whose name does not start with the reserved prefix. -/
theorem addInternalBind_fresh (pre : String) (q : ParsedQuery E) (e : E) :
    (addInternalBind pre q e).1 = ⟨pre ++ toString q.numInternalVariables_⟩ ∧
      (addInternalBind pre q e).2.numInternalVariables_ = q.numInternalVariables_ + 1 ∧
      (∀ (q0 : ParsedQuery E) (e0 : E), q0.numInternalVariables_ < q.numInternalVariables_ →
        (addInternalBind pre q0 e0).1 ≠ (addInternalBind pre q e).1) ∧
      (∀ es : List E, (addInternalBinds pre q es).1.Nodup ∧
        (addInternalBinds pre q es).2.numInternalVariables_ =
          q.numInternalVariables_ + es.length) ∧
      (∀ v, v ∈ q.getVisibleVariables ∨ v ∈ q.getConstructedOrSelectedVariables →
        ¬ pre.data <+: v.name.data → v ≠ (addInternalBind pre q e).1) := by
  refine ⟨rfl, rfl, ?_, ?_, ?_⟩
  · intro q0 e0 hlt heq
    have h := internalVariable_injective pre q0.numInternalVariables_
      q.numInternalVariables_ heq
    omega
  · intro es
    exact ⟨addInternalBinds_nodup pre es q, (addInternalBinds_spec pre es q).1⟩
  · intro v _ hpre heq
    apply hpre
    rw [heq]
    exact ⟨(toString q.numInternalVariables_).data, by
      show pre.data ++ _ = (pre ++ toString q.numInternalVariables_).data
      rw [String.data_append]⟩

/-- C21, amended, on `SELECT ?x`: the internal variable generated at counter 1 differs from
the one generated at counter 0, two consecutive calls return distinct variables, and the
variable differs from the visible variable `?x`. -/
theorem addInternalBind_fresh_witness :
    (addInternalBind samplePrefix selectX exprX).1 ≠
        (addInternalBind samplePrefix selectXOneInternal exprX).1 ∧
      (addInternalBinds samplePrefix selectX [exprX, exprY]).1.Nodup ∧
      varX ≠ (addInternalBind samplePrefix selectX exprX).1 :=
  ⟨(addInternalBind_fresh samplePrefix selectXOneInternal exprX).2.2.1 selectX exprX
      (by decide),
    ((addInternalBind_fresh samplePrefix selectX exprX).2.2.2.1 [exprX, exprY]).1,
    (addInternalBind_fresh samplePrefix selectX exprX).2.2.2.2 varX (Or.inl (by decide))
      (by decide)⟩

end InternalVariableClaims

/-! ## Lemmas on the language filter, continued -/

section LanguageFilterLemmas2

variable {E : Type}

/-- The replacement loop keeps the children that are no BasicGraphPattern. -/
theorem nonBasicChildren_map_replace (tag : String) (var : Variable) :
    ∀ (ops : List (GraphPatternOperation E)),
      nonBasicChildren (ops.map (replaceMatchingTriples tag var)) = nonBasicChildren ops
  | [] => rfl
  | op :: rest => by
    have ih := nonBasicChildren_map_replace tag var rest
    simp only [nonBasicChildren] at ih ⊢
    cases op <;>
      (simp only [List.map_cons, replaceMatchingTriples, List.filter_cons, ih]; try rfl)

/-- The fallback never throws: the triple ends up as the last triple of a last child
that is a BasicGraphPattern, and the children that are no BasicGraphPattern are kept. -/
theorem pushTripleToBack_fallback (ops : List (GraphPatternOperation E)) (t : SparqlTriple) :
    ∃ ops1, pushTripleToBack
        (if needsNewBasicGraphPattern ops then ops ++ [.BasicGraphPattern []] else ops) t =
          some ops1 ∧
      nonBasicChildren ops1 = nonBasicChildren ops ∧
      ∃ init ts, ops1 = init ++ [.BasicGraphPattern (ts ++ [t])] := by
  rcases List.eq_nil_or_concat ops with hnil | ⟨init, last, hcat⟩
  · subst hnil
    exact ⟨[.BasicGraphPattern [t]], rfl, rfl, [], [], rfl⟩
  · rw [List.concat_eq_append] at hcat
    subst hcat
    by_cases hb : last.holdsBasicGraphPattern = true
    · cases last with
      | BasicGraphPattern ts =>
        refine ⟨init ++ [.BasicGraphPattern (ts ++ [t])], ?_, ?_, init, ts, rfl⟩
        · simp only [needsNewBasicGraphPattern, List.getLast?_concat,
            GraphPatternOperation.holdsBasicGraphPattern, Bool.not_true, Bool.false_eq_true,
            if_false, pushTripleToBack, List.dropLast_concat]
        · simp only [nonBasicChildren, List.filter_append, List.filter_cons,
            GraphPatternOperation.holdsBasicGraphPattern, Bool.not_true, Bool.false_eq_true,
            if_false]
      | _ => simp [GraphPatternOperation.holdsBasicGraphPattern] at hb
    · have hb2 : last.holdsBasicGraphPattern = false := by
        simpa using hb
      refine ⟨(init ++ [last]) ++ [.BasicGraphPattern [t]], ?_, ?_, init ++ [last], [], rfl⟩
      · simp only [needsNewBasicGraphPattern, List.getLast?_concat, hb2, Bool.not_false,
          if_true, pushTripleToBack, List.dropLast_concat, List.nil_append]
      · simp only [nonBasicChildren, List.filter_append, List.filter_cons,
          GraphPatternOperation.holdsBasicGraphPattern, Bool.not_true, Bool.false_eq_true,
          if_false, List.filter_nil, List.append_nil]

end LanguageFilterLemmas2

/-! ## Claims on the language filter, continued -/

section LanguageFilterClaims2

variable {E : Type}

/-- C22: `addLanguageFilter` is local to one pattern level. Whenever the call returns, the
filter list, the identity and the optional flag of the pattern are unchanged and the
children that are no BasicGraphPattern are the same, in the same order. For a quoted
string of at least two characters the call returns; and when no triple of a directly
owned BasicGraphPattern is a target (whatever the nested patterns contain), the
synthetic triple is appended as the last triple of the last child. -/
theorem addLanguageFilter_local (LANGUAGE_PREDICATE : String)
    (convertLangtagToEntityUri : String → String) (g : GraphPattern E) (var : Variable)
    (languageInQuotes : String) :
    (∀ g1, g.addLanguageFilter LANGUAGE_PREDICATE convertLangtagToEntityUri var
          languageInQuotes = some g1 →
        g1._filters = g._filters ∧ g1._id = g._id ∧ g1._optional = g._optional ∧
          nonBasicChildren g1._graphPatterns = nonBasicChildren g._graphPatterns) ∧
      (2 ≤ languageInQuotes.length → languageInQuotes.length < 2 ^ 64 →
        ∃ g1, g.addLanguageFilter LANGUAGE_PREDICATE convertLangtagToEntityUri var
          languageInQuotes = some g1) ∧
      (2 ≤ languageInQuotes.length → languageInQuotes.length < 2 ^ 64 →
        (∀ ts, GraphPatternOperation.BasicGraphPattern ts ∈ g._graphPatterns →
          ∀ t ∈ ts, ¬ IsLanguageFilterTarget var t) →
        ∃ g1 init ts, g.addLanguageFilter LANGUAGE_PREDICATE convertLangtagToEntityUri var
            languageInQuotes = some g1 ∧
          g1._graphPatterns = init ++ [.BasicGraphPattern (ts ++
            [languageTriple LANGUAGE_PREDICATE convertLangtagToEntityUri var
              (langTagOf languageInQuotes)])]) := by
  cases g with
  | mk o i f ops =>
    have heval : ∀ tag,
        substr languageInQuotes 1 ((languageInQuotes.length + 2 ^ 64 - 2) % 2 ^ 64) =
          some tag →
        ∃ ops1, (GraphPattern.mk o i f ops).addLanguageFilter LANGUAGE_PREDICATE
              convertLangtagToEntityUri var languageInQuotes = some (.mk o i f ops1) ∧
          nonBasicChildren ops1 = nonBasicChildren ops ∧
          ((∀ ts, GraphPatternOperation.BasicGraphPattern ts ∈ ops →
              ∀ t ∈ ts, ¬ IsLanguageFilterTarget var t) →
            ∃ init ts, ops1 = init ++ [.BasicGraphPattern (ts ++
              [languageTriple LANGUAGE_PREDICATE convertLangtagToEntityUri var tag])]) := by
      intro tag hsub
      by_cases hm : (matchingTriples var ops).isEmpty = true
      · obtain ⟨ops1, hpush, hnb, init, ts, hform⟩ := pushTripleToBack_fallback
          (ops.map (replaceMatchingTriples tag var))
          (languageTriple LANGUAGE_PREDICATE convertLangtagToEntityUri var tag)
        refine ⟨ops1, ?_, hnb.trans (nonBasicChildren_map_replace tag var ops),
          fun _ => ⟨init, ts, hform⟩⟩
        simp only [languageTriple] at hpush
        simp only [GraphPattern.addLanguageFilter, hsub, GraphPattern._graphPatterns, hm,
          if_true, PropertyPath.fromIri, hpush, GraphPattern._optional, GraphPattern._id,
          GraphPattern._filters]
      · refine ⟨ops.map (replaceMatchingTriples tag var), ?_,
          nonBasicChildren_map_replace tag var ops, fun hnone => ?_⟩
        · simp only [GraphPattern.addLanguageFilter, hsub, GraphPattern._graphPatterns, hm,
            Bool.false_eq_true, if_false, GraphPattern._optional, GraphPattern._id,
            GraphPattern._filters]
        · exfalso
          apply hm
          have hemp : matchingTriples var ops = [] := by
            rw [List.eq_nil_iff_forall_not_mem]
            intro t ht
            obtain ⟨ts, hts, htm, htt⟩ := (mem_matchingTriples var t ops).1 ht
            exact hnone ts hts t htm htt
          rw [hemp]
          rfl
    refine ⟨?_, ?_, ?_⟩
    · intro g1 h1
      cases hsub : substr languageInQuotes 1
          ((languageInQuotes.length + 2 ^ 64 - 2) % 2 ^ 64) with
      | none =>
        simp only [GraphPattern.addLanguageFilter, hsub] at h1
        cases h1
      | some tag =>
        obtain ⟨ops1, hres, hnb, -⟩ := heval tag hsub
        rw [hres] at h1
        cases h1
        exact ⟨rfl, rfl, rfl, hnb⟩
    · intro hlen hmax
      obtain ⟨ops1, hres, -, -⟩ := heval _ (substr_langTag languageInQuotes hlen hmax)
      exact ⟨_, hres⟩
    · intro hlen hmax hnone
      obtain ⟨ops1, hres, -, hform⟩ := heval _ (substr_langTag languageInQuotes hlen hmax)
      obtain ⟨init, ts, hf⟩ := hform hnone
      exact ⟨_, init, ts, hres, hf⟩

/-- C22 on a pattern whose only children are an Optional, a Union, a Minus, a
GroupGraphPattern and a Subquery that each contain `?s rdfs:label ?label`: the filter for
`?label` with `"en"` rewrites none of the nested triples, keeps the filter and the
identity, and appends a new BasicGraphPattern with the synthetic triple. -/
theorem addLanguageFilter_local_witness :
    nestedLabelPattern.addLanguageFilter sampleLanguagePredicate
        sampleConvertLangtagToEntityUri varLabel "\"en\"" =
      some (.mk false 3 [{ expression_ := exprX }]
        (nestedLabelPattern._graphPatterns ++
          [.BasicGraphPattern
            [{ _s := .ofVariable varLabel,
               _p := { _operation := .IRI, _iri := sampleLanguagePredicate },
               _o := .ofTerm
                 "<http://qlever.cs.uni-freiburg.de/builtin-functions/langtag/en>" }]])) ∧
      (∀ g1, nestedLabelPattern.addLanguageFilter sampleLanguagePredicate
          sampleConvertLangtagToEntityUri varLabel "\"en\"" = some g1 →
        nonBasicChildren g1._graphPatterns = nestedLabelPattern._graphPatterns) ∧
      ∃ g1 init ts, nestedLabelPattern.addLanguageFilter sampleLanguagePredicate
          sampleConvertLangtagToEntityUri varLabel "\"en\"" = some g1 ∧
        g1._graphPatterns = init ++ [.BasicGraphPattern (ts ++
          [languageTriple sampleLanguagePredicate sampleConvertLangtagToEntityUri varLabel
            (langTagOf "\"en\"")])] :=
  ⟨rfl,
    fun g1 h1 =>
      ((addLanguageFilter_local sampleLanguagePredicate sampleConvertLangtagToEntityUri
        nestedLabelPattern varLabel "\"en\"").1 g1 h1).2.2.2,
    (addLanguageFilter_local sampleLanguagePredicate sampleConvertLangtagToEntityUri
      nestedLabelPattern varLabel "\"en\"").2.2 (by decide) (by decide)
      (by
        intro ts hts
        simp [nestedLabelPattern, GraphPattern._graphPatterns] at hts)⟩

end LanguageFilterClaims2

/-! ## Lemmas on the query state at a failure -/

section FailureStateLemmas

variable {E : Type}

/-- One GROUP BY entry that is accepted keeps the root children as a prefix. -/
theorem processGroupKey_rootChildren (cap : SparqlExpressionCapability E) (pre : String)
    (q q1 : ParsedQuery E) (k : GroupKey E) (h : processGroupKey cap pre q k = .ok q1) :
    rootChildren q <+: rootChildren q1 := by
  cases k with
  | ofVariable v =>
    simp only [processGroupKey, processVariable] at h
    split at h
    · cases h
    · cases h
      exact List.prefix_refl _
  | ofExpression e =>
    simp only [processGroupKey, processExpression] at h
    split at h
    · cases h
    · cases h
      exact ⟨[.Bind e (addInternalBind pre q e).1], rfl⟩
  | ofAlias a =>
    simp only [processGroupKey, processAlias] at h
    cases h
    refine ⟨[.Bind a._expression a._target], ?_⟩
    have hr := (registerVariableVisibleInQueryBody_frame
      (emplaceBackRoot q (.Bind a._expression a._target)) a._target).2.2.1
    simp only [rootChildren, hr]
    rfl

/-- One GROUP BY entry that is rejected leaves the query as it was. -/
theorem processGroupKey_error_state (cap : SparqlExpressionCapability E) (pre : String)
    (q st : ParsedQuery E) (k : GroupKey E) (e : QueryError)
    (h : processGroupKey cap pre q k = .error (e, st)) : st = q := by
  cases k with
  | ofVariable v =>
    simp only [processGroupKey, processVariable] at h
    split at h
    · cases h
      rfl
    · cases h
  | ofExpression x =>
    simp only [processGroupKey, processExpression] at h
    split at h
    · cases h
      rfl
    · cases h
  | ofAlias a =>
    simp only [processGroupKey, processAlias] at h
    cases h

/-- The GROUP BY loop, when it succeeds, keeps the root children as a prefix. -/
theorem processGroupKeys_rootChildren (cap : SparqlExpressionCapability E) (pre : String) :
    ∀ (keys : List (GroupKey E)) (q q1 : ParsedQuery E),
      processGroupKeys cap pre keys q = .ok q1 → rootChildren q <+: rootChildren q1
  | [], q, q1, h => by
    simp only [processGroupKeys] at h
    cases h
    exact List.prefix_refl _
  | k :: rest, q, q1, h => by
    simp only [processGroupKeys] at h
    split at h
    · cases h
    · next qm hk =>
      exact (processGroupKey_rootChildren cap pre q qm k hk).trans
        (processGroupKeys_rootChildren cap pre rest qm q1 h)

/-- The GROUP BY loop, when it fails, keeps the root children as a prefix. -/
theorem processGroupKeys_error_rootChildren (cap : SparqlExpressionCapability E)
    (pre : String) :
    ∀ (keys : List (GroupKey E)) (q st : ParsedQuery E) (e : QueryError),
      processGroupKeys cap pre keys q = .error (e, st) → rootChildren q <+: rootChildren st
  | [], q, st, e, h => by
    simp only [processGroupKeys] at h
    cases h
  | k :: rest, q, st, e, h => by
    simp only [processGroupKeys] at h
    split at h
    · next e1 hk =>
      cases h
      rw [processGroupKey_error_state cap pre q st k e hk]
    · next qm hk =>
      exact (processGroupKey_rootChildren cap pre q qm k hk).trans
        (processGroupKeys_error_rootChildren cap pre rest qm st e h)

/-- One ORDER BY key that is accepted keeps the root children as a prefix. -/
theorem processOrderKey_rootChildren (cap : SparqlExpressionCapability E) (pre : String)
    (grouping : Bool) (note : String) (q q1 : ParsedQuery E) (k : OrderKey E)
    (h : processOrderKey cap pre grouping note q k = .ok q1) :
    rootChildren q <+: rootChildren q1 := by
  cases k with
  | ofVariable k =>
    simp only [processOrderKey, processVariableOrderKey] at h
    split at h
    · split at h
      · cases h
      · cases h
        exact List.prefix_refl _
    · split at h
      · cases h
      · cases h
        exact List.prefix_refl _
  | ofExpression k =>
    simp only [processOrderKey, processExpressionOrderKey] at h
    split at h
    · cases h
    · split at h
      · cases h
      · cases h
        exact ⟨[.Bind k.expression_ (addInternalBind pre q k.expression_).1], rfl⟩

/-- One ORDER BY key that is rejected leaves the query as it was. -/
theorem processOrderKey_error_state (cap : SparqlExpressionCapability E) (pre : String)
    (grouping : Bool) (note : String) (q st : ParsedQuery E) (k : OrderKey E) (e : QueryError)
    (h : processOrderKey cap pre grouping note q k = .error (e, st)) : st = q := by
  cases k with
  | ofVariable k =>
    simp only [processOrderKey, processVariableOrderKey] at h
    split at h
    · split at h
      · cases h
        rfl
      · cases h
    · split at h
      · cases h
        rfl
      · cases h
  | ofExpression k =>
    simp only [processOrderKey, processExpressionOrderKey] at h
    split at h
    · cases h
      rfl
    · split at h
      · cases h
        rfl
      · cases h

/-- The ORDER BY loop, when it succeeds, keeps the root children as a prefix. -/
theorem processOrderKeys_rootChildren (cap : SparqlExpressionCapability E) (pre : String)
    (grouping : Bool) (note : String) :
    ∀ (keys : List (OrderKey E)) (q q1 : ParsedQuery E),
      processOrderKeys cap pre grouping note keys q = .ok q1 →
        rootChildren q <+: rootChildren q1
  | [], q, q1, h => by
    simp only [processOrderKeys] at h
    cases h
    exact List.prefix_refl _
  | k :: rest, q, q1, h => by
    simp only [processOrderKeys] at h
    split at h
    · cases h
    · next qm hk =>
      exact (processOrderKey_rootChildren cap pre grouping note q qm k hk).trans
        (processOrderKeys_rootChildren cap pre grouping note rest qm q1 h)

/-- The ORDER BY loop, when it fails, keeps the root children as a prefix. -/
theorem processOrderKeys_error_rootChildren (cap : SparqlExpressionCapability E)
    (pre : String) (grouping : Bool) (note : String) :
    ∀ (keys : List (OrderKey E)) (q st : ParsedQuery E) (e : QueryError),
      processOrderKeys cap pre grouping note keys q = .error (e, st) →
        rootChildren q <+: rootChildren st
  | [], q, st, e, h => by
    simp only [processOrderKeys] at h
    cases h
  | k :: rest, q, st, e, h => by
    simp only [processOrderKeys] at h
    split at h
    · next e1 hk =>
      cases h
      rw [processOrderKey_error_state cap pre grouping note q st k e hk]
    · next qm hk =>
      exact (processOrderKey_rootChildren cap pre grouping note q qm k hk).trans
        (processOrderKeys_error_rootChildren cap pre grouping note rest qm st e h)

/-- The clause stage, when it fails, leaves the query as it was. -/
theorem clauseStage_error_state (cap : SparqlExpressionCapability E) (grouping : Bool)
    (noteGroupBy : String) (q st : ParsedQuery E) (e : QueryError)
    (h : clauseStage cap grouping noteGroupBy q = .error (e, st)) : st = q := by
  simp only [clauseStage] at h
  split at h
  · simp only [selectStage] at h
    split at h
    · cases h
      rfl
    · split at h
      · cases h
        rfl
      · split at h
        · split at h
          · cases h
            rfl
          · cases h
        · cases h
  · simp only [constructStage] at h
    split at h
    · cases h
    · split at h
      · cases h
        rfl
      · cases h

/-- Whenever `addSolutionModifiers` fails, the root children before the call are a prefix
of the root children at the failure. -/
theorem addSolutionModifiers_error_rootChildren (cap : SparqlExpressionCapability E)
    (pre : String) (q st : ParsedQuery E) (modifiers : SolutionModifiers E) (e : QueryError)
    (h : addSolutionModifiers cap pre q modifiers = .error (e, st)) :
    rootChildren q <+: rootChildren st := by
  simp only [addSolutionModifiers] at h
  split at h
  · next e1 h1 =>
    cases h
    simp only [groupByStage] at h1
    split at h1
    · next e2 h2 =>
      cases h1
      exact processGroupKeys_error_rootChildren cap pre _ q st e h2
    · cases h1
  · next q2 h1 =>
    have p1 : rootChildren q <+: rootChildren q2 := by
      simp only [groupByStage] at h1
      split at h1
      · cases h1
      · next qm h2 =>
        cases h1
        exact processGroupKeys_rootChildren cap pre _ q qm h2
    split at h
    · next e1 h3 =>
      cases h
      simp only [orderByStage] at h3
      split at h3
      · next e2 h4 =>
        cases h3
        exact p1.trans (processOrderKeys_error_rootChildren cap pre _ _ _ q2 st e h4)
      · cases h3
    · next q4 h3 =>
      have p2 : rootChildren q2 <+: rootChildren q4 := by
        simp only [orderByStage] at h3
        split at h3
        · cases h3
        · next qm h4 =>
          cases h3
          exact processOrderKeys_rootChildren cap pre _ _ _ q2 qm h4
      rw [clauseStage_error_state cap _ _ q4 st e h]
      exact p1.trans p2

end FailureStateLemmas

/-! ## Claims on the query state at a failure -/

section FailureStateClaims

/-- C23: `addSolutionModifiers` is not atomic on failure. On `SELECT ?x` with
`GROUP BY (?x + ?y) ORDER BY ?y` the call fails with `InvalidQueryException` in the ORDER BY
stage, and the query at the failure differs from the query before the call: the Bind node
of the grouped expression has been appended to the root pattern, the internal variable
has been appended to the group-by list and the counter of internal variables has
advanced by one. And for every failing input the root children before the call are a
prefix of the root children at the failure. -/
theorem addSolutionModifiers_not_atomic :
    ((∃ msg, addSolutionModifiers sampleCapability samplePrefix selectX groupExprOrderY =
          .error (.InvalidQueryException msg, selectXGroupedByExpr)) ∧
        selectXGroupedByExpr ≠ selectX ∧
        rootChildren selectXGroupedByExpr =
          rootChildren selectX ++ [.Bind exprXPlusY ⟨"?_qlever_internal_variable_0"⟩] ∧
        selectXGroupedByExpr._groupByVariables =
          selectX._groupByVariables ++ [⟨"?_qlever_internal_variable_0"⟩] ∧
        selectXGroupedByExpr.numInternalVariables_ = selectX.numInternalVariables_ + 1) ∧
      ∀ (X : Type) (cap : SparqlExpressionCapability X) (pre : String)
        (q st : ParsedQuery X) (modifiers : SolutionModifiers X) (e : QueryError),
        addSolutionModifiers cap pre q modifiers = .error (e, st) →
          rootChildren q <+: rootChildren st :=
  ⟨⟨⟨_, rfl⟩,
      fun h => absurd (congrArg ParsedQueryOver.numInternalVariables_ h) (by decide),
      rfl, rfl, rfl⟩,
    fun _ cap pre q st modifiers e h =>
      addSolutionModifiers_error_rootChildren cap pre q st modifiers e h⟩

/-- C23 on `SELECT ?x` with `GROUP BY (?x + ?y) ORDER BY ?y`, which fails in the ORDER BY
stage: the root children before the call are a prefix of those at the failure. -/
theorem addSolutionModifiers_not_atomic_witness :
    ∃ e st, addSolutionModifiers sampleCapability samplePrefix selectX groupExprOrderY =
        .error (e, st) ∧ rootChildren selectX <+: rootChildren st :=
  ⟨_, selectXGroupedByExpr, rfl,
    addSolutionModifiers_not_atomic.2 SampleExpression sampleCapability samplePrefix selectX
      selectXGroupedByExpr groupExprOrderY _ rfl⟩

end FailureStateClaims

/-! ## Lemmas on ORDER BY without grouping -/

section UngroupedOrderByLemmas

variable {E : Type}

/-- Without GROUP BY entries Stages 1 and 2 only take over the HAVING clauses. -/
theorem groupByStage_nil (cap : SparqlExpressionCapability E) (pre : String)
    (q : ParsedQuery E) (modifiers : SolutionModifiers E)
    (hgb : modifiers.groupByVariables_ = []) :
    groupByStage cap pre q modifiers =
      .ok { q with _havingClauses := modifiers.havingClauses_ } := by
  simp only [groupByStage, hgb, processGroupKeys]

/-- A SELECT query with an empty group-by list and no aggregate in an alias is not
grouped, and the note on implicit grouping is empty. -/
theorem isGroupBy_eq_false (cap : SparqlExpressionCapability E) (q : ParsedQuery E)
    (c0 : SelectClause E) (hav : List (SparqlFilter E))
    (hsel : q._clause = .select c0) (h0 : q._groupByVariables = [])
    (hagg : ∀ a ∈ c0.getAliases, cap.containsAggregate a._expression = false) :
    isGroupBy cap { q with _havingClauses := hav } = false ∧
      noteForImplicitGroupBy cap { q with _havingClauses := hav } = "" := by
  have himp : isImplicitGroupBy cap { q with _havingClauses := hav } = false := by
    simp only [isImplicitGroupBy, ParsedQueryOver.getAliases, hsel, Bool.and_eq_false_iff]
    exact Or.inl (List.any_eq_false.2 (fun a ha => by simp [hagg a ha]))
  constructor
  · unfold isGroupBy
    rw [himp]
    simp only [isExplicitGroupBy, h0, List.isEmpty_nil, Bool.not_true, Bool.or_self]
  · simp only [noteForImplicitGroupBy, himp, Bool.false_eq_true, if_false]

/-- The visible variables are those of the clause. -/
theorem getVisibleVariables_congr (q q1 : ParsedQuery E) (h : q1._clause = q._clause) :
    q1.getVisibleVariables = q.getVisibleVariables := by
  unfold ParsedQueryOver.getVisibleVariables
  rw [h]

/-- Without grouping, an ORDER BY key is only ever rejected with `InvalidQueryException`. -/
theorem processOrderKey_nongrouping_error (cap : SparqlExpressionCapability E) (pre : String)
    (note : String) (q st : ParsedQuery E) (k : OrderKey E) (e : QueryError)
    (h : processOrderKey cap pre false note q k = .error (e, st)) :
    ∃ msg, e = .InvalidQueryException msg := by
  cases k with
  | ofVariable k =>
    by_cases hv : k.variable_ ∈ q.getVisibleVariables
    · simp only [processOrderKey, processVariableOrderKey, Bool.not_false, if_true,
        checkVariableIsVisible_ok q k.variable_ "ORDER BY" [] (Or.inl hv)] at h
      cases h
    · simp only [processOrderKey, processVariableOrderKey, Bool.not_false, if_true,
        checkVariableIsVisible_error q k.variable_ "ORDER BY" [] hv (List.not_mem_nil _)] at h
      cases h
      exact ⟨_, rfl⟩
  | ofExpression k =>
    rcases checkVariablesAreVisible_cases q
      ("ORDER BY" ++ " in expression \"" ++ cap.getDescriptor k.expression_ ++ "\"") []
      (cap.containedVariables k.expression_) with ⟨hok, -⟩ | ⟨msg, herr, -⟩
    · simp only [processOrderKey, processExpressionOrderKey, checkUsedVariablesAreVisible, hok,
        Bool.false_eq_true, if_false] at h
      cases h
    · simp only [processOrderKey, processExpressionOrderKey, checkUsedVariablesAreVisible,
        herr] at h
      cases h
      exact ⟨_, rfl⟩

/-- Without grouping, a bare-variable ORDER BY key is only accepted when the variable is
visible. -/
theorem processOrderKey_nongrouping_visible (cap : SparqlExpressionCapability E)
    (pre : String) (note : String) (q q1 : ParsedQuery E) (k : VariableOrderKey)
    (h : processOrderKey cap pre false note q (.ofVariable k) = .ok q1) :
    k.variable_ ∈ q.getVisibleVariables := by
  by_contra hv
  simp only [processOrderKey, processVariableOrderKey, Bool.not_false, if_true,
    checkVariableIsVisible_error q k.variable_ "ORDER BY" [] hv (List.not_mem_nil _)] at h
  cases h

/-- Without grouping, the ORDER BY loop only ever fails with `InvalidQueryException`. -/
theorem processOrderKeys_nongrouping_error (cap : SparqlExpressionCapability E)
    (pre : String) (note : String) :
    ∀ (keys : List (OrderKey E)) (q st : ParsedQuery E) (e : QueryError),
      processOrderKeys cap pre false note keys q = .error (e, st) →
        ∃ msg, e = .InvalidQueryException msg
  | [], q, st, e, h => by
    simp only [processOrderKeys] at h
    cases h
  | k :: rest, q, st, e, h => by
    simp only [processOrderKeys] at h
    split at h
    · next e1 hk =>
      cases h
      exact processOrderKey_nongrouping_error cap pre note q st k e hk
    · next qm hk =>
      exact processOrderKeys_nongrouping_error cap pre note rest qm st e h

/-- Without grouping, the ORDER BY loop only succeeds when the variable of every
bare-variable key is visible. -/
theorem processOrderKeys_nongrouping_visible (cap : SparqlExpressionCapability E)
    (pre : String) (note : String) :
    ∀ (keys : List (OrderKey E)) (q q1 : ParsedQuery E),
      processOrderKeys cap pre false note keys q = .ok q1 →
        ∀ k, OrderKey.ofVariable k ∈ keys → k.variable_ ∈ q.getVisibleVariables
  | [], q, q1, _, k, hk => absurd hk (List.not_mem_nil _)
  | key :: rest, q, q1, h, k, hk => by
    simp only [processOrderKeys] at h
    split at h
    · cases h
    · next qm hkey =>
      rcases List.mem_cons.1 hk with heq | hmem
      · subst heq
        exact processOrderKey_nongrouping_visible cap pre note q qm k hkey
      · have hv := processOrderKeys_nongrouping_visible cap pre note rest qm q1 h k hmem
        rw [getVisibleVariables_congr q qm
          (processOrderKey_frame cap pre false note q qm key hkey).1] at hv
        exact hv

/-- When the GROUP BY stage succeeds and the ORDER BY stage fails, that failure is the
outcome of `addSolutionModifiers`. -/
theorem addSolutionModifiers_eq_orderByStage_error (cap : SparqlExpressionCapability E)
    (pre : String) (q q2 : ParsedQuery E) (modifiers : SolutionModifiers E)
    (x : QueryError × ParsedQuery E)
    (h2 : groupByStage cap pre q modifiers = .ok q2)
    (h4 : orderByStage cap pre (isGroupBy cap q2) (noteForImplicitGroupBy cap q2) q2
      modifiers = .error x) :
    addSolutionModifiers cap pre q modifiers = .error x := by
  simp only [addSolutionModifiers, h2, h4]

end UngroupedOrderByLemmas

/-! ## Claims on ORDER BY without grouping -/

section UngroupedOrderByClaims

variable {E : Type}

/-- C24: for a SELECT query without grouping (no GROUP BY entry, an empty group-by list,
no alias expression that contains an aggregate) whose ORDER BY contains a bare-variable
key on the target of one of the SELECT aliases, `addSolutionModifiers` never succeeds and
throws an `InvalidQueryException`. If the target is not visible in the query body, the
ORDER BY stage throws it (the aliases are bound only afterwards). If the target is
visible, the alias-target overlap check throws it on the SELECT clause, and this is the
outcome of the call whenever the ORDER BY stage lets the query through. -/
theorem orderBy_alias_target_rejected (cap : SparqlExpressionCapability E) (pre : String)
    (q : ParsedQuery E) (modifiers : SolutionModifiers E) (c0 : SelectClause E)
    (k : VariableOrderKey)
    (hsel : q._clause = .select c0)
    (hgb : modifiers.groupByVariables_ = [])
    (h0 : q._groupByVariables = [])
    (hagg : ∀ a ∈ c0.getAliases, cap.containsAggregate a._expression = false)
    (hkey : OrderKey.ofVariable k ∈ modifiers.orderBy_.orderKeys)
    (hal : ∃ a ∈ c0.getAliases, a._target = k.variable_) :
    (∀ qf, addSolutionModifiers cap pre q modifiers ≠ .ok qf) ∧
      (∃ msg st, addSolutionModifiers cap pre q modifiers =
        .error (.InvalidQueryException msg, st)) ∧
      (k.variable_ ∉ c0.visibleVariables_ →
        ∃ msg st, orderByStage cap pre false ""
            { q with _havingClauses := modifiers.havingClauses_ } modifiers =
              .error (.InvalidQueryException msg, st) ∧
          addSolutionModifiers cap pre q modifiers =
            .error (.InvalidQueryException msg, st)) ∧
      (k.variable_ ∈ c0.visibleVariables_ →
        ∃ msg, checkAliasTargetsHaveNoOverlap c0 = .error (.InvalidQueryException msg) ∧
          ∀ q4, orderByStage cap pre false ""
              { q with _havingClauses := modifiers.havingClauses_ } modifiers = .ok q4 →
            addSolutionModifiers cap pre q modifiers =
              .error (.InvalidQueryException msg, q4)) := by
  have hg2 := groupByStage_nil cap pre q modifiers hgb
  obtain ⟨hng, hnote⟩ := isGroupBy_eq_false cap q c0 modifiers.havingClauses_ hsel h0 hagg
  generalize hq2 : ({ q with _havingClauses := modifiers.havingClauses_ } : ParsedQuery E) = q2
    at hg2 hng hnote ⊢
  have hc2 : q2._clause = .select c0 := by
    rw [← hq2]
    exact hsel
  have hvis : q2.getVisibleVariables = c0.visibleVariables_ := by
    simp only [ParsedQueryOver.getVisibleVariables, hc2]
  have hover : k.variable_ ∈ c0.visibleVariables_ →
      ∃ msg, checkAliasTargetsHaveNoOverlap c0 = .error (.InvalidQueryException msg) := by
    intro hv
    obtain ⟨a, ha, hat⟩ := hal
    obtain ⟨b, -, hres | hres⟩ := checkAliasTargetsLoop_error c0 c0.getAliases
      ⟨a, ha, Or.inl (hat ▸ hv)⟩
    · exact ⟨_, hres.2⟩
    · exact ⟨_, hres.2⟩
  have hstage : (∃ msg st, orderByStage cap pre false "" q2 modifiers =
        .error (.InvalidQueryException msg, st)) ∨
      ∃ q4, orderByStage cap pre false "" q2 modifiers = .ok q4 ∧
        q4._clause = .select c0 ∧ k.variable_ ∈ c0.visibleVariables_ := by
    cases hob : processOrderKeys cap pre false "" modifiers.orderBy_.orderKeys q2 with
    | error x =>
      obtain ⟨e, st⟩ := x
      obtain ⟨msg, rfl⟩ := processOrderKeys_nongrouping_error cap pre "" _ q2 st e hob
      exact Or.inl ⟨msg, st, by simp only [orderByStage, hob]⟩
    | ok qm =>
      refine Or.inr ⟨{ qm with
        _isInternalSort := modifiers.orderBy_.isInternalSort
        _limitOffset := modifiers.limitOffset_ }, by simp only [orderByStage, hob], ?_, ?_⟩
      · exact (processOrderKeys_frame cap pre false "" _ q2 qm hob).1.trans hc2
      · rw [← hvis]
        exact processOrderKeys_nongrouping_visible cap pre "" _ q2 qm hob k hkey
  rcases hstage with ⟨msg, st, herr⟩ | ⟨q4, hok, hc4, hv⟩
  · have hasm : addSolutionModifiers cap pre q modifiers =
        .error (.InvalidQueryException msg, st) := by
      apply addSolutionModifiers_eq_orderByStage_error cap pre q q2 modifiers _ hg2
      rw [hng, hnote]
      exact herr
    refine ⟨fun qf h => ?_, ⟨msg, st, hasm⟩, fun _ => ⟨msg, st, herr, hasm⟩, fun hv => ?_⟩
    · rw [hasm] at h
      cases h
    · obtain ⟨m2, hm2⟩ := hover hv
      refine ⟨m2, hm2, fun q4 h4 => ?_⟩
      rw [herr] at h4
      cases h4
  · obtain ⟨m2, hm2⟩ := hover hv
    have hasm : addSolutionModifiers cap pre q modifiers =
        .error (.InvalidQueryException m2, q4) := by
      rw [addSolutionModifiers_eq_selectStage cap pre q q2 q4 modifiers c0 hg2
        (by rw [hng, hnote]; exact hok) hc4]
      simp only [selectStage, hm2]
    refine ⟨fun qf h => ?_, ⟨m2, q4, hasm⟩, fun hnv => absurd hv hnv,
      fun _ => ⟨m2, hm2, fun q5 h5 => ?_⟩⟩
    · rw [hasm] at h
      cases h
    · rw [hok] at h5
      cases h5
      exact hasm

/-- C24 on `SELECT ?x (?x AS ?y) ORDER BY ?y` with only `?x` visible, which the ORDER BY stage
rejects, and on `SELECT (?x AS ?x) ORDER BY ?x` with `?x` visible, which the alias-target
check rejects after the ORDER BY stage has passed. -/
theorem orderBy_alias_target_rejected_witness :
    (∃ msg st, orderByStage sampleCapability samplePrefix false ""
        { selectXAsY with _havingClauses := orderY.havingClauses_ } orderY =
          .error (.InvalidQueryException msg, st) ∧
        addSolutionModifiers sampleCapability samplePrefix selectXAsY orderY =
          .error (.InvalidQueryException msg, st)) ∧
      (∃ msg, checkAliasTargetsHaveNoOverlap
          { varsAndAliasesOrAsterisk_ :=
              .VarsAndAliases [varX] [{ _expression := exprX, _target := varX }],
            distinct_ := false, reduced_ := false, visibleVariables_ := [varX] } =
            .error (.InvalidQueryException msg) ∧
        ∃ q4, addSolutionModifiers sampleCapability samplePrefix selectXAsX orderX =
          .error (.InvalidQueryException msg, q4)) :=
  ⟨(orderBy_alias_target_rejected sampleCapability samplePrefix selectXAsY orderY _
      { variable_ := varY, isDescending_ := false } rfl rfl rfl (by decide)
      (List.Mem.head _) ⟨_, List.Mem.head _, rfl⟩).2.2.1 (by decide),
    Exists.imp (fun _ h => ⟨h.1, _, h.2 _ rfl⟩)
      ((orderBy_alias_target_rejected sampleCapability samplePrefix selectXAsX orderX _
        { variable_ := varX, isDescending_ := false } rfl rfl rfl (by decide)
        (List.Mem.head _) ⟨_, List.Mem.head _, rfl⟩).2.2.2 (by decide))⟩

end UngroupedOrderByClaims

/-! ## Lemmas on the ORDER BY stage as a whole -/

section OrderByStageLemmas

variable {E : Type}

/-- The visitor on a bare-variable key under grouping: it throws when the variable is
neither grouped nor the target of an alias of a SELECT clause, and appends the key as it
is otherwise. -/
theorem processOrderKey_variable_grouping (cap : SparqlExpressionCapability E) (pre : String)
    (note : String) (q : ParsedQuery E) (k : VariableOrderKey) :
    ((k.variable_ ∉ q._groupByVariables ∧
          (q.hasConstructClause = true ∨ ∀ a ∈ q.getAliases, a._target ≠ k.variable_)) →
        processOrderKey cap pre true note q (.ofVariable k) =
          .error (.InvalidQueryException ("Variable " ++ k.variable_.name ++
            " was used in an ORDER BY clause, but is neither grouped, nor created as an alias in the SELECT clause." ++
            note), q)) ∧
      (¬ (k.variable_ ∉ q._groupByVariables ∧
          (q.hasConstructClause = true ∨ ∀ a ∈ q.getAliases, a._target ≠ k.variable_)) →
        processOrderKey cap pre true note q (.ofVariable k) =
          .ok { q with _orderBy := q._orderBy ++ [k] }) := by
  have hiff := orderKey_rejection_iff q k.variable_
  constructor
  · intro hc
    have hb := hiff.2 hc
    simp only [processOrderKey, processVariableOrderKey, Bool.not_true, Bool.false_eq_true,
      if_false, hb, if_true]
  · intro hc
    have hb : ¬ ((!ad_utility.contains q._groupByVariables k.variable_) &&
        (match q._clause with
          | .construct _ => true
          | .select c => !ad_utility.contains_if c.getAliases
              (fun a => decide (a._target = k.variable_)))) = true := fun h => hc (hiff.1 h)
    simp only [processOrderKey, processVariableOrderKey, Bool.not_true, Bool.false_eq_true,
      if_false, hb]

/-- The visitor on an expression key without grouping, when the contained variables are
all visible: a Bind node on a fresh internal variable, a key on that variable, the
counter plus one. -/
theorem processOrderKey_expression_nongrouping (cap : SparqlExpressionCapability E)
    (pre : String) (note : String) (q : ParsedQuery E) (k : ExpressionOrderKey E)
    (hv : ∀ v ∈ cap.containedVariables k.expression_, v ∈ q.getVisibleVariables) :
    ∃ q1, processOrderKey cap pre false note q (.ofExpression k) = .ok q1 ∧
      rootChildren q1 = rootChildren q ++
        [.Bind k.expression_ ⟨pre ++ toString q.numInternalVariables_⟩] ∧
      q1._orderBy = q._orderBy ++
        [{ variable_ := ⟨pre ++ toString q.numInternalVariables_⟩,
           isDescending_ := k.isDescending_ }] ∧
      q1.numInternalVariables_ = q.numInternalVariables_ + 1 ∧
      q1.getVisibleVariables = q.getVisibleVariables ∧
      q1._clause = q._clause ∧
      q1._groupByVariables = q._groupByVariables := by
  have hc := checkVariablesAreVisible_ok q
    ("ORDER BY" ++ " in expression \"" ++ cap.getDescriptor k.expression_ ++ "\"") []
    (cap.containedVariables k.expression_) (fun v h => Or.inl (hv v h))
  refine ⟨{ (addInternalBind pre q k.expression_).2 with
    _orderBy := (addInternalBind pre q k.expression_).2._orderBy ++
      [⟨(addInternalBind pre q k.expression_).1, k.isDescending_⟩] }, ?_, ?_⟩
  · simp only [processOrderKey, processExpressionOrderKey, checkUsedVariablesAreVisible, hc,
      Bool.false_eq_true, if_false]
  · exact ⟨rfl, rfl, rfl, rfl, rfl, rfl⟩

/-- The ORDER BY loop on a list of keys whose first part is accepted continues with the
rest on the query that the first part left. -/
theorem processOrderKeys_append_ok (cap : SparqlExpressionCapability E) (pre : String)
    (grouping : Bool) (note : String) (ys : List (OrderKey E)) :
    ∀ (xs : List (OrderKey E)) (q qm : ParsedQuery E),
      processOrderKeys cap pre grouping note xs q = .ok qm →
        processOrderKeys cap pre grouping note (xs ++ ys) q =
          processOrderKeys cap pre grouping note ys qm
  | [], q, qm, h => by
    simp only [processOrderKeys] at h
    cases h
    rfl
  | x :: rest, q, qm, h => by
    simp only [processOrderKeys] at h
    split at h
    · cases h
    · next q1 hk =>
      simp only [List.cons_append, processOrderKeys, hk]
      exact processOrderKeys_append_ok cap pre grouping note ys rest q1 qm h

/-- One accepted ORDER BY key keeps the resolved ORDER BY list as a prefix and does not
lower the counter of internal variables. -/
theorem processOrderKey_orderBy_counter (cap : SparqlExpressionCapability E) (pre : String)
    (grouping : Bool) (note : String) (q q1 : ParsedQuery E) (k : OrderKey E)
    (h : processOrderKey cap pre grouping note q k = .ok q1) :
    q._orderBy <+: q1._orderBy ∧ q.numInternalVariables_ ≤ q1.numInternalVariables_ := by
  cases k with
  | ofVariable k =>
    simp only [processOrderKey, processVariableOrderKey] at h
    split at h
    · split at h
      · cases h
      · cases h
        exact ⟨List.prefix_append _ _, Nat.le_refl _⟩
    · split at h
      · cases h
      · cases h
        exact ⟨List.prefix_append _ _, Nat.le_refl _⟩
  | ofExpression k =>
    simp only [processOrderKey, processExpressionOrderKey] at h
    split at h
    · cases h
    · split at h
      · cases h
      · cases h
        exact ⟨List.prefix_append q._orderBy _, Nat.le_succ _⟩

/-- The ORDER BY loop, when it succeeds, keeps the resolved ORDER BY list as a prefix and
does not lower the counter of internal variables. -/
theorem processOrderKeys_orderBy_counter (cap : SparqlExpressionCapability E) (pre : String)
    (grouping : Bool) (note : String) :
    ∀ (keys : List (OrderKey E)) (q q1 : ParsedQuery E),
      processOrderKeys cap pre grouping note keys q = .ok q1 →
        q._orderBy <+: q1._orderBy ∧ q.numInternalVariables_ ≤ q1.numInternalVariables_
  | [], q, q1, h => by
    simp only [processOrderKeys] at h
    cases h
    exact ⟨List.prefix_refl _, Nat.le_refl _⟩
  | k :: rest, q, q1, h => by
    simp only [processOrderKeys] at h
    split at h
    · cases h
    · next qm hk =>
      have h1 := processOrderKey_orderBy_counter cap pre grouping note q qm k hk
      have h2 := processOrderKeys_orderBy_counter cap pre grouping note rest qm q1 h
      exact ⟨h1.1.trans h2.1, Nat.le_trans h1.2 h2.2⟩

/-- The ORDER BY stage, when it succeeds, is the loop followed by an update of the sort
flag and the limits. -/
theorem orderByStage_ok_inv (cap : SparqlExpressionCapability E) (pre : String)
    (grouping : Bool) (note : String) (q q4 : ParsedQuery E) (modifiers : SolutionModifiers E)
    (h : orderByStage cap pre grouping note q modifiers = .ok q4) :
    ∃ qe, processOrderKeys cap pre grouping note modifiers.orderBy_.orderKeys q = .ok qe ∧
      rootChildren q4 = rootChildren qe ∧ q4._orderBy = qe._orderBy ∧
      q4.numInternalVariables_ = qe.numInternalVariables_ ∧ q4._clause = qe._clause := by
  simp only [orderByStage] at h
  split at h
  · cases h
  · next qe hk =>
    cases h
    exact ⟨qe, hk, rfl, rfl, rfl, rfl⟩

/-- `addBind` leaves the resolved ORDER BY list and the counter as they are. -/
theorem addBind_frame (q : ParsedQuery E) (e : E) (t : Variable) (b : Bool) :
    (addBind q e t b)._orderBy = q._orderBy ∧
      (addBind q e t b).numInternalVariables_ = q.numInternalVariables_ := by
  cases b
  · exact ⟨rfl, rfl⟩
  · exact ⟨(registerVariableVisibleInQueryBody_frame q t).2.2.2.2.1,
      (registerVariableVisibleInQueryBody_frame q t).2.2.2.2.2⟩

/-- Compiling the aliases leaves the resolved ORDER BY list and the counter as they are. -/
theorem addAliasBinds_frame :
    ∀ (aliases : List (Alias E)) (q : ParsedQuery E),
      (addAliasBinds aliases q)._orderBy = q._orderBy ∧
        (addAliasBinds aliases q).numInternalVariables_ = q.numInternalVariables_
  | [], _ => ⟨rfl, rfl⟩
  | a :: rest, q => by
    have h1 := addBind_frame q a._expression a._target true
    have h2 := addAliasBinds_frame rest (addBind q a._expression a._target true)
    simp only [addAliasBinds]
    exact ⟨h2.1.trans h1.1, h2.2.trans h1.2⟩

/-- Deleting the aliases leaves the resolved ORDER BY list and the counter as they are. -/
theorem deleteAliasesButKeepVariables_frame (q : ParsedQuery E) :
    (deleteAliasesButKeepVariables q)._orderBy = q._orderBy ∧
      (deleteAliasesButKeepVariables q).numInternalVariables_ = q.numInternalVariables_ := by
  obtain ⟨root, hav, n, ni, ob, iis, lo, gb, cl⟩ := q
  cases cl <;> exact ⟨rfl, rfl⟩

/-- The clause stage, when it succeeds, leaves the resolved ORDER BY list and the counter
as they are and keeps the root children as a prefix. -/
theorem clauseStage_ok_frame (cap : SparqlExpressionCapability E) (grouping : Bool)
    (noteGroupBy : String) (q4 qf : ParsedQuery E)
    (h : clauseStage cap grouping noteGroupBy q4 = .ok qf) :
    qf._orderBy = q4._orderBy ∧ qf.numInternalVariables_ = q4.numInternalVariables_ ∧
      rootChildren q4 <+: rootChildren qf := by
  simp only [clauseStage] at h
  split at h
  · next c hc =>
    simp only [selectStage] at h
    split at h
    · cases h
    · split at h
      · cases h
      · split at h
        · split at h
          · cases h
          · cases h
            exact ⟨rfl, rfl, List.prefix_refl _⟩
        · cases h
          have h1 := addAliasBinds_frame c.getAliases q4
          have h2 := deleteAliasesButKeepVariables_frame (addAliasBinds c.getAliases q4)
          refine ⟨h2.1.trans h1.1, h2.2.trans h1.2, ?_⟩
          rw [rootChildren_deleteAliasesButKeepVariables, rootChildren_addAliasBinds]
          exact List.prefix_append _ _
  · simp only [constructStage] at h
    split at h
    · cases h
      exact ⟨rfl, rfl, List.prefix_refl _⟩
    · split at h
      · cases h
      · cases h
        exact ⟨rfl, rfl, List.prefix_refl _⟩

/-- When `addSolutionModifiers` succeeds, the ORDER BY stage has succeeded on the query
that the GROUP BY stage left, and the clause stage on the query that the ORDER BY stage
left. -/
theorem addSolutionModifiers_ok_inv (cap : SparqlExpressionCapability E) (pre : String)
    (q q2 qf : ParsedQuery E) (modifiers : SolutionModifiers E)
    (h2 : groupByStage cap pre q modifiers = .ok q2)
    (h : addSolutionModifiers cap pre q modifiers = .ok qf) :
    ∃ q4, orderByStage cap pre (isGroupBy cap q2) (noteForImplicitGroupBy cap q2) q2
        modifiers = .ok q4 ∧
      clauseStage cap (isGroupBy cap q2) (noteForGroupByError cap q2) q4 = .ok qf := by
  simp only [addSolutionModifiers, h2] at h
  split at h
  · cases h
  · next q4 h4 => exact ⟨q4, h4, h⟩

end OrderByStageLemmas

/-! ## Claims on the ORDER BY stage -/

section OrderByStageClaims

variable {E : Type}

/-- C14: let the GROUP BY stage of `addSolutionModifiers` succeed with grouping active, and
let the ORDER BY loop reach a bare-variable key, the keys before it being accepted. The
loop throws at this key, with an `InvalidQueryException`, if and only if the variable is
not in the resolved group-by list and either the clause is a CONSTRUCT clause or no alias
of the SELECT clause has the variable as target. In that case the ORDER BY stage and the
whole call fail with that exception, whose message names the variable, on the query as
it was when the key was reached. Otherwise the key is appended unchanged (same variable,
same direction) to the resolved ORDER BY list and nothing else changes, whether or not
the variable is visible; the key then follows the earlier ones in the resolved ORDER BY
list of the ORDER BY stage and of the whole call whenever they succeed. -/
theorem orderBy_variable_under_grouping (cap : SparqlExpressionCapability E) (pre : String)
    (q q2 qm : ParsedQuery E) (modifiers : SolutionModifiers E)
    (earlier later : List (OrderKey E)) (k : VariableOrderKey)
    (h2 : groupByStage cap pre q modifiers = .ok q2)
    (hg : isGroupBy cap q2 = true)
    (hkeys : modifiers.orderBy_.orderKeys = earlier ++ .ofVariable k :: later)
    (hreach : processOrderKeys cap pre (isGroupBy cap q2) (noteForImplicitGroupBy cap q2)
      earlier q2 = .ok qm) :
    ((∃ msg st, processOrderKeys cap pre (isGroupBy cap q2) (noteForImplicitGroupBy cap q2)
          (earlier ++ [.ofVariable k]) q2 = .error (.InvalidQueryException msg, st)) ↔
        (k.variable_ ∉ q2._groupByVariables ∧
          (q2.hasConstructClause = true ∨ ∀ a ∈ q2.getAliases, a._target ≠ k.variable_))) ∧
      ((k.variable_ ∉ q2._groupByVariables ∧
          (q2.hasConstructClause = true ∨ ∀ a ∈ q2.getAliases, a._target ≠ k.variable_)) →
        ∃ msg, k.variable_.name.data <:+: msg.data ∧
          orderByStage cap pre (isGroupBy cap q2) (noteForImplicitGroupBy cap q2) q2
            modifiers = .error (.InvalidQueryException msg, qm) ∧
          addSolutionModifiers cap pre q modifiers =
            .error (.InvalidQueryException msg, qm)) ∧
      (¬ (k.variable_ ∉ q2._groupByVariables ∧
          (q2.hasConstructClause = true ∨ ∀ a ∈ q2.getAliases, a._target ≠ k.variable_)) →
        processOrderKeys cap pre (isGroupBy cap q2) (noteForImplicitGroupBy cap q2)
            (earlier ++ [.ofVariable k]) q2 =
          .ok { qm with _orderBy := qm._orderBy ++ [k] } ∧
        (∀ q4, orderByStage cap pre (isGroupBy cap q2) (noteForImplicitGroupBy cap q2) q2
            modifiers = .ok q4 → ∃ rest, q4._orderBy = qm._orderBy ++ k :: rest) ∧
        (∀ qf, addSolutionModifiers cap pre q modifiers = .ok qf →
          ∃ rest, qf._orderBy = qm._orderBy ++ k :: rest)) := by
  rw [hg] at hreach ⊢
  have happ := fun ys => processOrderKeys_append_ok cap pre true
    (noteForImplicitGroupBy cap q2) ys earlier q2 qm hreach
  obtain ⟨hcl, hgbv⟩ := processOrderKeys_frame cap pre _ _ earlier q2 qm hreach
  have hcc : qm.hasConstructClause = q2.hasConstructClause := by
    unfold ParsedQueryOver.hasConstructClause
    rw [hcl]
  have hga : qm.getAliases = q2.getAliases := by
    unfold ParsedQueryOver.getAliases
    rw [hcl]
  have hR : (k.variable_ ∉ qm._groupByVariables ∧
        (qm.hasConstructClause = true ∨ ∀ a ∈ qm.getAliases, a._target ≠ k.variable_)) ↔
      (k.variable_ ∉ q2._groupByVariables ∧
        (q2.hasConstructClause = true ∨ ∀ a ∈ q2.getAliases, a._target ≠ k.variable_)) := by
    rw [hgbv, hcc, hga]
  have hk := processOrderKey_variable_grouping cap pre (noteForImplicitGroupBy cap q2) qm k
  by_cases hr : (k.variable_ ∉ q2._groupByVariables ∧
      (q2.hasConstructClause = true ∨ ∀ a ∈ q2.getAliases, a._target ≠ k.variable_))
  · have herr := hk.1 (hR.2 hr)
    have hloop : processOrderKeys cap pre true (noteForImplicitGroupBy cap q2)
        (earlier ++ [.ofVariable k]) q2 = .error (.InvalidQueryException ("Variable " ++
          k.variable_.name ++
          " was used in an ORDER BY clause, but is neither grouped, nor created as an alias in the SELECT clause." ++
          noteForImplicitGroupBy cap q2), qm) := by
      rw [happ]
      simp only [processOrderKeys, herr]
    have hstage : orderByStage cap pre true (noteForImplicitGroupBy cap q2) q2
        modifiers = .error (.InvalidQueryException ("Variable " ++ k.variable_.name ++
          " was used in an ORDER BY clause, but is neither grouped, nor created as an alias in the SELECT clause." ++
          noteForImplicitGroupBy cap q2), qm) := by
      simp only [orderByStage, hkeys]
      rw [happ]
      simp only [processOrderKeys, herr]
    refine ⟨⟨fun _ => hr, fun _ => ⟨_, _, hloop⟩⟩, fun _ => ⟨_, ?_, hstage,
      addSolutionModifiers_eq_orderByStage_error cap pre q q2 modifiers _ h2
        (by rw [hg]; exact hstage)⟩,
      fun hn => absurd hr hn⟩
    exact ⟨"Variable ".data,
      (" was used in an ORDER BY clause, but is neither grouped, nor created as an alias in the SELECT clause." ++
        noteForImplicitGroupBy cap q2).data,
      by simp only [String.data_append, List.append_assoc]⟩
  · have hok := hk.2 (fun h => hr (hR.1 h))
    have hloop : processOrderKeys cap pre true (noteForImplicitGroupBy cap q2)
        (earlier ++ [.ofVariable k]) q2 = .ok { qm with _orderBy := qm._orderBy ++ [k] } := by
      rw [happ]
      simp only [processOrderKeys, hok]
    have hstage : ∀ q4, orderByStage cap pre true
        (noteForImplicitGroupBy cap q2) q2 modifiers = .ok q4 →
        ∃ rest, q4._orderBy = qm._orderBy ++ k :: rest := by
      intro q4 h4
      obtain ⟨qe, hqe, -, hob, -, -⟩ := orderByStage_ok_inv cap pre _ _ q2 q4 modifiers h4
      rw [hkeys, happ] at hqe
      simp only [processOrderKeys, hok] at hqe
      obtain ⟨rest, hrest⟩ := (processOrderKeys_orderBy_counter cap pre _ _ later _ qe hqe).1
      refine ⟨rest, ?_⟩
      rw [hob, ← hrest]
      simp only [List.append_assoc, List.singleton_append]
    refine ⟨⟨fun h => ?_, fun h => absurd h hr⟩, fun h => absurd h hr, fun _ =>
      ⟨hloop, hstage, fun qf hf => ?_⟩⟩
    · obtain ⟨msg, st, he⟩ := h
      rw [hloop] at he
      cases he
    · obtain ⟨q4, h4, h5⟩ := addSolutionModifiers_ok_inv cap pre q q2 qf modifiers h2 hf
      rw [hg] at h4 h5
      obtain ⟨rest, hrest⟩ := hstage q4 h4
      exact ⟨rest, (clauseStage_ok_frame cap _ _ q4 qf h5).1.trans hrest⟩

/-- C14 on `SELECT ?x (COUNT(?y) AS ?c)` with `GROUP BY ?x`: with `ORDER BY ?y` the call fails
with an `InvalidQueryException` on the grouped query (`?y` is visible, but neither grouped
nor an alias target); with `ORDER BY DESC(?c)` the call succeeds and the key is the
resolved ORDER BY list, although `?c` is not visible. -/
theorem orderBy_variable_under_grouping_witness :
    (∃ msg, addSolutionModifiers sampleCapability samplePrefix selectXCountY groupXOrderY =
        .error (.InvalidQueryException msg, selectXCountYGrouped)) ∧
      addSolutionModifiers sampleCapability samplePrefix selectXCountY groupXOrderCDesc =
        .ok selectXCountYOrderedByC ∧
      (∃ rest, selectXCountYOrderedByC._orderBy =
        [] ++ { variable_ := varC, isDescending_ := true } :: rest) ∧
      varC ∉ selectXCountYGrouped.getVisibleVariables :=
  ⟨Exists.imp (fun _ h => h.2.2)
      ((orderBy_variable_under_grouping sampleCapability samplePrefix selectXCountY
        selectXCountYGrouped selectXCountYGrouped groupXOrderY [] []
        { variable_ := varY, isDescending_ := false } rfl rfl rfl rfl).2.1
        ⟨by decide, Or.inr (by decide)⟩),
    rfl,
    ((orderBy_variable_under_grouping sampleCapability samplePrefix selectXCountY
      selectXCountYGrouped selectXCountYGrouped groupXOrderCDesc [] []
      { variable_ := varC, isDescending_ := true } rfl rfl rfl rfl).2.2 (by decide)).2.2
      selectXCountYOrderedByC rfl,
    by decide⟩

/-- C20: let the GROUP BY stage of `addSolutionModifiers` succeed without grouping, and let
the ORDER BY loop reach an expression key whose contained variables are all visible, the
keys before it being accepted. Then the loop accepts the key: it appends a Bind node of
the expression to a fresh internal variable (the prefix followed by the counter) at the
end of the root pattern, appends a key on that variable with the direction of the input
key to the resolved ORDER BY list, increments the counter of internal variables by one,
and leaves the visible variables, the clause and the group-by list unchanged. When it is
the last key, the ORDER BY stage returns this query with the sort flag and the limits set;
in general the root children and the resolved ORDER BY list after the key are a prefix
of those the ORDER BY stage and the whole call return, and the visible variables are
unchanged by the ORDER BY stage. -/
theorem orderBy_expression_without_grouping (cap : SparqlExpressionCapability E)
    (pre : String) (q q2 qm : ParsedQuery E) (modifiers : SolutionModifiers E)
    (earlier later : List (OrderKey E)) (k : ExpressionOrderKey E)
    (h2 : groupByStage cap pre q modifiers = .ok q2)
    (hng : isGroupBy cap q2 = false)
    (hkeys : modifiers.orderBy_.orderKeys = earlier ++ .ofExpression k :: later)
    (hreach : processOrderKeys cap pre (isGroupBy cap q2) (noteForImplicitGroupBy cap q2)
      earlier q2 = .ok qm)
    (hv : ∀ v ∈ cap.containedVariables k.expression_, v ∈ q2.getVisibleVariables) :
    ∃ q1, processOrderKeys cap pre (isGroupBy cap q2) (noteForImplicitGroupBy cap q2)
          (earlier ++ [.ofExpression k]) q2 = .ok q1 ∧
      rootChildren q1 = rootChildren qm ++
        [.Bind k.expression_ ⟨pre ++ toString qm.numInternalVariables_⟩] ∧
      q1._orderBy = qm._orderBy ++
        [{ variable_ := ⟨pre ++ toString qm.numInternalVariables_⟩,
           isDescending_ := k.isDescending_ }] ∧
      q1.numInternalVariables_ = qm.numInternalVariables_ + 1 ∧
      q1.getVisibleVariables = q2.getVisibleVariables ∧
      q1._clause = q2._clause ∧
      q1._groupByVariables = q2._groupByVariables ∧
      (later = [] →
        orderByStage cap pre (isGroupBy cap q2) (noteForImplicitGroupBy cap q2) q2
            modifiers =
          .ok { q1 with
            _isInternalSort := modifiers.orderBy_.isInternalSort
            _limitOffset := modifiers.limitOffset_ }) ∧
      (∀ q4, orderByStage cap pre (isGroupBy cap q2) (noteForImplicitGroupBy cap q2) q2
          modifiers = .ok q4 →
        rootChildren q1 <+: rootChildren q4 ∧ q1._orderBy <+: q4._orderBy ∧
          q1.numInternalVariables_ ≤ q4.numInternalVariables_ ∧
          q4.getVisibleVariables = q2.getVisibleVariables) ∧
      (∀ qf, addSolutionModifiers cap pre q modifiers = .ok qf →
        rootChildren q1 <+: rootChildren qf ∧ q1._orderBy <+: qf._orderBy ∧
          q1.numInternalVariables_ ≤ qf.numInternalVariables_) := by
  rw [hng] at hreach ⊢
  have happ := fun ys => processOrderKeys_append_ok cap pre false
    (noteForImplicitGroupBy cap q2) ys earlier q2 qm hreach
  obtain ⟨hcl, hgbv⟩ := processOrderKeys_frame cap pre _ _ earlier q2 qm hreach
  have hvm := getVisibleVariables_congr q2 qm hcl
  obtain ⟨q1, hq1, hroot, hord, hnum, hvis, hclq, hgbq⟩ :=
    processOrderKey_expression_nongrouping cap pre (noteForImplicitGroupBy cap q2) qm k
      (fun v h => hvm ▸ hv v h)
  have hloop : processOrderKeys cap pre false (noteForImplicitGroupBy cap q2)
      (earlier ++ [.ofExpression k]) q2 = .ok q1 := by
    rw [happ]
    simp only [processOrderKeys, hq1]
  have hstage : ∀ q4, orderByStage cap pre false
      (noteForImplicitGroupBy cap q2) q2 modifiers = .ok q4 →
      rootChildren q1 <+: rootChildren q4 ∧ q1._orderBy <+: q4._orderBy ∧
        q1.numInternalVariables_ ≤ q4.numInternalVariables_ ∧
        q4.getVisibleVariables = q2.getVisibleVariables := by
    intro q4 h4
    obtain ⟨qe, hqe, hr4, hob, hn4, -⟩ := orderByStage_ok_inv cap pre _ _ q2 q4 modifiers h4
    have hc4 := (orderByStage_frame cap pre _ _ q2 q4 modifiers h4).1
    rw [hkeys, happ] at hqe
    simp only [processOrderKeys, hq1] at hqe
    have hp := processOrderKeys_orderBy_counter cap pre _ _ later q1 qe hqe
    have hrc := processOrderKeys_rootChildren cap pre _ _ later q1 qe hqe
    rw [hr4, hob, hn4]
    exact ⟨hrc, hp.1, hp.2, getVisibleVariables_congr q2 q4 hc4⟩
  refine ⟨q1, hloop, hroot, hord, hnum, hvis.trans hvm, hclq.trans hcl, hgbq.trans hgbv,
    fun hl => ?_, hstage, fun qf hf => ?_⟩
  · subst hl
    simp only [orderByStage, hkeys]
    rw [happ]
    simp only [processOrderKeys, hq1]
  · obtain ⟨q4, h4, h5⟩ := addSolutionModifiers_ok_inv cap pre q q2 qf modifiers h2 hf
    rw [hng] at h4 h5
    obtain ⟨ha, hb, hc, -⟩ := hstage q4 h4
    obtain ⟨hf1, hf2, hf3⟩ := clauseStage_ok_frame cap _ _ q4 qf h5
    exact ⟨ha.trans hf3, hf1 ▸ hb, hf2 ▸ hc⟩

/-- C20 on `SELECT ?x` with `?x`, `?y` visible and the counter at 1: with
`ORDER BY DESC(?x + ?y)` the call succeeds, binds the expression to
`?_qlever_internal_variable_1` and orders by it, descending. -/
theorem orderBy_expression_without_grouping_witness :
    addSolutionModifiers sampleCapability samplePrefix selectXOneInternal orderXPlusYDesc =
        .ok selectXOrderedByExpr ∧
      ∃ q1, rootChildren q1 = [.BasicGraphPattern [labelTriple],
          .Bind exprXPlusY ⟨"?_qlever_internal_variable_1"⟩] ∧
        q1._orderBy =
          [{ variable_ := ⟨"?_qlever_internal_variable_1"⟩, isDescending_ := true }] ∧
        q1.numInternalVariables_ = 2 ∧
        rootChildren q1 <+: rootChildren selectXOrderedByExpr ∧
        q1._orderBy <+: selectXOrderedByExpr._orderBy :=
  ⟨rfl,
    Exists.imp
      (fun _ h => ⟨h.2.1.trans (by rfl), h.2.2.1.trans (by decide), h.2.2.2.1,
        (h.2.2.2.2.2.2.2.2.2 selectXOrderedByExpr rfl).1,
        (h.2.2.2.2.2.2.2.2.2 selectXOrderedByExpr rfl).2.1⟩)
      (orderBy_expression_without_grouping sampleCapability samplePrefix selectXOneInternal
        selectXOneInternal selectXOneInternal orderXPlusYDesc [] []
        { isDescending_ := true, expression_ := exprXPlusY } rfl rfl rfl rfl (by decide))⟩

end OrderByStageClaims

/-! ## Lemmas on `util/Algorithm.h` -/

section AlgorithmLemmas

/-- The accumulated size is the sum of the inner sizes as long as that sum fits. -/
theorem foldl_reserve_eq {α : Type} :
    ∀ (input : List (List α)) (i : Nat), i + (input.map List.length).sum < 2 ^ 32 →
      input.foldl (fun i elem => (i + elem.length) % 2 ^ 32) i =
        i + (input.map List.length).sum
  | [], i, _ => by simp
  | sub :: rest, i, h => by
    simp only [List.map_cons, List.sum_cons] at h
    have hlt : i + sub.length < 2 ^ 32 := by omega
    simp only [List.foldl_cons, List.map_cons, List.sum_cons, Nat.mod_eq_of_lt hlt]
    rw [foldl_reserve_eq rest (i + sub.length) (by omega)]
    omega

/-- The loop of `flatten` appends the inner vectors in order. -/
theorem foldl_appendVector_eq {α : Type} :
    ∀ (input : List (List α)) (out : List α),
      input.foldl ad_utility.appendVector out = out ++ input.flatten
  | [], out => by simp
  | sub :: rest, out => by
    simp only [List.foldl_cons, List.flatten_cons]
    rw [foldl_appendVector_eq rest, ad_utility.appendVector, List.append_assoc]

/-- `ad_utility::flatten` returns the concatenation of the inner vectors when their sizes
sum to less than `2 ^ 31`, and throws when the sum is at least `2 ^ 31` and below `2 ^ 32`. -/
theorem ad_utility.flatten_eq {α : Type} (input : List (List α)) :
    ((input.map List.length).sum < 2 ^ 31 → ad_utility.flatten input = some input.flatten) ∧
      (2 ^ 31 ≤ (input.map List.length).sum → (input.map List.length).sum < 2 ^ 32 →
        ad_utility.flatten input = none) := by
  constructor
  · intro h
    have hr := foldl_reserve_eq input 0 (by omega)
    simp only [Nat.zero_add] at hr
    have hn : ¬ 2 ^ 31 ≤ ad_utility.flattenReserveArgument input := by
      unfold ad_utility.flattenReserveArgument
      rw [hr]
      omega
    unfold ad_utility.flatten
    rw [if_neg hn, foldl_appendVector_eq, List.nil_append]
  · intro h1 h2
    have hr := foldl_reserve_eq input 0 (by omega)
    simp only [Nat.zero_add] at hr
    have hn : 2 ^ 31 ≤ ad_utility.flattenReserveArgument input := by
      unfold ad_utility.flattenReserveArgument
      rw [hr]
      exact h1
    unfold ad_utility.flatten
    rw [if_pos hn]

end AlgorithmLemmas

end Qlever
